import Mathlib

/-! # velero-plugin: the restore-time object transformer

A shallow embedding of `pkg/alibabacloud/object_restore_transformer.go`.

Conventions of the embedding.

* A Go `string` is a Lean `String`, read as its sequence of code points.
* A Go `error` is an `Option String`: `none` is `nil`, `some msg` carries the text.
* A Go `map[string]T` is an association list `List (String × T)` read by first match;
  the iteration order of `range` is the order of the list.  A nil map and an empty map
  are both `[]` (the code only assigns into maps it has just made).
* A Go pointer is an `Option`: `none` is `nil`.  Going through a nil pointer is `Run.panic`.
* A function that mutates its argument in place returns the state of that argument.
* The Kubernetes types and the unstructured converter are library code; the types are
  records with the fields the transformer reads or writes, the converter is a parameter.
* A JSON number is an `Int`; floating-point numbers are not modelled (no operation here
  reads a number).
* Logging is not modelled.
-/

namespace Velero

/-! ## Go `strings` helpers -/

/-- The `strings.Replace(s, old, new, 1)` of Go on code-point lists: the first occurrence of
`old` in `s` is replaced by `new`; an empty `old` matches at the start of `s`. -/
def replaceFirst (old new : List Char) : List Char → List Char
  | [] => if old = [] then new else []
  | c :: cs =>
    if old.isPrefixOf (c :: cs) then new ++ (c :: cs).drop old.length
    else c :: replaceFirst old new cs

/-- The call `strings.Replace(s, old, new, 1)`. -/
def strings_Replace1 (s old new : String) : String :=
  ⟨replaceFirst old.data new.data s.data⟩

/-- The `strings.Contains(s, sub)` of Go on code-point lists. -/
def containsSub (sub : List Char) : List Char → Bool
  | [] => sub.isEmpty
  | c :: cs => sub.isPrefixOf (c :: cs) || containsSub sub cs

/-- The call `strings.Contains(s, sub)`. -/
def strings_Contains (s sub : String) : Bool :=
  containsSub sub.data s.data

/-- Splitting a code-point list at every occurrence of `sep`. -/
def splitAt (sep : Char) : List Char → List (List Char)
  | [] => [[]]
  | c :: cs =>
    if c = sep then [] :: splitAt sep cs
    else
      match splitAt sep cs with
      | [] => [[c]]
      | piece :: pieces => (c :: piece) :: pieces

/-- The call `strings.Split(s, sep)` for a separator of one code point. -/
def strings_Split (s : String) (sep : Char) : List String :=
  (splitAt sep s.data).map String.mk

/-- The white space of `unicode.IsSpace`. -/
def isSpace (c : Char) : Bool :=
  let n := c.toNat
  (9 ≤ n && n ≤ 13) || n = 32 || n = 0x85 || n = 0xA0 || n = 0x1680 ||
  (0x2000 ≤ n && n ≤ 0x200A) || n = 0x2028 || n = 0x2029 || n = 0x202F ||
  n = 0x205F || n = 0x3000

/-- The call `strings.TrimSpace(s)`. -/
def strings_TrimSpace (s : String) : String :=
  ⟨((s.data.dropWhile isSpace).reverse.dropWhile isSpace).reverse⟩

/-! ## Go maps -/

/-- The read `m[k]` of a `map[string]string`: the zero value `""` when `k` is absent. -/
def mapGet (m : List (String × String)) (k : String) : String :=
  (m.lookup k).getD ""

/-- The assignment `m[k] = v`. -/
def mapSet {β : Type} (m : List (String × β)) (k : String) (v : β) : List (String × β) :=
  match m with
  | [] => [(k, v)]
  | (k', v') :: rest => if k' = k then (k, v) :: rest else (k', v') :: mapSet rest k v

/-! ## Outcomes -/

/-- How a call ends: it returns with a value (or the state of the object it mutates) and an
error, or it panics. -/
inductive Run (σ : Type) where
  | ret (s : σ) (err : Option String)
  | panic
deriving DecidableEq, Repr

/-! ## The generic tree -/

/-- A value of the generic attribute tree (`interface{}` as decoded from JSON). -/
inductive Value where
  | null
  | bool (b : Bool)
  | num (n : Int)
  | str (s : String)
  | map (m : List (String × Value))
  | seq (l : List Value)

/-- A `map[string]interface{}`. -/
abbrev Object := List (String × Value)

/-- One step of a path into a tree: the key of a mapping or the index of a sequence. -/
inductive Step where
  | key (k : String)
  | idx (i : Nat)
deriving DecidableEq, Repr

/-- A path from the root of a tree. -/
abbrev Path := List Step

/-- The state after a walk: the tree as the walk left it, the calls of the operation
the walk made (the path of the field and the value passed, in the order of the calls),
and the error returned. -/
structure Walk (τ : Type) where
  obj : τ
  calls : List (Path × Value)
  err : Option String

/-- The calls of a walk below the step `s`. -/
def Walk.under {τ : Type} (s : Step) (w : Walk τ) : List (Path × Value) :=
  w.calls.map (fun c => (s :: c.1, c.2))

mutual
/-- The `OperateObjectFields`: the loop over the fields of `obj`. -/
def OperateObjectFields {α : Type} (obj : Object) (field_name : String) (op_arg : α)
    (operation : α → Value → Value × Option String) : Walk Object :=
  match obj with
  | [] => ⟨[], [], none⟩
  | (field, v) :: rest =>
    if field = field_name then
      match operation op_arg v with
      | (_, some err) => ⟨(field, v) :: rest, [([Step.key field], v)], some err⟩
      | (result, none) =>
        let w := OperateObjectFields rest field_name op_arg operation
        ⟨(field, result) :: w.obj, ([Step.key field], v) :: w.calls, w.err⟩
    else
      let w := operateValue v field_name op_arg operation
      match w.err with
      | some err => ⟨(field, w.obj) :: rest, w.under (.key field), some err⟩
      | none =>
        let w2 := OperateObjectFields rest field_name op_arg operation
        ⟨(field, w.obj) :: w2.obj, w.under (.key field) ++ w2.calls, w2.err⟩
termination_by structural obj
/-- The two `else if` branches of `OperateObjectFields` on the value of a field that is not
the target: a mapping is walked, the elements of a sequence are looped over, anything else
is left alone. -/
def operateValue {α : Type} (v : Value) (field_name : String) (op_arg : α)
    (operation : α → Value → Value × Option String) : Walk Value :=
  match v with
  | .map m =>
    let w := OperateObjectFields m field_name op_arg operation
    ⟨.map w.obj, w.calls, w.err⟩
  | .seq l =>
    let w := operateItems l 0 field_name op_arg operation
    ⟨.seq w.obj, w.calls, w.err⟩
  | other => ⟨other, [], none⟩
termination_by structural v
/-- The inner loop `for _, item := range m` of `OperateObjectFields`, from index `i` on:
an element that is a mapping is walked, any other element is skipped. -/
def operateItems {α : Type} (items : List Value) (i : Nat) (field_name : String) (op_arg : α)
    (operation : α → Value → Value × Option String) : Walk (List Value) :=
  match items with
  | [] => ⟨[], [], none⟩
  | .map n :: rest =>
    let w := OperateObjectFields n field_name op_arg operation
    match w.err with
    | some err => ⟨.map w.obj :: rest, w.under (.idx i), some err⟩
    | none =>
      let w2 := operateItems rest (i + 1) field_name op_arg operation
      ⟨.map w.obj :: w2.obj, w.under (.idx i) ++ w2.calls, w2.err⟩
  | other :: rest =>
    let w2 := operateItems rest (i + 1) field_name op_arg operation
    ⟨other :: w2.obj, w2.calls, w2.err⟩
termination_by structural items
end

/-! ## The image rewriter -/

/-- The first argument of an operation, an `interface{}`: a `map[string]string` or
something else. -/
inductive OpArg where
  | sourceMap (m : List (String × String))
  | other

/-- The loop `for old, new := range imageSourceMap` of `ImageTransform`. -/
def replaceAllSources (imageSourceMap : List (String × String)) (imageString : String) : String :=
  imageSourceMap.foldl (fun newImageString p => strings_Replace1 newImageString p.1 p.2)
    imageString

/-- The `ImageTransform`. -/
def ImageTransform (sourceMap : OpArg) (image : Value) : Value × Option String :=
  match image with
  | .str imageString =>
    match sourceMap with
    | .sourceMap imageSourceMap => (.str (replaceAllSources imageSourceMap imageString), none)
    | .other => (image, some "images source map should be a map[string]string")
  | _ => (image, some "cannot change the image as it\x27s not a string")

/-! ## The Kubernetes types -/

/-- The `metav1.ObjectMeta`, with the fields that matter here. -/
structure ObjectMeta where
  Name : String
  Namespace : String
  Labels : List (String × String)
  Annotations : List (String × String)
deriving DecidableEq, Repr

/-- The `v1.FlexPersistentVolumeSource`. -/
structure FlexPersistentVolumeSource where
  Driver : String
  FSType : String
  SecretRef : Option (String × String)
  ReadOnly : Bool
  Options : List (String × String)
deriving DecidableEq, Repr

/-- The fields of a member of the volume-source union other than `FlexVolume`. -/
abbrev VolumeSourceFields := List (String × String)

/-- The `v1.PersistentVolumeSource`, the volume-source union: one pointer for each member. -/
structure PersistentVolumeSource where
  GCEPersistentDisk : Option VolumeSourceFields
  AWSElasticBlockStore : Option VolumeSourceFields
  HostPath : Option VolumeSourceFields
  Glusterfs : Option VolumeSourceFields
  NFS : Option VolumeSourceFields
  RBD : Option VolumeSourceFields
  ISCSI : Option VolumeSourceFields
  Cinder : Option VolumeSourceFields
  CephFS : Option VolumeSourceFields
  FC : Option VolumeSourceFields
  Flocker : Option VolumeSourceFields
  FlexVolume : Option FlexPersistentVolumeSource
  AzureFile : Option VolumeSourceFields
  VsphereVolume : Option VolumeSourceFields
  Quobyte : Option VolumeSourceFields
  AzureDisk : Option VolumeSourceFields
  PhotonPersistentDisk : Option VolumeSourceFields
  PortworxVolume : Option VolumeSourceFields
  ScaleIO : Option VolumeSourceFields
  Local : Option VolumeSourceFields
  StorageOS : Option VolumeSourceFields
  CSI : Option VolumeSourceFields
deriving DecidableEq, Repr

/-- The zero value `v1.PersistentVolumeSource{}`: every member nil. -/
def PersistentVolumeSource.zero : PersistentVolumeSource :=
  ⟨none, none, none, none, none, none, none, none, none, none, none, none,
   none, none, none, none, none, none, none, none, none, none⟩

/-- The names of the members of the volume-source union that are not nil. -/
def PersistentVolumeSource.nonZeroMembers (s : PersistentVolumeSource) : List String :=
  (if s.GCEPersistentDisk.isSome then ["GCEPersistentDisk"] else []) ++
  (if s.AWSElasticBlockStore.isSome then ["AWSElasticBlockStore"] else []) ++
  (if s.HostPath.isSome then ["HostPath"] else []) ++
  (if s.Glusterfs.isSome then ["Glusterfs"] else []) ++
  (if s.NFS.isSome then ["NFS"] else []) ++
  (if s.RBD.isSome then ["RBD"] else []) ++
  (if s.ISCSI.isSome then ["ISCSI"] else []) ++
  (if s.Cinder.isSome then ["Cinder"] else []) ++
  (if s.CephFS.isSome then ["CephFS"] else []) ++
  (if s.FC.isSome then ["FC"] else []) ++
  (if s.Flocker.isSome then ["Flocker"] else []) ++
  (if s.FlexVolume.isSome then ["FlexVolume"] else []) ++
  (if s.AzureFile.isSome then ["AzureFile"] else []) ++
  (if s.VsphereVolume.isSome then ["VsphereVolume"] else []) ++
  (if s.Quobyte.isSome then ["Quobyte"] else []) ++
  (if s.AzureDisk.isSome then ["AzureDisk"] else []) ++
  (if s.PhotonPersistentDisk.isSome then ["PhotonPersistentDisk"] else []) ++
  (if s.PortworxVolume.isSome then ["PortworxVolume"] else []) ++
  (if s.ScaleIO.isSome then ["ScaleIO"] else []) ++
  (if s.Local.isSome then ["Local"] else []) ++
  (if s.StorageOS.isSome then ["StorageOS"] else []) ++
  (if s.CSI.isSome then ["CSI"] else [])

/-- The `v1.PersistentVolumeSpec`; the union is the embedded `PersistentVolumeSource`. -/
structure PersistentVolumeSpec where
  Capacity : List (String × String)
  PersistentVolumeSource : PersistentVolumeSource
  AccessModes : List String
  ClaimRef : Option (String × String)
  PersistentVolumeReclaimPolicy : String
  StorageClassName : String
  MountOptions : List String
  VolumeMode : Option String
deriving DecidableEq, Repr

/-- The `v1.PersistentVolume`. -/
structure PersistentVolume where
  Kind : String
  APIVersion : String
  ObjectMeta : ObjectMeta
  Spec : PersistentVolumeSpec
deriving DecidableEq, Repr

/-- The `storagev1.StorageClass`; `ReclaimPolicy` is a pointer. -/
structure StorageClass where
  Kind : String
  APIVersion : String
  ObjectMeta : ObjectMeta
  Provisioner : String
  Parameters : List (String × String)
  ReclaimPolicy : Option String
  MountOptions : List String
  AllowVolumeExpansion : Option Bool
  VolumeBindingMode : Option String
deriving DecidableEq, Repr

/-- The constant `v1.PersistentVolumeReclaimRecycle`. -/
def PersistentVolumeReclaimRecycle : String := "Recycle"

/-- The constant `v1.PersistentVolumeReclaimRetain`. -/
def PersistentVolumeReclaimRetain : String := "Retain"

/-- The `runtime.DefaultUnstructuredConverter`, library code taken as a parameter: decoding a
tree into a typed object and encoding a typed object as a tree, each of which may fail. -/
structure Converter where
  FromUnstructuredPV : Object → Except String PersistentVolume
  FromUnstructuredSC : Object → Except String StorageClass
  ToUnstructuredPV : PersistentVolume → Except String Object
  ToUnstructuredSC : StorageClass → Except String Object

/-! ## The configuration -/

/-- The `TransformConfig`. -/
structure TransformConfig where
  ImageSource : List (String × String)
  PersistentVolume : List (String × List (String × String))
  StorageClass : List (String × List (String × String))
deriving DecidableEq, Repr

/-- The zero value of `TransformConfig`. -/
def TransformConfig.zero : TransformConfig := ⟨[], [], []⟩

/-- The `ObjectRestoreTransformer` (the logger is not modelled). -/
structure ObjectRestoreTransformer where
  conf : TransformConfig
deriving DecidableEq, Repr

/-- What `LoadConfig` finds at `/transformConf/transform-config.json`: no file, a file that
cannot be opened, a file that cannot be read, or bytes, given by what `json.Unmarshal` makes
of them on a zero `TransformConfig`. -/
inductive ConfigFile where
  | absent
  | openError (err : String)
  | readError (err : String)
  | data (unmarshal : Except String TransformConfig)

/-- The `LoadConfig`: the transformer after the call and the error returned. -/
def LoadConfig (file : ConfigFile) (p : ObjectRestoreTransformer) :
    ObjectRestoreTransformer × Option String :=
  match file with
  | .absent => (p, none)
  | .openError err =>
    (p, some ("cannot open /transformConf/transform-config.json: " ++ err))
  | .readError err => (p, some ("read /transformConf/transform-config.json: " ++ err))
  | .data (.error err) =>
    (p, some ("Unmarshal /transformConf/PersistentVolume.json err: " ++ err))
  | .data (.ok config) => ({ p with conf := config }, none)

/-- The `NewObjectRestoreTransformer`: a zero transformer on which `LoadConfig` has run. -/
def NewObjectRestoreTransformer (file : ConfigFile) : ObjectRestoreTransformer :=
  (LoadConfig file ⟨TransformConfig.zero⟩).1

/-- The `AppliesTo`: the transformer after the call (the selector returned is empty and the
error nil, whatever `LoadConfig` returns). -/
def AppliesTo (file : ConfigFile) (p : ObjectRestoreTransformer) : ObjectRestoreTransformer :=
  (LoadConfig file p).1

/-! ## The volume rewriter -/

/-- The `removePersistentVolumeSource`. -/
def removePersistentVolumeSource (pv : Option PersistentVolume) : Option PersistentVolume :=
  match pv with
  | none => none
  | some pv =>
    some { pv with
      Spec := { pv.Spec with
        PersistentVolumeSource :=
          { PersistentVolumeSource.zero with FlexVolume := some ⟨"", "", none, false, []⟩ }
        MountOptions := [] } }

/-- A block of assignments to fields of `pv.Spec.FlexVolume`: a panic when `pv` or
`pv.Spec.FlexVolume` is nil. -/
def assignFlexVolume (pv : Option PersistentVolume)
    (assign : FlexPersistentVolumeSource → FlexPersistentVolumeSource) :
    Run (Option PersistentVolume) :=
  match pv with
  | none => .panic
  | some pv =>
    match pv.Spec.PersistentVolumeSource.FlexVolume with
    | none => .panic
    | some flex =>
      .ret (some { pv with
        Spec := { pv.Spec with
          PersistentVolumeSource :=
            { pv.Spec.PersistentVolumeSource with FlexVolume := some (assign flex) } } }) none

/-- The call `pv.SetLabels(labels)`: a panic when `pv` is nil. -/
def SetLabels (pv : Option PersistentVolume) (labels : List (String × String)) :
    Run (Option PersistentVolume) :=
  match pv with
  | none => .panic
  | some pv => .ret (some { pv with ObjectMeta := { pv.ObjectMeta with Labels := labels } }) none

/-- The `createOSSVolume`. -/
def createOSSVolume (pv : Option PersistentVolume)
    (bucket url akId akSecret otherOpts : String) : Run (Option PersistentVolume) :=
  if bucket = "" ∨ url = "" ∨ akId = "" ∨ akSecret = "" then
    .ret pv (some ("alibabacloud OSS volume config is invalid. " ++
      "bucket, url, akId, akSecrete should not be empty"))
  else
    assignFlexVolume (removePersistentVolumeSource pv) fun flex =>
      let flex := { flex with Driver := "alicloud/oss" }
      let flex := { flex with Options := mapSet flex.Options "bucket" bucket }
      let flex := { flex with Options := mapSet flex.Options "url" url }
      let flex := { flex with Options := mapSet flex.Options "akId" akId }
      let flex := { flex with Options := mapSet flex.Options "akSecret" akSecret }
      { flex with Options := mapSet flex.Options "otherOpts" otherOpts }

/-- The `createDiskVolume`. -/
def createDiskVolume (pv : Option PersistentVolume)
    (region zone fsType volumeId : String) : Run (Option PersistentVolume) :=
  if region = "" ∨ zone = "" ∨ fsType = "" ∨ volumeId = "" then
    .ret pv (some ("alibabacloud Disk volume config is invalid. " ++
      "region, zone, fsType should not be empty"))
  else if fsType = "ext4" ∨ fsType = "ext3" ∨ fsType = "xfs" ∨ fsType = "vfat" then
    match SetLabels (removePersistentVolumeSource pv)
        [("failure-domain.beta.kubernetes.io/zone", zone),
         ("failure-domain.beta.kubernetes.io/region", region)] with
    | .panic => .panic
    | .ret pv _ =>
      assignFlexVolume pv fun flex =>
        let flex := { flex with Driver := "alicloud/disk" }
        let flex := { flex with FSType := fsType }
        { flex with Options := mapSet flex.Options "volumeId" volumeId }
  else
    .ret pv (some ("unsupported alibabacloud Disk volume fsType: " ++ fsType))

/-- The `createNASVolume`. -/
def createNASVolume (pv : Option PersistentVolume) (server path vers : String) :
    Run (Option PersistentVolume) :=
  if server = "" ∨ path = "" then
    .ret pv (some ("alibabacloud NAS volume config is invalid. " ++
      "server, path, vers should not be empty"))
  else if vers ≠ "3" ∧ vers ≠ "4.0" ∧ vers ≠ "" then
    .ret pv (some ("unsupported nfs version " ++ vers ++ ", \"3\" or \"4.0\" are supported "))
  else
    assignFlexVolume (removePersistentVolumeSource pv) fun flex =>
      let flex := { flex with Driver := "alicloud/nas" }
      let flex := { flex with Options := mapSet flex.Options "server" server }
      let flex := { flex with Options := mapSet flex.Options "path" path }
      if vers ≠ "" then { flex with Options := mapSet flex.Options "vers" vers } else flex

/-- The tail of a case of `TransformPersistentVolume`: `nil, err` when the rewrite returned
an error, `pv, nil` otherwise. -/
def volumeResult (r : Run (Option PersistentVolume)) : Run (Option PersistentVolume) :=
  match r with
  | .panic => .panic
  | .ret _ (some err) => .ret none (some err)
  | .ret pv none => .ret pv none

/-- The `TransformPersistentVolume`: the value returned (nil for no rewrite) and the error. -/
def TransformPersistentVolume (cv : Converter) (p : ObjectRestoreTransformer)
    (content : Object) : Run (Option PersistentVolume) :=
  match cv.FromUnstructuredPV content with
  | .error err => .ret none (some err)
  | .ok pv =>
    match p.conf.PersistentVolume.lookup pv.ObjectMeta.Name with
    | none => .ret none none
    | some pvConf =>
      match pvConf.lookup "transform_to" with
      | none => .ret none (some "transform_to field of volume config need to be set")
      | some vtype =>
        if vtype = "OSS" then
          volumeResult (createOSSVolume (some pv) (mapGet pvConf "bucket") (mapGet pvConf "url")
            (mapGet pvConf "akId") (mapGet pvConf "akSecret") (mapGet pvConf "otherOpts"))
        else if vtype = "DISK" then
          volumeResult (createDiskVolume (some pv) (mapGet pvConf "region")
            (mapGet pvConf "zone") (mapGet pvConf "fsType") (mapGet pvConf "volumeId"))
        else if vtype = "NAS" then
          volumeResult (createNASVolume (some pv) (mapGet pvConf "server")
            (mapGet pvConf "path") (mapGet pvConf "vers"))
        else
          .ret none (some ("unsupported type of volume config: " ++ vtype))

/-! ## The storage-class rewriter -/

/-- The `createDiskStorageClass`. -/
def createDiskStorageClass (sc : Option StorageClass)
    (sctype region zone fstype readonly encrypted : String) : Run (Option StorageClass) :=
  if sctype = "" then
    .ret sc (some ("alibabacloud NAS storageclass config is invalid. " ++
      "type should not be empty"))
  else if sctype = "cloud_ssd" ∨ sctype = "cloud" ∨ sctype = "cloud_efficiency" ∨
      sctype = "available" then
    match sc with
    | none => .panic
    | some sc =>
      let sc := { sc with Provisioner := "alicloud/disk" }
      let sc := { sc with Parameters := [] }
      let sc := { sc with MountOptions := [] }
      let sc := { sc with Parameters := mapSet sc.Parameters "type" sctype }
      let sc :=
        if region ≠ "" ∧ zone ≠ "" then
          let sc := { sc with Parameters := mapSet sc.Parameters "regionid" region }
          { sc with Parameters := mapSet sc.Parameters "zoneid" zone }
        else sc
      let sc :=
        if fstype ≠ "" then { sc with Parameters := mapSet sc.Parameters "fstype" fstype }
        else sc
      let sc :=
        if readonly ≠ "" then { sc with Parameters := mapSet sc.Parameters "readonly" readonly }
        else sc
      let sc :=
        if encrypted ≠ "" then
          { sc with Parameters := mapSet sc.Parameters "encrypted" encrypted }
        else sc
      match sc.ReclaimPolicy with
      | none => .panic
      | some policy =>
        if policy = PersistentVolumeReclaimRecycle then
          .ret (some { sc with ReclaimPolicy := some PersistentVolumeReclaimRetain }) none
        else .ret (some sc) none
  else
    .ret sc (some ("unsupported alibabacloud Disk StorageClass type: " ++ sctype))

/-- The `createNASStorageClass`. -/
def createNASStorageClass (sc : Option StorageClass) (drivertype nfsversion options : String)
    (mountOptions : List String) : Run (Option StorageClass) :=
  if drivertype = "nfs" then
    if mountOptions.length = 0 then
      .ret sc (some "mountOptions field should not be empty")
    else
      match sc with
      | none => .panic
      | some sc =>
        let sc := { sc with Parameters := [] }
        let sc := { sc with MountOptions := mountOptions }
        .ret (some { sc with Provisioner := "alicloud/nas" }) none
  else if drivertype = "flexvolume" then
    if nfsversion ≠ "3" ∧ nfsversion ≠ "4.0" ∧ nfsversion ≠ "" then
      .ret sc (some ("supported nfs version are \"3\" or \"4.0\", " ++ nfsversion ++
        " is not one of them"))
    else
      match sc with
      | none => .panic
      | some sc =>
        let sc := { sc with Parameters := [] }
        let sc := { sc with MountOptions := [] }
        let sc := { sc with Parameters := mapSet sc.Parameters "drivertype" "flexvolume" }
        let sc :=
          if nfsversion ≠ "" then
            { sc with Parameters := mapSet sc.Parameters "nfsversion" nfsversion }
          else sc
        let sc := { sc with Parameters := mapSet sc.Parameters "options" options }
        .ret (some { sc with Provisioner := "alicloud/nas" }) none
  else
    .ret sc (some ("drivertype " ++ drivertype ++
      " is illegal for alibabacloud ACK NAS StorageClass"))

/-- The tail of a case of `TransformStorageClass`: `nil, err` when the rewrite returned an
error, `sc, nil` otherwise. -/
def classResult (r : Run (Option StorageClass)) : Run (Option StorageClass) :=
  match r with
  | .panic => .panic
  | .ret _ (some err) => .ret none (some err)
  | .ret sc none => .ret sc none

/-- The `TransformStorageClass`: the value returned (nil for no rewrite) and the error. -/
def TransformStorageClass (cv : Converter) (p : ObjectRestoreTransformer)
    (content : Object) : Run (Option StorageClass) :=
  match cv.FromUnstructuredSC content with
  | .error err => .ret none (some err)
  | .ok sc =>
    match p.conf.StorageClass.lookup sc.ObjectMeta.Name with
    | none => .ret none none
    | some scConf =>
      match scConf.lookup "alibaba_ACK_provisioner" with
      | none => .ret none (some "alibaba_ACK_provisioner field of volume config need to be set")
      | some provisioner =>
        if provisioner = "DISK" then
          classResult (createDiskStorageClass (some sc) (mapGet scConf "type")
            (mapGet scConf "region") (mapGet scConf "zone") (mapGet scConf "fstype")
            (mapGet scConf "readonly") (mapGet scConf "encrypted"))
        else if provisioner = "NAS" then
          let mopts := (strings_Split (mapGet scConf "mountOptions") ',').map strings_TrimSpace
          classResult (createNASStorageClass (some sc) (mapGet scConf "drivertype")
            (mapGet scConf "nfsversion") (mapGet scConf "options") mopts)
        else
          .ret none (some ("unsupported provisioner of storageclass config: " ++ provisioner))

/-! ## The dispatcher -/

/-- The `Execute`: the item of the output and the error returned.  The walk of the default
case mutates the content of the input item in place, so the item handed back on an error
of the walk is the item as the walk left it. -/
def Execute (cv : Converter) (p : ObjectRestoreTransformer) (item : Object) : Run Object :=
  let content := item
  match content.lookup "kind" with
  | some (.str kind) =>
    if kind = "StorageClass" then
      match TransformStorageClass cv p content with
      | .panic => .panic
      | .ret _ (some err) => .ret item (some err)
      | .ret none none => .ret content none
      | .ret (some sc) none =>
        match cv.ToUnstructuredSC sc with
        | .error err => .ret item (some err)
        | .ok content => .ret content none
    else if kind = "PersistentVolume" then
      match TransformPersistentVolume cv p content with
      | .panic => .panic
      | .ret _ (some err) => .ret item (some err)
      | .ret none none => .ret content none
      | .ret (some pv) none =>
        match cv.ToUnstructuredPV pv with
        | .error err => .ret item (some err)
        | .ok content => .ret content none
    else
      let w := OperateObjectFields content "image" (OpArg.sourceMap p.conf.ImageSource)
        ImageTransform
      match w.err with
      | some err => .ret w.obj (some ("transform image failed: " ++ err))
      | none => .ret w.obj none
  | _ => .ret item (some "resource kind field error")

/-- The process around the transformer: the configuration file on disk and the
transformer the host holds. -/
structure World where
  file : ConfigFile
  p : ObjectRestoreTransformer

/-- The configuration file is replaced; the transformer is not touched. -/
def World.writeConfig (w : World) (file : ConfigFile) : World :=
  { w with file := file }

/-- The host calls `AppliesTo`. -/
def World.AppliesTo (w : World) : World :=
  { w with p := Velero.AppliesTo w.file w.p }

/-- The host calls `Execute`: the world after the call and what the call returned. -/
def World.Execute (cv : Converter) (w : World) (item : Object) : World × Run Object :=
  (w, Velero.Execute cv w.p item)

/-! ## Paths, fields and well-formed trees -/

/-- The value at the end of a path: a key step reads a mapping, an index step a sequence. -/
def Value.get : Value → Path → Option Value
  | v, [] => some v
  | .map m, .key k :: p =>
    match m.lookup k with
    | some v => v.get p
    | none => none
  | .seq l, .idx i :: p =>
    match l[i]? with
    | some v => v.get p
    | none => none
  | _, _ => none

/-- In the words of the specification: a field whose key is `f`, reachable from the root
through nested mappings or through mapping-valued sequence elements; `SpecField f v p c`
says that such a field lies at path `p` below `v` and holds `c`. -/
inductive SpecField (f : String) : Value → Path → Value → Prop
  | here {m : Object} {c : Value} : (f, c) ∈ m → SpecField f (.map m) [.key f] c
  | field {m : Object} {k : String} {v : Value} {p : Path} {c : Value} :
      (k, v) ∈ m → SpecField f v p c → SpecField f (.map m) (.key k :: p) c
  | item {l : List Value} {i : Nat} {n : Object} {p : Path} {c : Value} :
      l[i]? = some (.map n) → SpecField f (.map n) p c → SpecField f (.seq l) (.idx i :: p) c

/-- The fields the walk is to reach: as `SpecField`, but the way to the field passes through
no field whose key is `f`. -/
inductive Visited (f : String) : Value → Path → Value → Prop
  | here {m : Object} {c : Value} : (f, c) ∈ m → Visited f (.map m) [.key f] c
  | field {m : Object} {k : String} {v : Value} {p : Path} {c : Value} :
      k ≠ f → (k, v) ∈ m → Visited f v p c → Visited f (.map m) (.key k :: p) c
  | item {l : List Value} {i : Nat} {n : Object} {p : Path} {c : Value} :
      l[i]? = some (.map n) → Visited f (.map n) p c → Visited f (.seq l) (.idx i :: p) c

mutual
/-- No mapping of the object has a key twice. -/
def wfObject : Object → Bool
  | [] => true
  | (k, v) :: rest => !(rest.any (fun e => e.1 == k)) && wfValue v && wfObject rest
termination_by structural obj => obj
/-- No mapping inside the value has a key twice. -/
def wfValue : Value → Bool
  | .map m => wfObject m
  | .seq l => wfItems l
  | _ => true
termination_by structural v => v
/-- No mapping inside the elements has a key twice. -/
def wfItems : List Value → Bool
  | [] => true
  | v :: rest => wfValue v && wfItems rest
termination_by structural l => l
end

/-! ## What the rewrites are to leave -/

/-- The volume source a rewrite leaves: every member nil but `FlexVolume`. -/
def flexOnly (flex : FlexPersistentVolumeSource) : PersistentVolumeSource :=
  { PersistentVolumeSource.zero with FlexVolume := some flex }

/-- The volume after its volume source has been cleared and the fields of its `FlexVolume`
assigned: the volume source is `flexOnly flex`, the mount options are empty, and every other
field is as it was. -/
def cleared (pv : PersistentVolume) (flex : FlexPersistentVolumeSource) : PersistentVolume :=
  { pv with Spec := { pv.Spec with PersistentVolumeSource := flexOnly flex, MountOptions := [] } }

/-- In the words of the specification, the parameters a DISK rewrite leaves: `type`;
`regionid` and `zoneid` when region and zone are both non-empty; each of `fstype`,
`readonly`, `encrypted` when its value is non-empty. -/
def diskParameters (sctype region zone fstype readonly encrypted : String) :
    List (String × String) :=
  [("type", sctype)] ++
  (if region ≠ "" ∧ zone ≠ "" then [("regionid", region), ("zoneid", zone)] else []) ++
  (if fstype ≠ "" then [("fstype", fstype)] else []) ++
  (if readonly ≠ "" then [("readonly", readonly)] else []) ++
  (if encrypted ≠ "" then [("encrypted", encrypted)] else [])

/-- In the words of the specification, the reclaim policy a DISK rewrite leaves: `Retain`
for `Recycle`, any other policy as it was. -/
def diskPolicy (policy : String) : String :=
  if policy = "Recycle" then "Retain" else policy

/-! ## Examples -/

/-- A PersistentVolume for the examples: named `pv-a`, backed by NFS, with one label. -/
def fixturePV : PersistentVolume :=
  { Kind := "PersistentVolume", APIVersion := "v1",
    ObjectMeta := ⟨"pv-a", "", [("app", "db")], []⟩,
    Spec :=
      { Capacity := [("storage", "5Gi")],
        PersistentVolumeSource :=
          { PersistentVolumeSource.zero with NFS := some [("server", "10.0.0.1"), ("path", "/")] },
        AccessModes := ["ReadWriteMany"], ClaimRef := none,
        PersistentVolumeReclaimPolicy := "Retain", StorageClassName := "",
        MountOptions := ["hard"], VolumeMode := none } }

/-- A StorageClass for the examples: named `sc-a`, with the reclaim policy given. -/
def fixtureSC (policy : Option String) : StorageClass :=
  { Kind := "StorageClass", APIVersion := "storage.k8s.io/v1",
    ObjectMeta := ⟨"sc-a", "", [], []⟩,
    Provisioner := "kubernetes.io/aws-ebs", Parameters := [("type", "gp2")],
    ReclaimPolicy := policy, MountOptions := ["debug"],
    AllowVolumeExpansion := none, VolumeBindingMode := none }

/-- The name under `metadata.name` of a tree. -/
def fixtureName (content : Object) : Option String :=
  match content.lookup "metadata" with
  | some (.map metadata) =>
    match metadata.lookup "name" with
    | some (.str name) => some name
    | _ => none
  | _ => none

/-- A converter for the examples.  Decoding reads the name of the object and, for a
StorageClass, the reclaim policy from the tree, takes every other field from `fixturePV` or
`fixtureSC`, and fails on a tree without a name; encoding writes the kind and the name. -/
def fixtureConverter : Converter :=
  { FromUnstructuredPV := fun content =>
      match fixtureName content with
      | some name => .ok { fixturePV with ObjectMeta := ⟨name, "", [("app", "db")], []⟩ }
      | none => .error "cannot decode",
    FromUnstructuredSC := fun content =>
      match fixtureName content, content.lookup "reclaimPolicy" with
      | some name, some (.str policy) =>
        .ok { fixtureSC (some policy) with ObjectMeta := ⟨name, "", [], []⟩ }
      | some name, none => .ok { fixtureSC none with ObjectMeta := ⟨name, "", [], []⟩ }
      | _, _ => .error "cannot decode",
    ToUnstructuredPV := fun pv =>
      .ok [("kind", .str pv.Kind), ("metadata", .map [("name", .str pv.ObjectMeta.Name)])],
    ToUnstructuredSC := fun sc =>
      .ok [("kind", .str sc.Kind), ("metadata", .map [("name", .str sc.ObjectMeta.Name)])] }

/-- The tree of a PersistentVolume named `pv-a`. -/
def fixtureTreePV : Object :=
  [("kind", .str "PersistentVolume"), ("metadata", .map [("name", .str "pv-a")])]

/-- The tree of a StorageClass named `sc-a`, with the reclaim policy given. -/
def fixtureTreeSC (policy : Option String) : Object :=
  [("kind", .str "StorageClass"), ("metadata", .map [("name", .str "sc-a")])] ++
  (match policy with
   | some policy => [("reclaimPolicy", .str policy)]
   | none => [])

/-- The configuration entry of scenario E3. -/
def fixtureOSSEntry : List (String × String) :=
  [("transform_to", "OSS"), ("bucket", "b"), ("url", "u"), ("akId", "i"), ("akSecret", "s"),
   ("otherOpts", "-o")]

/-- The transformer of scenario E3. -/
def fixtureConfigOSS : ObjectRestoreTransformer :=
  ⟨{ ImageSource := [], PersistentVolume := [("pv-a", fixtureOSSEntry)], StorageClass := [] }⟩

/-- The PersistentVolume scenario E3 expects. -/
def fixtureOSSRewritten : PersistentVolume :=
  cleared fixturePV
    { Driver := "alicloud/oss", FSType := "", SecretRef := none, ReadOnly := false,
      Options := [("bucket", "b"), ("url", "u"), ("akId", "i"), ("akSecret", "s"),
        ("otherOpts", "-o")] }

/-- The configuration entry of scenario E5. -/
def fixtureDiskEntry : List (String × String) :=
  [("alibaba_ACK_provisioner", "DISK"), ("type", "cloud_ssd"), ("region", "r"), ("zone", "z")]

/-- The transformer of scenario E5. -/
def fixtureConfigDisk : ObjectRestoreTransformer :=
  ⟨{ ImageSource := [], PersistentVolume := [], StorageClass := [("sc-a", fixtureDiskEntry)] }⟩

/-- The StorageClass scenario E5 expects. -/
def fixtureDiskRewritten : StorageClass :=
  { fixtureSC (some "Retain") with
    Provisioner := "alicloud/disk", MountOptions := [],
    Parameters := [("type", "cloud_ssd"), ("regionid", "r"), ("zoneid", "z")] }

/-- A transformer with a NAS/nfs entry whose mount options are the empty string. -/
def fixtureConfigNfsEmpty : ObjectRestoreTransformer :=
  ⟨{ ImageSource := [], PersistentVolume := [],
     StorageClass := [("sc-a", [("alibaba_ACK_provisioner", "NAS"), ("drivertype", "nfs"),
       ("mountOptions", "")])] }⟩

/-- A transformer with a NAS/nfs entry that has no mount options. -/
def fixtureConfigNfsAbsent : ObjectRestoreTransformer :=
  ⟨{ ImageSource := [], PersistentVolume := [],
     StorageClass := [("sc-a", [("alibaba_ACK_provisioner", "NAS"), ("drivertype", "nfs")])] }⟩

/-- The StorageClass the NAS/nfs rewrite leaves when the mount options are empty or absent:
one mount option, the empty string. -/
def fixtureNfsRewritten : StorageClass :=
  { fixtureSC (some "Delete") with
    Provisioner := "alicloud/nas", Parameters := [], MountOptions := [""] }

/-- A configuration file that parses to a configuration with the one image source
`tes -> new`. -/
def fixtureFile (new : String) : ConfigFile :=
  .data (.ok { ImageSource := [("tes", new)], PersistentVolume := [], StorageClass := [] })

/-- A Deployment with the image given. -/
def fixtureDeployment (image : String) : Object :=
  [("kind", .str "Deployment"), ("image", .str image)]

/-- The process right after `NewObjectRestoreTransformer` ran with the configuration file
`file` on disk. -/
def World.start (file : ConfigFile) : World :=
  ⟨file, NewObjectRestoreTransformer file⟩

/-- The process of the example: the transformer was made with the image source `tes -> 1` on
disk and has executed once; then the file was replaced by one with the image source
`tes -> 2`. -/
def fixtureWorldAfterChange : World :=
  ((World.start (fixtureFile "1")).Execute fixtureConverter (fixtureDeployment "test")).1.writeConfig
    (fixtureFile "2")

/-- The tree of scenario E2. -/
def fixtureE2 : Object :=
  [("kind", .str "Deployment"),
   ("spec", .map [("image", .str "test"), ("nested", .map [("image", .str "test")])]),
   ("list", .seq [.map [("image", .str "test")], .str "ignored"])]

/-- The tree of scenario E2 after the rewrite. -/
def fixtureE2Rewritten : Object :=
  [("kind", .str "Deployment"),
   ("spec", .map [("image", .str "1t"), ("nested", .map [("image", .str "1t")])]),
   ("list", .seq [.map [("image", .str "1t")], .str "ignored"])]

/-- A sequence of two mappings, the first with an image that is not a string. -/
def fixtureTwoItems : Object :=
  [("list", .seq [.map [("image", .num 1)], .map [("image", .str "test")]])]

/-- An image field whose value is a mapping that holds an image field of its own. -/
def fixtureNestedImage : Object :=
  [("image", .map [("image", .str "test")])]

/-- An image field whose value is a mapping with a field of another name. -/
def fixtureImageMapping : Object :=
  [("image", .map [("x", .num 1)])]

/-- An operation that hands every value back and never fails. -/
def keepOperation : Unit → Value → Value × Option String :=
  fun _ v => (v, none)

/-- An operation that replaces every value by a string and never fails. -/
def redactOperation : Unit → Value → Value × Option String :=
  fun _ _ => (.str "redacted", none)

/-- How many of the calls of a walk were at the field at path `q`. -/
def Walk.callsAt {τ : Type} (w : Walk τ) (q : Path) : Nat :=
  (w.calls.filter (fun c => decide (c.1 = q))).length

/-! ## What the NAS rewrites are to leave -/

/-- In the words of the specification, the options a NAS volume rewrite leaves: `server`,
`path`, and `vers` when it is non-empty. -/
def nasOptions (server path vers : String) : List (String × String) :=
  [("server", server), ("path", path)] ++ (if vers ≠ "" then [("vers", vers)] else [])

/-- In the words of the specification, the parameters a NAS/flexvolume rewrite leaves:
`drivertype`, `nfsversion` when it is non-empty, and `options`. -/
def nasParameters (nfsversion options : String) : List (String × String) :=
  [("drivertype", "flexvolume")] ++
  (if nfsversion ≠ "" then [("nfsversion", nfsversion)] else []) ++
  [("options", options)]

/-! ## More examples -/

/-- The PersistentVolume a DISK rewrite of `fixturePV` with the file system `ext4` leaves. -/
def fixtureDiskVolumeRewritten : PersistentVolume :=
  cleared
    { fixturePV with
      ObjectMeta :=
        { fixturePV.ObjectMeta with
          Labels := [("failure-domain.beta.kubernetes.io/zone", "cn-hangzhou-b"),
            ("failure-domain.beta.kubernetes.io/region", "cn-hangzhou")] } }
    { Driver := "alicloud/disk", FSType := "ext4", SecretRef := none, ReadOnly := false,
      Options := [("volumeId", "d-1")] }

/-- The StorageClass scenario E6 expects. -/
def fixtureFlexRewritten : StorageClass :=
  { fixtureSC (some "Delete") with
    Provisioner := "alicloud/nas", MountOptions := [],
    Parameters := [("drivertype", "flexvolume"), ("nfsversion", "4.0"),
      ("options", "noresvport")] }

/-- The transformer of scenario E1: one image source and no entry for any volume or class. -/
def fixtureConfigImages : ObjectRestoreTransformer :=
  ⟨{ ImageSource := [("tes", "1")], PersistentVolume := [], StorageClass := [] }⟩

/-- The tree of scenario E1: an image and no kind. -/
def fixtureE1 : Object :=
  [("image", .str "test")]

/-- A transformer whose entries for `pv-a` and `sc-a` have no tag. -/
def fixtureConfigNoTag : ObjectRestoreTransformer :=
  ⟨{ ImageSource := [], PersistentVolume := [("pv-a", [("bucket", "b")])],
     StorageClass := [("sc-a", [("type", "cloud_ssd")])] }⟩

/-- A transformer whose entries for `pv-a` and `sc-a` have a tag that is not supported. -/
def fixtureConfigBadTag : ObjectRestoreTransformer :=
  ⟨{ ImageSource := [], PersistentVolume := [("pv-a", [("transform_to", "CEPH")])],
     StorageClass := [("sc-a", [("alibaba_ACK_provisioner", "OSS")])] }⟩

/-! ## The iteration order of mappings -/

/-- The same tree with the keys of its mappings in another iteration order: `Reorder v w`
holds when `w` is `v` with the entries of some of its mappings, at any depth, permuted.
Sequences keep their order. -/
inductive Reorder : Value → Value → Prop
  | refl (v : Value) : Reorder v v
  | mapCons {k : String} {v w : Value} {m n : Object} :
      Reorder v w → Reorder (.map m) (.map n) → Reorder (.map ((k, v) :: m)) (.map ((k, w) :: n))
  | mapSwap (e1 e2 : String × Value) (m : Object) :
      Reorder (.map (e1 :: e2 :: m)) (.map (e2 :: e1 :: m))
  | seqCons {v w : Value} {l r : List Value} :
      Reorder v w → Reorder (.seq l) (.seq r) → Reorder (.seq (v :: l)) (.seq (w :: r))
  | trans {u v w : Value} : Reorder u v → Reorder v w → Reorder u w

/-- An operation that is a function of its arguments as Go values: on the same value in
another iteration order it fails or not alike, and when it does not fail it returns the same
value up to the iteration order. -/
def OrderInsensitive {α : Type} (op_arg : α) (operation : α → Value → Value × Option String) :
    Prop :=
  ∀ v w, Reorder v w →
    ((operation op_arg v).2 = none ↔ (operation op_arg w).2 = none) ∧
    ((operation op_arg v).2 = none → Reorder (operation op_arg v).1 (operation op_arg w).1)

/-- The body of the loop of `OperateObjectFields` for one field: what the field holds after
it, and the error. -/
def fieldWalk {α : Type} (field : String) (v : Value) (field_name : String) (op_arg : α)
    (operation : α → Value → Value × Option String) : Value × Option String :=
  if field = field_name then
    match operation op_arg v with
    | (_, some err) => (v, some err)
    | (result, none) => (result, none)
  else ((operateValue v field_name op_arg operation).obj,
    (operateValue v field_name op_arg operation).err)

/-- The body of the inner loop of `OperateObjectFields` for one element of a sequence: what
the element is after it, and the error. -/
def itemWalk {α : Type} (item : Value) (field_name : String) (op_arg : α)
    (operation : α → Value → Value × Option String) : Value × Option String :=
  match item with
  | .map n =>
    (.map (OperateObjectFields n field_name op_arg operation).obj,
     (OperateObjectFields n field_name op_arg operation).err)
  | other => (other, none)

/-- The tree of scenario E2 with its keys in another order, at the root and under `spec`. -/
def fixtureE2Reordered : Object :=
  [("spec", .map [("nested", .map [("image", .str "test")]), ("image", .str "test")]),
   ("kind", .str "Deployment"),
   ("list", .seq [.map [("image", .str "test")], .str "ignored"])]

/-- The tree of scenario E2 in the other order after the rewrite. -/
def fixtureE2ReorderedRewritten : Object :=
  [("spec", .map [("nested", .map [("image", .str "1t")]), ("image", .str "1t")]),
   ("kind", .str "Deployment"),
   ("list", .seq [.map [("image", .str "1t")], .str "ignored"])]

/-- A tree with an image that is not a string and, in a mapping beside it, one that is. -/
def fixtureBadImageFirst : Object :=
  [("image", .num 1), ("spec", .map [("image", .str "test")])]

/-- The same tree with the mapping iterated first. -/
def fixtureBadImageLast : Object :=
  [("spec", .map [("image", .str "test")]), ("image", .num 1)]

/-! ## Examples of walks that stop or skip -/

/-- A sequence of sequences: the mapping in the inner sequence holds an image field whose
value is a mapping. -/
def fixtureNestedSequence : Object :=
  [("list", .seq [.seq [.map [("image", .map [("x", .num 1)])]]])]

/-- A sequence of sequences whose inner mapping holds an image. -/
def fixtureSequenceOfSequences : Object :=
  [("list", .seq [.seq [.map [("image", .str "test")]]])]

/-- The calls and the error of a walk that stops at the first call that fails: without an
error no call failed; with an error the last call failed with that error and no call before
it failed. -/
def StopsAtError {α : Type} (op_arg : α) (operation : α → Value → Value × Option String)
    (calls : List (Path × Value)) (err : Option String) : Prop :=
  (err = none → ∀ x ∈ calls, (operation op_arg x.2).2 = none) ∧
  (∀ e, err = some e → ∃ pre x, calls = pre ++ [x] ∧
    (∀ y ∈ pre, (operation op_arg y.2).2 = none) ∧ (operation op_arg x.2).2 = some e)

/-! ## Images made of pieces -/

/-- The pieces with the character `d` between them. -/
def joinChars (d : Char) : List (List Char) → List Char
  | [] => []
  | [t] => t
  | t :: t' :: ts => t ++ d :: joinChars d (t' :: ts)

/-- The string made of the pieces with the separator `d` between them, as `gcr.io/pause:3.1`
is made of `gcr.io` and `pause:3.1` with `/`. -/
def joinPieces (d : Char) (pieces : List String) : String :=
  ⟨joinChars d (pieces.map String.data)⟩

/-- An image source map with two registries. -/
def fixtureRegistries : List (String × String) :=
  [("gcr.io", "registry.cn/acs"), ("k8s.gcr.io", "registry.cn/k8s")]

/-- The same map iterated in the other order. -/
def fixtureRegistriesSwapped : List (String × String) :=
  [("k8s.gcr.io", "registry.cn/k8s"), ("gcr.io", "registry.cn/acs")]

/-! # Theorems -/

/-! ### The walk -/

variable {α : Type} (f : String) (a : α) (op : α → Value → Value × Option String)

theorem Visited.cons_of_rest {f : String} {e : String × Value} {rest : Object} {q : Path} {c : Value}
    (h : Visited f (.map rest) q c) : Visited f (.map (e :: rest)) q c := by
  cases h with
  | here hm => exact .here (List.mem_cons_of_mem _ hm)
  | field hk hm hv => exact .field hk (List.mem_cons_of_mem _ hm) hv

theorem Visited.seq_cons {f : String} {e : Value} {rest : List Value} {j : Nat} {q : Path}
    {c : Value} (h : Visited f (.seq rest) (.idx j :: q) c) :
    Visited f (.seq (e :: rest)) (.idx (j + 1) :: q) c := by
  cases h with
  | item hl hv => exact .item (by simpa using hl) hv

theorem mem_under {τ : Type} (s : Step) (w : Walk τ) (q : Path) (c : Value) :
    (q, c) ∈ w.under s ↔ ∃ q', q = s :: q' ∧ (q', c) ∈ w.calls := by
  unfold Walk.under
  constructor
  · intro h
    obtain ⟨x, hx, he⟩ := List.mem_map.mp h
    cases x with
    | mk x1 x2 =>
      simp only [Prod.mk.injEq] at he
      exact ⟨x1, he.1.symm, he.2 ▸ hx⟩
  · rintro ⟨q', rfl, h⟩
    exact List.mem_map.mpr ⟨(q', c), h, rfl⟩

mutual
theorem tree_induction_obj (PV : Value → Prop) (PO : Object → Prop) (PL : List Value → Prop)
    (hnull : PV .null) (hbool : ∀ b, PV (.bool b)) (hnum : ∀ n, PV (.num n))
    (hstr : ∀ s, PV (.str s)) (hmap : ∀ m, PO m → PV (.map m)) (hseq : ∀ l, PL l → PV (.seq l))
    (honil : PO []) (hocons : ∀ k v rest, PV v → PO rest → PO ((k, v) :: rest))
    (hlnil : PL []) (hlcons : ∀ v rest, PV v → PL rest → PL (v :: rest)) :
    ∀ m : Object, PO m
  | [] => honil
  | (k, v) :: rest =>
    hocons k v rest
      (tree_induction_val PV PO PL hnull hbool hnum hstr hmap hseq honil hocons hlnil hlcons v)
      (tree_induction_obj PV PO PL hnull hbool hnum hstr hmap hseq honil hocons hlnil hlcons rest)
termination_by structural m => m
theorem tree_induction_val (PV : Value → Prop) (PO : Object → Prop) (PL : List Value → Prop)
    (hnull : PV .null) (hbool : ∀ b, PV (.bool b)) (hnum : ∀ n, PV (.num n))
    (hstr : ∀ s, PV (.str s)) (hmap : ∀ m, PO m → PV (.map m)) (hseq : ∀ l, PL l → PV (.seq l))
    (honil : PO []) (hocons : ∀ k v rest, PV v → PO rest → PO ((k, v) :: rest))
    (hlnil : PL []) (hlcons : ∀ v rest, PV v → PL rest → PL (v :: rest)) :
    ∀ v : Value, PV v
  | .null => hnull
  | .bool b => hbool b
  | .num n => hnum n
  | .str s => hstr s
  | .map m =>
    hmap m
      (tree_induction_obj PV PO PL hnull hbool hnum hstr hmap hseq honil hocons hlnil hlcons m)
  | .seq l =>
    hseq l
      (tree_induction_items PV PO PL hnull hbool hnum hstr hmap hseq honil hocons hlnil hlcons l)
termination_by structural v => v
theorem tree_induction_items (PV : Value → Prop) (PO : Object → Prop) (PL : List Value → Prop)
    (hnull : PV .null) (hbool : ∀ b, PV (.bool b)) (hnum : ∀ n, PV (.num n))
    (hstr : ∀ s, PV (.str s)) (hmap : ∀ m, PO m → PV (.map m)) (hseq : ∀ l, PL l → PV (.seq l))
    (honil : PO []) (hocons : ∀ k v rest, PV v → PO rest → PO ((k, v) :: rest))
    (hlnil : PL []) (hlcons : ∀ v rest, PV v → PL rest → PL (v :: rest)) :
    ∀ l : List Value, PL l
  | [] => hlnil
  | v :: rest =>
    hlcons v rest
      (tree_induction_val PV PO PL hnull hbool hnum hstr hmap hseq honil hocons hlnil hlcons v)
      (tree_induction_items PV PO PL hnull hbool hnum hstr hmap hseq honil hocons hlnil hlcons rest)
termination_by structural l => l
end

/-- Induction over a tree: a property of values, one of mappings and one of sequences. -/
theorem tree_induction (PV : Value → Prop) (PO : Object → Prop) (PL : List Value → Prop)
    (hscalar : ∀ v, (∀ m, v ≠ .map m) → (∀ l, v ≠ .seq l) → PV v)
    (hmap : ∀ m, PO m → PV (.map m)) (hseq : ∀ l, PL l → PV (.seq l))
    (honil : PO []) (hocons : ∀ k v rest, PV v → PO rest → PO ((k, v) :: rest))
    (hlnil : PL []) (hlcons : ∀ v rest, PV v → PL rest → PL (v :: rest)) :
    (∀ v, PV v) ∧ (∀ m, PO m) ∧ (∀ l, PL l) :=
  have h1 : PV .null := hscalar _ (fun _ h => by cases h) (fun _ h => by cases h)
  have h2 : ∀ b, PV (.bool b) := fun _ => hscalar _ (fun _ h => by cases h) (fun _ h => by cases h)
  have h3 : ∀ n, PV (.num n) := fun _ => hscalar _ (fun _ h => by cases h) (fun _ h => by cases h)
  have h4 : ∀ s, PV (.str s) := fun _ => hscalar _ (fun _ h => by cases h) (fun _ h => by cases h)
  ⟨tree_induction_val PV PO PL h1 h2 h3 h4 hmap hseq honil hocons hlnil hlcons,
   tree_induction_obj PV PO PL h1 h2 h3 h4 hmap hseq honil hocons hlnil hlcons,
   tree_induction_items PV PO PL h1 h2 h3 h4 hmap hseq honil hocons hlnil hlcons⟩

/-! ### Unfolding the walk -/

theorem OperateObjectFields_nil : OperateObjectFields [] f a op = ⟨[], [], none⟩ := by
  rw [OperateObjectFields]

theorem OperateObjectFields_target (v : Value) (rest : Object) :
    OperateObjectFields ((f, v) :: rest) f a op =
      match op a v with
      | (_, some err) => ⟨(f, v) :: rest, [([Step.key f], v)], some err⟩
      | (result, none) =>
        ⟨(f, result) :: (OperateObjectFields rest f a op).obj,
         ([Step.key f], v) :: (OperateObjectFields rest f a op).calls,
         (OperateObjectFields rest f a op).err⟩ := by
  rw [OperateObjectFields, if_pos rfl]

theorem OperateObjectFields_other (k : String) (v : Value) (rest : Object) (hk : k ≠ f) :
    OperateObjectFields ((k, v) :: rest) f a op =
      match (operateValue v f a op).err with
      | some err =>
        ⟨(k, (operateValue v f a op).obj) :: rest, (operateValue v f a op).under (.key k),
         some err⟩
      | none =>
        ⟨(k, (operateValue v f a op).obj) :: (OperateObjectFields rest f a op).obj,
         (operateValue v f a op).under (.key k) ++ (OperateObjectFields rest f a op).calls,
         (OperateObjectFields rest f a op).err⟩ := by
  rw [OperateObjectFields, if_neg hk]

theorem operateValue_map (m : Object) :
    operateValue (.map m) f a op =
      ⟨.map (OperateObjectFields m f a op).obj, (OperateObjectFields m f a op).calls,
       (OperateObjectFields m f a op).err⟩ := by
  rw [operateValue]

theorem operateValue_seq (l : List Value) :
    operateValue (.seq l) f a op =
      ⟨.seq (operateItems l 0 f a op).obj, (operateItems l 0 f a op).calls,
       (operateItems l 0 f a op).err⟩ := by
  rw [operateValue]

theorem operateValue_scalar (v : Value) (h1 : ∀ m, v ≠ .map m) (h2 : ∀ l, v ≠ .seq l) :
    operateValue v f a op = ⟨v, [], none⟩ := by
  cases v with
  | map m => exact absurd rfl (h1 m)
  | seq l => exact absurd rfl (h2 l)
  | _ => simp [operateValue]

theorem operateItems_nil (i : Nat) : operateItems [] i f a op = ⟨[], [], none⟩ := by
  rw [operateItems]

theorem operateItems_map (n : Object) (rest : List Value) (i : Nat) :
    operateItems (.map n :: rest) i f a op =
      match (OperateObjectFields n f a op).err with
      | some err =>
        ⟨.map (OperateObjectFields n f a op).obj :: rest,
         (OperateObjectFields n f a op).under (.idx i), some err⟩
      | none =>
        ⟨.map (OperateObjectFields n f a op).obj :: (operateItems rest (i + 1) f a op).obj,
         (OperateObjectFields n f a op).under (.idx i) ++ (operateItems rest (i + 1) f a op).calls,
         (operateItems rest (i + 1) f a op).err⟩ := by
  rw [operateItems]

theorem operateItems_skip (e : Value) (rest : List Value) (i : Nat) (h : ∀ n, e ≠ .map n) :
    operateItems (e :: rest) i f a op =
      ⟨e :: (operateItems rest (i + 1) f a op).obj, (operateItems rest (i + 1) f a op).calls,
       (operateItems rest (i + 1) f a op).err⟩ := by
  cases e with
  | map n => exact absurd rfl (h n)
  | _ => simp [operateItems]

/-! ### Every call is at a field the walk is to reach -/

theorem calls_sound :
    (∀ v : Value, ∀ q c, (q, c) ∈ (operateValue v f a op).calls → Visited f v q c) ∧
    (∀ m : Object, ∀ q c, (q, c) ∈ (OperateObjectFields m f a op).calls →
      Visited f (.map m) q c) ∧
    (∀ l : List Value, ∀ i q c, (q, c) ∈ (operateItems l i f a op).calls →
      ∃ j q', q = .idx (i + j) :: q' ∧ Visited f (.seq l) (.idx j :: q') c) := by
  apply tree_induction
  · intro v h1 h2 q c h
    rw [operateValue_scalar f a op v h1 h2] at h
    simp at h
  · intro m ih q c h
    rw [operateValue_map] at h
    exact ih q c h
  · intro l ih q c h
    rw [operateValue_seq] at h
    obtain ⟨j, q', rfl, hv⟩ := ih 0 q c h
    simpa using hv
  · intro q c h
    rw [OperateObjectFields_nil] at h
    simp at h
  · intro k v rest ihv ihr q c h
    by_cases hk : k = f
    · subst hk
      rw [OperateObjectFields_target] at h
      split at h
      · simp only [List.mem_singleton, Prod.mk.injEq] at h
        obtain ⟨rfl, rfl⟩ := h
        exact .here (List.mem_cons_self _ _)
      · simp only [List.mem_cons, Prod.mk.injEq] at h
        rcases h with ⟨rfl, rfl⟩ | h
        · exact .here (List.mem_cons_self _ _)
        · exact (ihr q c h).cons_of_rest
    · rw [OperateObjectFields_other f a op k v rest hk] at h
      have hhead : (q, c) ∈ (operateValue v f a op).under (.key k) →
          Visited f (.map ((k, v) :: rest)) q c := by
        intro h1
        obtain ⟨q', rfl, h2⟩ := (mem_under _ _ _ _).mp h1
        exact .field hk (List.mem_cons_self _ _) (ihv q' c h2)
      split at h
      · exact hhead h
      · rcases List.mem_append.mp h with h | h
        · exact hhead h
        · exact (ihr q c h).cons_of_rest
  · intro i q c h
    rw [operateItems_nil] at h
    simp at h
  · intro e rest ihv ihr i q c h
    have hrest : (q, c) ∈ (operateItems rest (i + 1) f a op).calls →
        ∃ j q', q = .idx (i + j) :: q' ∧ Visited f (.seq (e :: rest)) (.idx j :: q') c := by
      intro h1
      obtain ⟨j, q', rfl, hv⟩ := ihr (i + 1) q c h1
      exact ⟨j + 1, q', by rw [Nat.add_assoc, Nat.add_comm 1 j], hv.seq_cons⟩
    by_cases he : ∃ n, e = .map n
    · obtain ⟨n, rfl⟩ := he
      rw [operateItems_map] at h
      have hhead : (q, c) ∈ (OperateObjectFields n f a op).under (.idx i) →
          ∃ j q', q = .idx (i + j) :: q' ∧
            Visited f (.seq (.map n :: rest)) (.idx j :: q') c := by
        intro h1
        obtain ⟨q', rfl, h2⟩ := (mem_under _ _ _ _).mp h1
        refine ⟨0, q', rfl, .item (by simp) (ihv q' c ?_)⟩
        rw [operateValue_map]
        exact h2
      split at h
      · exact hhead h
      · rcases List.mem_append.mp h with h | h
        · exact hhead h
        · exact hrest h
    · rw [operateItems_skip f a op e rest i (fun n hn => he ⟨n, hn⟩)] at h
      exact hrest h

/-! ### Without an error every field the walk is to reach is called -/

theorem Visited.map_cons_inv {f k : String} {v : Value} {rest : Object} {q : Path} {c : Value}
    (h : Visited f (.map ((k, v) :: rest)) q c) :
    (k = f ∧ q = [.key f] ∧ c = v) ∨ (k ≠ f ∧ ∃ q', q = .key k :: q' ∧ Visited f v q' c) ∨
      Visited f (.map rest) q c := by
  cases h with
  | here hm =>
    rcases List.mem_cons.mp hm with he | hr
    · simp only [Prod.mk.injEq] at he
      exact .inl ⟨he.1.symm, rfl, he.2⟩
    · exact .inr (.inr (.here hr))
  | field hk hm hv =>
    rcases List.mem_cons.mp hm with he | hr
    · simp only [Prod.mk.injEq] at he
      obtain ⟨rfl, rfl⟩ := he
      exact .inr (.inl ⟨hk, _, rfl, hv⟩)
    · exact .inr (.inr (.field hk hr hv))

theorem Visited.seq_cons_inv {f : String} {e : Value} {rest : List Value} {j : Nat} {q : Path}
    {c : Value} (h : Visited f (.seq (e :: rest)) (.idx j :: q) c) :
    (j = 0 ∧ ∃ n, e = .map n ∧ Visited f (.map n) q c) ∨
      (∃ j', j = j' + 1 ∧ Visited f (.seq rest) (.idx j' :: q) c) := by
  cases h with
  | item hl hv =>
    cases j with
    | zero =>
      simp only [List.getElem?_cons_zero, Option.some.injEq] at hl
      exact .inl ⟨rfl, _, hl, hv⟩
    | succ j' =>
      simp only [List.getElem?_cons_succ] at hl
      exact .inr ⟨j', rfl, .item hl hv⟩

theorem Visited.seq_path {f : String} {l : List Value} {q : Path} {c : Value}
    (h : Visited f (.seq l) q c) : ∃ j q', q = .idx j :: q' := by
  cases h with
  | item hl hv => exact ⟨_, _, rfl⟩

theorem Visited.map_path {f : String} {m : Object} {q : Path} {c : Value}
    (h : Visited f (.map m) q c) : ∃ k q' v, q = .key k :: q' ∧ (k, v) ∈ m := by
  cases h with
  | here hm => exact ⟨_, _, _, rfl, hm⟩
  | field hk hm hv => exact ⟨_, _, _, rfl, hm⟩

theorem mem_under_cons {τ : Type} (s : Step) (w : Walk τ) (q : Path) (c : Value) :
    (s :: q, c) ∈ w.under s ↔ (q, c) ∈ w.calls := by
  rw [mem_under]
  constructor
  · rintro ⟨q', h1, h2⟩
    simp only [List.cons.injEq, true_and] at h1
    exact h1 ▸ h2
  · intro h
    exact ⟨q, rfl, h⟩

theorem calls_complete :
    (∀ v : Value, (operateValue v f a op).err = none →
      ∀ q c, Visited f v q c → (q, c) ∈ (operateValue v f a op).calls) ∧
    (∀ m : Object, (OperateObjectFields m f a op).err = none →
      ∀ q c, Visited f (.map m) q c → (q, c) ∈ (OperateObjectFields m f a op).calls) ∧
    (∀ l : List Value, ∀ i, (operateItems l i f a op).err = none →
      ∀ j q c, Visited f (.seq l) (.idx j :: q) c →
        (.idx (i + j) :: q, c) ∈ (operateItems l i f a op).calls) := by
  apply tree_induction
  · intro v h1 h2 _ q c hv
    cases hv with
    | here _ => exact absurd rfl (h1 _)
    | field _ _ _ => exact absurd rfl (h1 _)
    | item _ _ => exact absurd rfl (h2 _)
  · intro m ih he q c hv
    rw [operateValue_map] at he ⊢
    exact ih he q c hv
  · intro l ih he q c hv
    rw [operateValue_seq] at he ⊢
    obtain ⟨j, q', rfl⟩ := hv.seq_path
    have := ih 0 he j q' c hv
    simpa using this
  · intro _ q c hv
    obtain ⟨k, q', v, _, hm⟩ := hv.map_path
    simp at hm
  · intro k v rest ihv ihr he q c hv
    by_cases hk : k = f
    · subst hk
      rw [OperateObjectFields_target] at he ⊢
      split at he
      · simp at he
      · rename_i result hop
        simp only [hop]
        simp only at he
        rcases hv.map_cons_inv with ⟨_, rfl, rfl⟩ | ⟨hne, _⟩ | hr
        · exact List.mem_cons_self _ _
        · exact absurd rfl hne
        · exact List.mem_cons_of_mem _ (ihr he q c hr)
    · rw [OperateObjectFields_other f a op k v rest hk] at he ⊢
      split at he
      · simp at he
      · rename_i hve
        simp only [hve]
        simp only at he
        rcases hv.map_cons_inv with ⟨hkf, _⟩ | ⟨_, q', rfl, hv'⟩ | hr
        · exact absurd hkf hk
        · exact List.mem_append_left _ ((mem_under_cons _ _ _ _).mpr (ihv hve q' c hv'))
        · exact List.mem_append_right _ (ihr he q c hr)
  · intro i _ j q c hv
    cases hv with
    | item hl _ => simp at hl
  · intro e rest ihv ihr i he j q c hv
    by_cases hmap : ∃ n, e = .map n
    · obtain ⟨n, rfl⟩ := hmap
      rw [operateItems_map] at he ⊢
      split at he
      · simp at he
      · rename_i hne
        simp only [hne]
        simp only at he
        rcases hv.seq_cons_inv with ⟨rfl, n', hn, hv'⟩ | ⟨j', rfl, hv'⟩
        · simp only [Value.map.injEq] at hn
          subst hn
          have h1 := ihv (by rw [operateValue_map]; exact hne) q c hv'
          rw [operateValue_map] at h1
          exact List.mem_append_left _ ((mem_under_cons _ _ _ _).mpr h1)
        · have h1 := ihr (i + 1) he j' q c hv'
          rw [Nat.add_assoc, Nat.add_comm 1 j'] at h1
          exact List.mem_append_right _ h1
    · have hskip := operateItems_skip f a op e rest i (fun n hn => hmap ⟨n, hn⟩)
      rw [hskip] at he ⊢
      simp only at he ⊢
      rcases hv.seq_cons_inv with ⟨_, n', hn, _⟩ | ⟨j', rfl, hv'⟩
      · exact absurd ⟨n', hn⟩ hmap
      · have h1 := ihr (i + 1) he j' q c hv'
        rw [Nat.add_assoc, Nat.add_comm 1 j'] at h1
        exact h1

/-! ### No field is called twice -/

theorem paths_under {τ : Type} (s : Step) (w : Walk τ) :
    (w.under s).map Prod.fst = (w.calls.map Prod.fst).map (fun q => s :: q) := by
  unfold Walk.under
  simp [List.map_map, Function.comp_def]

theorem nodup_under {τ : Type} (s : Step) (w : Walk τ) (h : (w.calls.map Prod.fst).Nodup) :
    ((w.under s).map Prod.fst).Nodup := by
  rw [paths_under]
  exact h.map (fun x y hxy => by simpa using hxy)

theorem head_of_mem_under {τ : Type} (s : Step) (w : Walk τ) (q : Path)
    (h : q ∈ (w.under s).map Prod.fst) : ∃ q', q = s :: q' := by
  rw [paths_under] at h
  obtain ⟨q', _, rfl⟩ := List.mem_map.mp h
  exact ⟨q', rfl⟩

theorem key_absent_of_wf (k : String) (rest : Object)
    (h : (!rest.any (fun e => e.1 == k)) = true) (v : Value) : (k, v) ∉ rest := by
  intro hm
  have : rest.any (fun e => e.1 == k) = true := List.any_eq_true.mpr ⟨(k, v), hm, by simp⟩
  simp [this] at h

theorem calls_nodup :
    (∀ v : Value, wfValue v = true → ((operateValue v f a op).calls.map Prod.fst).Nodup) ∧
    (∀ m : Object, wfObject m = true →
      ((OperateObjectFields m f a op).calls.map Prod.fst).Nodup) ∧
    (∀ l : List Value, wfItems l = true →
      ∀ i, ((operateItems l i f a op).calls.map Prod.fst).Nodup) := by
  apply tree_induction
  · intro v h1 h2 _
    rw [operateValue_scalar f a op v h1 h2]
    exact List.nodup_nil
  · intro m ih hw
    rw [operateValue_map]
    rw [wfValue] at hw
    exact ih hw
  · intro l ih hw
    rw [operateValue_seq]
    rw [wfValue] at hw
    exact ih hw 0
  · intro _
    rw [OperateObjectFields_nil]
    exact List.nodup_nil
  · intro k v rest ihv ihr hw
    rw [wfObject] at hw
    simp only [Bool.and_eq_true] at hw
    obtain ⟨⟨hk, hwv⟩, hwr⟩ := hw
    have hfresh : ∀ q', (Step.key k :: q') ∉
        (OperateObjectFields rest f a op).calls.map Prod.fst := by
      intro q' hq
      obtain ⟨x, hx, hxq⟩ := List.mem_map.mp hq
      have hv := (calls_sound f a op).2.1 rest x.1 x.2 hx
      rw [hxq] at hv
      obtain ⟨k', q'', v', hpath, hm⟩ := hv.map_path
      simp only [List.cons.injEq, Step.key.injEq] at hpath
      rw [← hpath.1] at hm
      exact key_absent_of_wf k rest hk v' hm
    by_cases hkf : k = f
    · subst hkf
      rw [OperateObjectFields_target]
      split
      · simp
      · simp only [List.map_cons, List.nodup_cons]
        exact ⟨hfresh [], ihr hwr⟩
    · rw [OperateObjectFields_other f a op k v rest hkf]
      split
      · exact nodup_under _ _ (ihv hwv)
      · simp only [List.map_append]
        refine List.Nodup.append (nodup_under _ _ (ihv hwv)) (ihr hwr) ?_
        intro q hq1 hq2
        obtain ⟨q', rfl⟩ := head_of_mem_under _ _ _ hq1
        exact hfresh q' hq2
  · intro _ i
    rw [operateItems_nil]
    exact List.nodup_nil
  · intro e rest ihv ihr hw i
    rw [wfItems] at hw
    simp only [Bool.and_eq_true] at hw
    by_cases hmap : ∃ n, e = .map n
    · obtain ⟨n, rfl⟩ := hmap
      have hn := ihv hw.1
      rw [operateValue_map] at hn
      rw [operateItems_map]
      split
      · exact nodup_under _ _ hn
      · simp only [List.map_append]
        refine List.Nodup.append (nodup_under _ _ hn) (ihr hw.2 (i + 1)) ?_
        intro q hq1 hq2
        obtain ⟨q', rfl⟩ := head_of_mem_under _ _ _ hq1
        obtain ⟨x, hx, hxq⟩ := List.mem_map.mp hq2
        obtain ⟨j, q'', hpath, _⟩ := (calls_sound f a op).2.2 rest (i + 1) x.1 x.2 hx
        rw [hxq] at hpath
        simp only [List.cons.injEq, Step.idx.injEq] at hpath
        omega
    · rw [operateItems_skip f a op e rest i (fun n hn => hmap ⟨n, hn⟩)]
      exact ihr hw.2 (i + 1)

/-! ### What the walk leaves alone -/

theorem under_nil {τ : Type} (s : Step) (w : Walk τ) (h : w.calls = []) : w.under s = [] := by
  unfold Walk.under
  rw [h]
  rfl

theorem walk_unvisited :
    (∀ v : Value, (∀ q c, ¬ Visited f v q c) → operateValue v f a op = ⟨v, [], none⟩) ∧
    (∀ m : Object, (∀ q c, ¬ Visited f (.map m) q c) →
      OperateObjectFields m f a op = ⟨m, [], none⟩) ∧
    (∀ l : List Value, (∀ q c, ¬ Visited f (.seq l) q c) →
      ∀ i, operateItems l i f a op = ⟨l, [], none⟩) := by
  apply tree_induction
  · intro v h1 h2 _
    exact operateValue_scalar f a op v h1 h2
  · intro m ih hv
    rw [operateValue_map, ih hv]
  · intro l ih hv
    rw [operateValue_seq, ih hv 0]
  · intro _
    exact OperateObjectFields_nil f a op
  · intro k v rest ihv ihr hv
    by_cases hk : k = f
    · subst hk
      exact absurd (.here (List.mem_cons_self _ _)) (hv [.key k] v)
    · rw [OperateObjectFields_other f a op k v rest hk]
      have h1 := ihv (fun q c h => hv (.key k :: q) c (.field hk (List.mem_cons_self _ _) h))
      have h2 := ihr (fun q c h => hv q c h.cons_of_rest)
      rw [h1, h2]
      rfl
  · intro _ i
    exact operateItems_nil f a op i
  · intro e rest ihv ihr hv i
    have h2 := ihr (fun q c h => by
      obtain ⟨j, q', rfl⟩ := h.seq_path
      exact hv _ c h.seq_cons) (i + 1)
    by_cases hmap : ∃ n, e = .map n
    · obtain ⟨n, rfl⟩ := hmap
      have h1 := ihv (fun q c h => hv (.idx 0 :: q) c (.item (by simp) h))
      rw [operateValue_map] at h1
      have h1o : (OperateObjectFields n f a op).obj = n := by
        have := congrArg Walk.obj h1
        simpa using this
      have h1c : (OperateObjectFields n f a op).calls = [] := congrArg Walk.calls h1
      have h1e : (OperateObjectFields n f a op).err = none := congrArg Walk.err h1
      rw [operateItems_map, h2]
      simp only [h1e, h1o, under_nil _ _ h1c, List.append_nil]
    · rw [operateItems_skip f a op e rest i (fun n hn => hmap ⟨n, hn⟩), h2]

/-- A field of a mapping that is not the target holds, after the walk, what it held or
what the walk of its value left. -/
theorem lookup_walk (k : String) (hk : k ≠ f) :
    ∀ (m : Object) (v : Value), m.lookup k = some v →
      (OperateObjectFields m f a op).obj.lookup k = some v ∨
      (OperateObjectFields m f a op).obj.lookup k = some (operateValue v f a op).obj
  | [], v, h => by simp at h
  | (k0, v0) :: rest, v, h => by
    by_cases hk0 : k0 = f
    · have hk0' := hk0.symm
      subst hk0'
      have hne : (k == f) = false := by simpa using hk
      rw [List.lookup_cons, hne] at h
      rw [OperateObjectFields_target]
      split
      · left
        simp only [List.lookup_cons, hne]
        exact h
      · simp only [List.lookup_cons, hne]
        exact lookup_walk k hk rest v h
    · rw [OperateObjectFields_other f a op k0 v0 rest hk0]
      by_cases hkk : k = k0
      · subst hkk
        simp only [List.lookup_cons, beq_self_eq_true, Option.some.injEq] at h
        subst h
        right
        split <;> simp [List.lookup_cons]
      · have hne : (k == k0) = false := by simpa using hkk
        rw [List.lookup_cons, hne] at h
        split
        · left
          simp only [List.lookup_cons, hne]
          exact h
        · simp only [List.lookup_cons, hne]
          exact lookup_walk k hk rest v h

/-- An element of a sequence is, after the loop, what it was or, when it is a mapping,
what the walk of it left. -/
theorem getElem_walk :
    ∀ (l : List Value) (i j : Nat) (e : Value), l[j]? = some e →
      (operateItems l i f a op).obj[j]? = some e ∨
      ∃ n, e = .map n ∧
        (operateItems l i f a op).obj[j]? = some (.map (OperateObjectFields n f a op).obj)
  | [], i, j, e, h => by simp at h
  | e0 :: rest, i, j, e, h => by
    by_cases hmap : ∃ n, e0 = .map n
    · obtain ⟨n, rfl⟩ := hmap
      rw [operateItems_map]
      cases j with
      | zero =>
        simp only [List.getElem?_cons_zero, Option.some.injEq] at h
        subst h
        right
        refine ⟨n, rfl, ?_⟩
        split <;> simp
      | succ j' =>
        simp only [List.getElem?_cons_succ] at h
        split
        · left
          simpa using h
        · simp only [List.getElem?_cons_succ]
          exact getElem_walk rest (i + 1) j' e h
    · rw [operateItems_skip f a op e0 rest i (fun n hn => hmap ⟨n, hn⟩)]
      cases j with
      | zero =>
        left
        simpa using h
      | succ j' =>
        simp only [List.getElem?_cons_succ] at h ⊢
        exact getElem_walk rest (i + 1) j' e h

theorem getElem_walk_skip (l : List Value) (i j : Nat) (e : Value) (h : l[j]? = some e)
    (hmap : ∀ n, e ≠ .map n) : (operateItems l i f a op).obj[j]? = some e := by
  rcases getElem_walk f a op l i j e h with h1 | ⟨n, hn, _⟩
  · exact h1
  · exact absurd hn (hmap n)

theorem Value.get_map_cons (m : Object) (k : String) (p : Path) :
    (Value.map m).get (.key k :: p) =
      match m.lookup k with
      | some v => v.get p
      | none => none := rfl

theorem Value.get_seq_cons (l : List Value) (i : Nat) (p : Path) :
    (Value.seq l).get (.idx i :: p) =
      match l[i]? with
      | some v => v.get p
      | none => none := rfl

theorem Value.get_nil (v : Value) : v.get [] = some v := by
  cases v <;> rfl

theorem Value.get_append : ∀ (p q : Path) (v : Value),
    v.get (p ++ q) = (v.get p).bind (fun u => u.get q)
  | [], q, v => by rw [Value.get_nil]; rfl
  | .key k :: p, q, v => by
    cases v with
    | map m =>
      rw [List.cons_append, Value.get_map_cons, Value.get_map_cons]
      cases m.lookup k with
      | none => rfl
      | some v1 => exact Value.get_append p q v1
    | _ => rfl
  | .idx i :: p, q, v => by
    cases v with
    | seq l =>
      rw [List.cons_append, Value.get_seq_cons, Value.get_seq_cons]
      cases l[i]? with
      | none => rfl
      | some v1 => exact Value.get_append p q v1
    | _ => rfl

theorem Value.get_item (p : Path) (v : Value) (l : List Value) (i : Nat) (e : Value)
    (hg : v.get p = some (.seq l)) (hl : l[i]? = some e) : v.get (p ++ [.idx i]) = some e := by
  rw [Value.get_append, hg, Option.some_bind, Value.get_seq_cons, hl]
  exact Value.get_nil e

theorem mem_of_lookup {β : Type} (k : String) :
    ∀ (m : List (String × β)) (v : β), m.lookup k = some v → (k, v) ∈ m
  | [], v, h => by simp at h
  | (k0, v0) :: rest, v, h => by
    rw [List.lookup_cons] at h
    by_cases hk : k = k0
    · subst hk
      simp only [beq_self_eq_true, Option.some.injEq] at h
      subst h
      exact List.mem_cons_self _ _
    · have hne : (k == k0) = false := by simpa using hk
      rw [hne] at h
      exact List.mem_cons_of_mem _ (mem_of_lookup k rest v h)

/-- The value at a path that passes through no target field and has no field to visit at or
below it is, after the walk, what it was. -/
theorem get_walk :
    ∀ (p : Path) (v u : Value), v.get p = some u → (∀ k, Step.key k ∈ p → k ≠ f) →
      (∀ q c, Visited f v q c → ¬ p <+: q) → (operateValue v f a op).obj.get p = some u
  | [], v, u, hg, _, hv => by
    rw [Value.get_nil] at hg
    simp only [Option.some.injEq] at hg
    subst hg
    rw [(walk_unvisited f a op).1 v (fun q c h => hv q c h List.nil_prefix)]
    exact Value.get_nil v
  | .key k :: p, v, u, hg, hp, hv => by
    cases v with
    | map m =>
      rw [Value.get_map_cons] at hg
      cases hl : m.lookup k with
      | none => simp [hl] at hg
      | some v1 =>
        simp only [hl] at hg
        have hk : k ≠ f := hp k (List.mem_cons_self _ _)
        rw [operateValue_map, Value.get_map_cons]
        rcases lookup_walk f a op k hk m v1 hl with h1 | h1
        · simp only [h1]
          exact hg
        · simp only [h1]
          refine get_walk p v1 u hg (fun k' hk' => hp k' (List.mem_cons_of_mem _ hk')) ?_
          intro q c hq hpre
          exact hv (.key k :: q) c (.field hk (mem_of_lookup k m v1 hl) hq)
            ((List.prefix_cons_inj _).mpr hpre)
    | _ => simp [Value.get] at hg
  | .idx i :: p, v, u, hg, hp, hv => by
    cases v with
    | seq l =>
      rw [Value.get_seq_cons] at hg
      cases hl : l[i]? with
      | none => simp [hl] at hg
      | some e =>
        simp only [hl] at hg
        rw [operateValue_seq, Value.get_seq_cons]
        rcases getElem_walk f a op l 0 i e hl with h1 | ⟨n, rfl, h1⟩
        · simp only [h1]
          exact hg
        · simp only [h1]
          have := get_walk p (.map n) u hg
            (fun k' hk' => hp k' (List.mem_cons_of_mem _ hk')) (by
              intro q c hq hpre
              exact hv (.idx i :: q) c (.item hl hq) ((List.prefix_cons_inj _).mpr hpre))
          rw [operateValue_map] at this
          exact this
    | _ => simp [Value.get] at hg

/-- An element of a sequence that is not a mapping, reached through no target field, is,
after the walk, what it was. -/
theorem get_walk_item (i : Nat) (e : Value) (hmap : ∀ n, e ≠ .map n) :
    ∀ (p : Path) (v : Value) (l : List Value), v.get p = some (.seq l) →
      (∀ k, Step.key k ∈ p → k ≠ f) → l[i]? = some e →
      (operateValue v f a op).obj.get (p ++ [.idx i]) = some e
  | [], v, l, hg, _, hl => by
    rw [Value.get_nil] at hg
    simp only [Option.some.injEq] at hg
    subst hg
    rw [operateValue_seq, List.nil_append, Value.get_seq_cons,
      getElem_walk_skip f a op l 0 i e hl hmap]
    exact Value.get_nil e
  | .key k :: p, v, l, hg, hp, hl => by
    cases v with
    | map m =>
      rw [Value.get_map_cons] at hg
      cases hlk : m.lookup k with
      | none => simp [hlk] at hg
      | some v1 =>
        simp only [hlk] at hg
        have hk : k ≠ f := hp k (List.mem_cons_self _ _)
        have hrec := get_walk_item i e hmap p v1 l hg
          (fun k' hk' => hp k' (List.mem_cons_of_mem _ hk')) hl
        rw [operateValue_map, List.cons_append, Value.get_map_cons]
        rcases lookup_walk f a op k hk m v1 hlk with h1 | h1
        · simp only [h1]
          exact Value.get_item p v1 l i e hg hl
        · simp only [h1]
          exact hrec
    | _ => simp [Value.get] at hg
  | .idx j :: p, v, l, hg, hp, hl => by
    cases v with
    | seq l0 =>
      rw [Value.get_seq_cons] at hg
      cases hlj : l0[j]? with
      | none => simp [hlj] at hg
      | some e0 =>
        simp only [hlj] at hg
        rw [operateValue_seq, List.cons_append, Value.get_seq_cons]
        rcases getElem_walk f a op l0 0 j e0 hlj with h1 | ⟨n, rfl, h1⟩
        · simp only [h1]
          exact Value.get_item p e0 l i e hg hl
        · simp only [h1]
          have := get_walk_item i e hmap p (.map n) l hg
            (fun k' hk' => hp k' (List.mem_cons_of_mem _ hk')) hl
          rw [operateValue_map] at this
          exact this
    | _ => simp [Value.get] at hg

/-! ### The walker: claims C1 and C7 -/

theorem callsAt_le_one {τ : Type} (w : Walk τ) (q : Path)
    (h : (w.calls.map Prod.fst).Nodup) : w.callsAt q ≤ 1 := by
  unfold Walk.callsAt
  generalize w.calls = l at h
  induction l with
  | nil => simp
  | cons x xs ih =>
    rw [List.map_cons, List.nodup_cons] at h
    by_cases hx : x.1 = q
    · have hnil : xs.filter (fun c => decide (c.1 = q)) = [] := by
        rw [List.filter_eq_nil_iff]
        intro c hc hq
        simp only [decide_eq_true_eq] at hq
        exact h.1 (List.mem_map.mpr ⟨c, hc, hq.trans hx.symm⟩)
      simp [List.filter_cons, hx, hnil]
    · simp only [List.filter_cons, hx, decide_False, Bool.false_eq_true, if_false]
      exact ih h.2

theorem callsAt_pos {τ : Type} (w : Walk τ) (q : Path) (c : Value) (h : (q, c) ∈ w.calls) :
    1 ≤ w.callsAt q := by
  unfold Walk.callsAt
  exact List.length_pos_of_mem (List.mem_filter.mpr ⟨h, by simp⟩)

/-- C1, as stated, fails twice over.  An operation that fails stops the walk: in a sequence of
two mappings the image of the second is never passed to `ImageTransform` once the image of the
first is not a string.  And a field below a field of the same name is not reached: with an
operation that never fails the inner image of `image: {image: test}` is never called. -/
theorem OperateObjectFields_misses_fields :
    (wfObject fixtureTwoItems = true ∧
      SpecField "image" (.map fixtureTwoItems) [.key "list", .idx 1, .key "image"]
        (.str "test") ∧
      (OperateObjectFields fixtureTwoItems "image" (OpArg.sourceMap [("tes", "1")])
        ImageTransform).callsAt [.key "list", .idx 1, .key "image"] = 0) ∧
    (wfObject fixtureNestedImage = true ∧
      SpecField "image" (.map fixtureNestedImage) [.key "image", .key "image"] (.str "test") ∧
      (OperateObjectFields fixtureNestedImage "image" () keepOperation).err = none ∧
      (OperateObjectFields fixtureNestedImage "image" () keepOperation).callsAt
        [.key "image", .key "image"] = 0) := by
  refine ⟨⟨by decide, ?_, by decide⟩, ⟨by decide, ?_, rfl, by decide⟩⟩
  · exact .field (List.mem_cons_self _ _)
      (.item (show [Value.map [("image", .num 1)], Value.map [("image", .str "test")]][1]? =
        some (.map [("image", .str "test")]) from rfl) (.here (List.mem_cons_self _ _)))
  · exact .field (List.mem_cons_self _ _) (.here (List.mem_cons_self _ _))

/-- C7, as stated, fails: the value under the key `x` inside an image field that is a mapping
has a key that is not the field name and lies on no path to an image field, yet it is gone
once the operation has replaced the mapping. -/
theorem OperateObjectFields_replaces_inside :
    (Value.map fixtureImageMapping).get [.key "image", .key "x"] = some (.num 1) ∧
    "x" ≠ "image" ∧
    (∀ q c, SpecField "image" (.map fixtureImageMapping) q c →
      ¬ [Step.key "image", Step.key "x"] <+: q) ∧
    (OperateObjectFields fixtureImageMapping "image" () redactOperation).err = none ∧
    (Value.map (OperateObjectFields fixtureImageMapping "image" () redactOperation).obj).get
      [.key "image", .key "x"] = none := by
  refine ⟨rfl, by decide, ?_, rfl, rfl⟩
  intro q c hs hpre
  cases hs with
  | here _ =>
    have := hpre.length_le
    simp at this
  | field hm hs' =>
    simp only [fixtureImageMapping, List.mem_singleton, Prod.mk.injEq] at hm
    obtain ⟨rfl, rfl⟩ := hm
    cases hs' with
    | here hm' => simp at hm'
    | field hm' hs'' =>
      simp only [List.mem_singleton, Prod.mk.injEq] at hm'
      obtain ⟨rfl, rfl⟩ := hm'
      cases hs''

/-- Scenario E2: the three images are rewritten and the string in the sequence is left
alone. -/
theorem OperateObjectFields_E2 :
    (OperateObjectFields fixtureE2 "image" (OpArg.sourceMap [("tes", "1")])
      ImageTransform).obj = fixtureE2Rewritten ∧
    (OperateObjectFields fixtureE2 "image" (OpArg.sourceMap [("tes", "1")])
      ImageTransform).err = none ∧
    (OperateObjectFields fixtureE2 "image" (OpArg.sourceMap [("tes", "1")])
      ImageTransform).calls.map Prod.fst =
      [[.key "spec", .key "image"], [.key "spec", .key "nested", .key "image"],
       [.key "list", .idx 0, .key "image"]] :=
  ⟨rfl, rfl, rfl⟩

/-! ### The walk, case by case -/

theorem OperateObjectFields_target_err (v : Value) (rest : Object) (r : Value) (e : String)
    (hop : op a v = (r, some e)) :
    OperateObjectFields ((f, v) :: rest) f a op = ⟨(f, v) :: rest, [([Step.key f], v)], some e⟩ := by
  rw [OperateObjectFields_target, hop]

theorem OperateObjectFields_target_ok (v : Value) (rest : Object) (r : Value)
    (hop : op a v = (r, none)) :
    OperateObjectFields ((f, v) :: rest) f a op =
      ⟨(f, r) :: (OperateObjectFields rest f a op).obj,
       ([Step.key f], v) :: (OperateObjectFields rest f a op).calls,
       (OperateObjectFields rest f a op).err⟩ := by
  rw [OperateObjectFields_target, hop]

theorem OperateObjectFields_other_err (k : String) (v : Value) (rest : Object) (hk : k ≠ f)
    (e : String) (he : (operateValue v f a op).err = some e) :
    OperateObjectFields ((k, v) :: rest) f a op =
      ⟨(k, (operateValue v f a op).obj) :: rest, (operateValue v f a op).under (.key k),
       some e⟩ := by
  rw [OperateObjectFields_other f a op k v rest hk, he]

theorem OperateObjectFields_other_ok (k : String) (v : Value) (rest : Object) (hk : k ≠ f)
    (he : (operateValue v f a op).err = none) :
    OperateObjectFields ((k, v) :: rest) f a op =
      ⟨(k, (operateValue v f a op).obj) :: (OperateObjectFields rest f a op).obj,
       (operateValue v f a op).under (.key k) ++ (OperateObjectFields rest f a op).calls,
       (OperateObjectFields rest f a op).err⟩ := by
  rw [OperateObjectFields_other f a op k v rest hk, he]

theorem operateItems_map_err (n : Object) (rest : List Value) (i : Nat) (e : String)
    (he : (OperateObjectFields n f a op).err = some e) :
    operateItems (.map n :: rest) i f a op =
      ⟨.map (OperateObjectFields n f a op).obj :: rest,
       (OperateObjectFields n f a op).under (.idx i), some e⟩ := by
  rw [operateItems_map, he]

theorem operateItems_map_ok (n : Object) (rest : List Value) (i : Nat)
    (he : (OperateObjectFields n f a op).err = none) :
    operateItems (.map n :: rest) i f a op =
      ⟨.map (OperateObjectFields n f a op).obj :: (operateItems rest (i + 1) f a op).obj,
       (OperateObjectFields n f a op).under (.idx i) ++ (operateItems rest (i + 1) f a op).calls,
       (operateItems rest (i + 1) f a op).err⟩ := by
  rw [operateItems_map, he]

/-- A field the walk is to reach is a field in the words of the specification. -/
theorem Visited.spec {f : String} {v : Value} {q : Path} {c : Value} (h : Visited f v q c) :
    SpecField f v q c := by
  induction h with
  | here hm => exact .here hm
  | field _ hm _ ih => exact .field hm ih
  | item hl _ ih => exact .item hl ih

/-! ### What the walk leaves alone, by the calls it made -/

/-- A walk none of whose calls succeeded leaves the tree as it was. -/
theorem walk_no_change :
    (∀ v : Value, (∀ q c, (q, c) ∈ (operateValue v f a op).calls → (op a c).2 ≠ none) →
      (operateValue v f a op).obj = v) ∧
    (∀ m : Object, (∀ q c, (q, c) ∈ (OperateObjectFields m f a op).calls → (op a c).2 ≠ none) →
      (OperateObjectFields m f a op).obj = m) ∧
    (∀ l : List Value, ∀ i,
      (∀ q c, (q, c) ∈ (operateItems l i f a op).calls → (op a c).2 ≠ none) →
      (operateItems l i f a op).obj = l) := by
  apply tree_induction
  · intro v h1 h2 _
    rw [operateValue_scalar f a op v h1 h2]
  · intro m ih h
    rw [operateValue_map] at h ⊢
    rw [ih h]
  · intro l ih h
    rw [operateValue_seq] at h ⊢
    rw [ih 0 h]
  · intro _
    rw [OperateObjectFields_nil]
  · intro k v rest ihv ihr h
    by_cases hk : k = f
    · subst hk
      cases hop : op a v with
      | mk r e =>
        cases e with
        | some e => rw [OperateObjectFields_target_err k a op v rest r e hop]
        | none =>
          rw [OperateObjectFields_target_ok k a op v rest r hop] at h
          have := h [.key k] v (List.mem_cons_self _ _)
          rw [hop] at this
          exact absurd rfl this
    · cases he : (operateValue v f a op).err with
      | some e =>
        rw [OperateObjectFields_other_err f a op k v rest hk e he] at h ⊢
        have hv := ihv (fun q c hq => h (.key k :: q) c ((mem_under_cons _ _ _ _).mpr hq))
        simp only [hv]
      | none =>
        rw [OperateObjectFields_other_ok f a op k v rest hk he] at h ⊢
        have hv := ihv (fun q c hq =>
          h (.key k :: q) c (List.mem_append_left _ ((mem_under_cons _ _ _ _).mpr hq)))
        have hr := ihr (fun q c hq => h q c (List.mem_append_right _ hq))
        simp only [hv, hr]
  · intro i _
    rw [operateItems_nil]
  · intro e rest ihv ihr i h
    by_cases hmap : ∃ n, e = .map n
    · obtain ⟨n, rfl⟩ := hmap
      have hn : (∀ q c, (q, c) ∈ (OperateObjectFields n f a op).calls → (op a c).2 ≠ none) →
          (OperateObjectFields n f a op).obj = n := by
        intro h0
        have := ihv (by rw [operateValue_map]; exact h0)
        rw [operateValue_map] at this
        simpa using this
      cases he : (OperateObjectFields n f a op).err with
      | some e =>
        rw [operateItems_map_err f a op n rest i e he] at h ⊢
        have hv := hn (fun q c hq => h (.idx i :: q) c ((mem_under_cons _ _ _ _).mpr hq))
        simp only [hv]
      | none =>
        rw [operateItems_map_ok f a op n rest i he] at h ⊢
        have hv := hn (fun q c hq =>
          h (.idx i :: q) c (List.mem_append_left _ ((mem_under_cons _ _ _ _).mpr hq)))
        have hr := ihr (i + 1) (fun q c hq => h q c (List.mem_append_right _ hq))
        simp only [hv, hr]
    · rw [operateItems_skip f a op e rest i (fun n hn => hmap ⟨n, hn⟩)] at h ⊢
      have hr := ihr (i + 1) h
      simp only [hr]

/-- A field of a mapping holds, after the walk, what it held, or what the walk of its value
left, or it is a target field on which the operation succeeded. -/
theorem lookup_walk_calls (k : String) :
    ∀ (m : Object) (v : Value), m.lookup k = some v →
      (OperateObjectFields m f a op).obj.lookup k = some v ∨
      (k ≠ f ∧ (OperateObjectFields m f a op).obj.lookup k = some (operateValue v f a op).obj ∧
        ∀ q c, (q, c) ∈ (operateValue v f a op).calls →
          (.key k :: q, c) ∈ (OperateObjectFields m f a op).calls) ∨
      (k = f ∧ ([.key k], v) ∈ (OperateObjectFields m f a op).calls ∧ (op a v).2 = none)
  | [], v, h => by simp at h
  | (k0, v0) :: rest, v, h => by
    by_cases hkk : k = k0
    · subst hkk
      simp only [List.lookup_cons, beq_self_eq_true, Option.some.injEq] at h
      subst h
      by_cases hk : k = f
      · subst hk
        cases hop : op a v0 with
        | mk r e =>
          cases e with
          | some e =>
            left
            rw [OperateObjectFields_target_err k a op v0 rest r e hop]
            simp [List.lookup_cons]
          | none =>
            right; right
            rw [OperateObjectFields_target_ok k a op v0 rest r hop]
            exact ⟨rfl, List.mem_cons_self _ _, rfl⟩
      · right; left
        refine ⟨hk, ?_, ?_⟩
        · cases he : (operateValue v0 f a op).err with
          | some e =>
            rw [OperateObjectFields_other_err f a op k v0 rest hk e he]
            simp [List.lookup_cons]
          | none =>
            rw [OperateObjectFields_other_ok f a op k v0 rest hk he]
            simp [List.lookup_cons]
        · intro q c hq
          cases he : (operateValue v0 f a op).err with
          | some e =>
            rw [OperateObjectFields_other_err f a op k v0 rest hk e he]
            exact (mem_under_cons _ _ _ _).mpr hq
          | none =>
            rw [OperateObjectFields_other_ok f a op k v0 rest hk he]
            exact List.mem_append_left _ ((mem_under_cons _ _ _ _).mpr hq)
    · have hne : (k == k0) = false := by simpa using hkk
      rw [List.lookup_cons, hne] at h
      have ih := lookup_walk_calls k rest v h
      by_cases hk0 : k0 = f
      · subst hk0
        cases hop : op a v0 with
        | mk r e =>
          cases e with
          | some e =>
            left
            rw [OperateObjectFields_target_err k0 a op v0 rest r e hop]
            simp only [List.lookup_cons, hne]
            exact h
          | none =>
            rw [OperateObjectFields_target_ok k0 a op v0 rest r hop]
            simp only [List.lookup_cons, hne]
            rcases ih with h1 | ⟨h1, h2, h3⟩ | ⟨h1, h2, h3⟩
            · exact .inl h1
            · exact .inr (.inl ⟨h1, h2, fun q c hq => List.mem_cons_of_mem _ (h3 q c hq)⟩)
            · exact .inr (.inr ⟨h1, List.mem_cons_of_mem _ h2, h3⟩)
      · cases he : (operateValue v0 f a op).err with
        | some e =>
          left
          rw [OperateObjectFields_other_err f a op k0 v0 rest hk0 e he]
          simp only [List.lookup_cons, hne]
          exact h
        | none =>
          rw [OperateObjectFields_other_ok f a op k0 v0 rest hk0 he]
          simp only [List.lookup_cons, hne]
          rcases ih with h1 | ⟨h1, h2, h3⟩ | ⟨h1, h2, h3⟩
          · exact .inl h1
          · exact .inr (.inl ⟨h1, h2, fun q c hq => List.mem_append_right _ (h3 q c hq)⟩)
          · exact .inr (.inr ⟨h1, List.mem_append_right _ h2, h3⟩)

/-- An element of a sequence is, after the loop, what it was or, when it is a mapping, what
the walk of it left. -/
theorem getElem_walk_calls :
    ∀ (l : List Value) (i j : Nat) (e : Value), l[j]? = some e →
      (operateItems l i f a op).obj[j]? = some e ∨
      ∃ n, e = .map n ∧
        (operateItems l i f a op).obj[j]? = some (.map (OperateObjectFields n f a op).obj) ∧
        ∀ q c, (q, c) ∈ (OperateObjectFields n f a op).calls →
          (.idx (i + j) :: q, c) ∈ (operateItems l i f a op).calls
  | [], i, j, e, h => by simp at h
  | e0 :: rest, i, j, e, h => by
    cases j with
    | zero =>
      simp only [List.getElem?_cons_zero, Option.some.injEq] at h
      subst h
      by_cases hmap : ∃ n, e0 = .map n
      · obtain ⟨n, rfl⟩ := hmap
        right
        refine ⟨n, rfl, ?_⟩
        cases he : (OperateObjectFields n f a op).err with
        | some e =>
          rw [operateItems_map_err f a op n rest i e he]
          exact ⟨by simp, fun q c hq => (mem_under_cons _ _ _ _).mpr hq⟩
        | none =>
          rw [operateItems_map_ok f a op n rest i he]
          exact ⟨by simp, fun q c hq =>
            List.mem_append_left _ ((mem_under_cons _ _ _ _).mpr hq)⟩
      · left
        rw [operateItems_skip f a op e0 rest i (fun n hn => hmap ⟨n, hn⟩)]
        simp
    | succ j' =>
      simp only [List.getElem?_cons_succ] at h
      have ih := getElem_walk_calls rest (i + 1) j' e h
      have hidx : i + 1 + j' = i + (j' + 1) := by omega
      rw [hidx] at ih
      by_cases hmap : ∃ n, e0 = .map n
      · obtain ⟨n, rfl⟩ := hmap
        cases he : (OperateObjectFields n f a op).err with
        | some e =>
          left
          rw [operateItems_map_err f a op n rest i e he]
          simpa using h
        | none =>
          rw [operateItems_map_ok f a op n rest i he]
          simp only [List.getElem?_cons_succ]
          rcases ih with h1 | ⟨n', hn', h1, h2⟩
          · exact .inl h1
          · exact .inr ⟨n', hn', h1, fun q c hq => List.mem_append_right _ (h2 q c hq)⟩
      · rw [operateItems_skip f a op e0 rest i (fun n hn => hmap ⟨n, hn⟩)]
        simp only [List.getElem?_cons_succ]
        exact ih

/-- The value at a path that is neither on the way to nor inside a field on which the
operation succeeded is, after the walk, what it was. -/
theorem get_frame :
    ∀ (p : Path) (v u : Value), v.get p = some u →
      (∀ q c, (q, c) ∈ (operateValue v f a op).calls → (op a c).2 = none →
        ¬ p <+: q ∧ ¬ q <+: p) →
      (operateValue v f a op).obj.get p = some u
  | [], v, u, hg, hv => by
    rw [Value.get_nil] at hg
    simp only [Option.some.injEq] at hg
    subst hg
    rw [(walk_no_change f a op).1 v (fun q c hq hs => (hv q c hq hs).1 List.nil_prefix)]
    exact Value.get_nil v
  | .key k :: p, v, u, hg, hv => by
    cases v with
    | map m =>
      rw [Value.get_map_cons] at hg
      cases hl : m.lookup k with
      | none => simp [hl] at hg
      | some v1 =>
        simp only [hl] at hg
        rw [operateValue_map] at hv ⊢
        rw [Value.get_map_cons]
        rcases lookup_walk_calls f a op k m v1 hl with h1 | ⟨_, h1, h2⟩ | ⟨_, h2, h3⟩
        · simp only [h1]
          exact hg
        · simp only [h1]
          refine get_frame p v1 u hg ?_
          intro q c hq hs
          have := hv (.key k :: q) c (h2 q c hq) hs
          exact ⟨fun hp => this.1 ((List.prefix_cons_inj _).mpr hp),
            fun hp => this.2 ((List.prefix_cons_inj _).mpr hp)⟩
        · exact absurd ((List.prefix_cons_inj _).mpr List.nil_prefix) (hv [.key k] v1 h2 h3).2
    | _ => simp [Value.get] at hg
  | .idx i :: p, v, u, hg, hv => by
    cases v with
    | seq l =>
      rw [Value.get_seq_cons] at hg
      cases hl : l[i]? with
      | none => simp [hl] at hg
      | some e =>
        simp only [hl] at hg
        rw [operateValue_seq] at hv ⊢
        rw [Value.get_seq_cons]
        rcases getElem_walk_calls f a op l 0 i e hl with h1 | ⟨n, rfl, h1, h2⟩
        · simp only [h1]
          exact hg
        · simp only [h1]
          have := get_frame p (.map n) u hg (by
            intro q c hq hs
            rw [operateValue_map] at hq
            have h3 := h2 q c hq
            rw [Nat.zero_add] at h3
            have := hv (.idx i :: q) c h3 hs
            exact ⟨fun hp => this.1 ((List.prefix_cons_inj _).mpr hp),
              fun hp => this.2 ((List.prefix_cons_inj _).mpr hp)⟩)
          rw [operateValue_map] at this
          exact this
    | _ => simp [Value.get] at hg

/-- An element of a sequence that is not a mapping and lies inside no field on which the
operation succeeded is, after the walk, what it was. -/
theorem get_frame_item (i : Nat) (e : Value) (hmap : ∀ n, e ≠ .map n) :
    ∀ (p : Path) (v : Value) (l : List Value), v.get p = some (.seq l) → l[i]? = some e →
      (∀ q c, (q, c) ∈ (operateValue v f a op).calls → (op a c).2 = none →
        ¬ q <+: p ++ [.idx i]) →
      (operateValue v f a op).obj.get (p ++ [.idx i]) = some e
  | [], v, l, hg, hl, _ => by
    rw [Value.get_nil] at hg
    simp only [Option.some.injEq] at hg
    subst hg
    rw [operateValue_seq, List.nil_append, Value.get_seq_cons,
      getElem_walk_skip f a op l 0 i e hl hmap]
    exact Value.get_nil e
  | .key k :: p, v, l, hg, hl, hv => by
    cases v with
    | map m =>
      rw [Value.get_map_cons] at hg
      cases hlk : m.lookup k with
      | none => simp [hlk] at hg
      | some v1 =>
        simp only [hlk] at hg
        rw [operateValue_map] at hv ⊢
        rw [List.cons_append, Value.get_map_cons]
        rcases lookup_walk_calls f a op k m v1 hlk with h1 | ⟨_, h1, h2⟩ | ⟨_, h2, h3⟩
        · simp only [h1]
          exact Value.get_item p v1 l i e hg hl
        · simp only [h1]
          refine get_frame_item i e hmap p v1 l hg hl ?_
          intro q c hq hs hp
          exact hv (.key k :: q) c (h2 q c hq) hs ((List.prefix_cons_inj _).mpr hp)
        · exact absurd ((List.prefix_cons_inj _).mpr List.nil_prefix) (hv [.key k] v1 h2 h3)
    | _ => simp [Value.get] at hg
  | .idx j :: p, v, l, hg, hl, hv => by
    cases v with
    | seq l0 =>
      rw [Value.get_seq_cons] at hg
      cases hlj : l0[j]? with
      | none => simp [hlj] at hg
      | some e0 =>
        simp only [hlj] at hg
        rw [operateValue_seq] at hv ⊢
        rw [List.cons_append, Value.get_seq_cons]
        rcases getElem_walk_calls f a op l0 0 j e0 hlj with h1 | ⟨n, rfl, h1, h2⟩
        · simp only [h1]
          exact Value.get_item p e0 l i e hg hl
        · simp only [h1]
          have := get_frame_item i e hmap p (.map n) l hg hl (by
            intro q c hq hs hp
            rw [operateValue_map] at hq
            have h3 := h2 q c hq
            rw [Nat.zero_add] at h3
            exact hv (.idx j :: q) c h3 hs ((List.prefix_cons_inj _).mpr hp))
          rw [operateValue_map] at this
          exact this
    | _ => simp [Value.get] at hg

/-! ### What the walk leaves at a field it has rewritten -/

theorem Value.get_map_skip (k k' : String) (x : Value) (m : Object) (q : Path) (h : k' ≠ k) :
    (Value.map ((k, x) :: m)).get (.key k' :: q) = (Value.map m).get (.key k' :: q) := by
  have hne : (k' == k) = false := by simpa using h
  rw [Value.get_map_cons, Value.get_map_cons, List.lookup_cons, hne]

theorem Value.get_map_head (k : String) (x : Value) (m : Object) (q : Path) :
    (Value.map ((k, x) :: m)).get (.key k :: q) = x.get q := by
  rw [Value.get_map_cons, List.lookup_cons, beq_self_eq_true]

theorem Value.get_seq_head (x : Value) (l : List Value) (q : Path) :
    (Value.seq (x :: l)).get (.idx 0 :: q) = x.get q := by
  rw [Value.get_seq_cons, List.getElem?_cons_zero]

theorem Value.get_seq_skip (x : Value) (l : List Value) (j : Nat) (q : Path) :
    (Value.seq (x :: l)).get (.idx (j + 1) :: q) = (Value.seq l).get (.idx j :: q) := by
  rw [Value.get_seq_cons, Value.get_seq_cons, List.getElem?_cons_succ]

/-- In a mapping without a key twice, the calls of the walk of the other fields are not
below the first key. -/
theorem calls_rest_key (k : String) (rest : Object)
    (hk : (!rest.any (fun e => e.1 == k)) = true) (q : Path) (c : Value)
    (h : (q, c) ∈ (OperateObjectFields rest f a op).calls) :
    ∃ k' q', q = .key k' :: q' ∧ k' ≠ k := by
  obtain ⟨k', q', v', hq, hm⟩ := ((calls_sound f a op).2.1 rest q c h).map_path
  refine ⟨k', q', hq, ?_⟩
  intro hkk
  rw [hkk] at hm
  exact key_absent_of_wf k rest hk v' hm

/-- In a tree without a key twice, a field on which the operation succeeded holds, after the
walk, what the operation returned. -/
theorem call_result :
    (∀ v : Value, wfValue v = true → ∀ q c, (q, c) ∈ (operateValue v f a op).calls →
      (op a c).2 = none → (operateValue v f a op).obj.get q = some (op a c).1) ∧
    (∀ m : Object, wfObject m = true → ∀ q c, (q, c) ∈ (OperateObjectFields m f a op).calls →
      (op a c).2 = none →
      (Value.map (OperateObjectFields m f a op).obj).get q = some (op a c).1) ∧
    (∀ l : List Value, wfItems l = true → ∀ i q c, (q, c) ∈ (operateItems l i f a op).calls →
      (op a c).2 = none →
      ∃ j q', q = .idx (i + j) :: q' ∧
        (Value.seq (operateItems l i f a op).obj).get (.idx j :: q') = some (op a c).1) := by
  apply tree_induction
  · intro v h1 h2 _ q c h
    rw [operateValue_scalar f a op v h1 h2] at h
    simp at h
  · intro m ih hw q c h hs
    rw [wfValue] at hw
    rw [operateValue_map] at h ⊢
    exact ih hw q c h hs
  · intro l ih hw q c h hs
    rw [wfValue] at hw
    rw [operateValue_seq] at h ⊢
    obtain ⟨j, q', rfl, hg⟩ := ih hw 0 q c h hs
    rw [Nat.zero_add]
    exact hg
  · intro _ q c h
    rw [OperateObjectFields_nil] at h
    simp at h
  · intro k v rest ihv ihr hw q c h hs
    rw [wfObject] at hw
    simp only [Bool.and_eq_true] at hw
    obtain ⟨⟨hk, hwv⟩, hwr⟩ := hw
    have hrest : (q, c) ∈ (OperateObjectFields rest f a op).calls → ∀ x : Value,
        (Value.map ((k, x) :: (OperateObjectFields rest f a op).obj)).get q =
          some (op a c).1 := by
      intro hq x
      obtain ⟨k', q', rfl, hne⟩ := calls_rest_key f a op k rest hk q c hq
      rw [Value.get_map_skip k k' x _ q' hne]
      exact ihr hwr _ c hq hs
    by_cases hkf : k = f
    · subst hkf
      cases hop : op a v with
      | mk r e =>
        cases e with
        | some e =>
          rw [OperateObjectFields_target_err k a op v rest r e hop] at h
          simp only [List.mem_singleton, Prod.mk.injEq] at h
          rw [h.2, hop] at hs
          simp at hs
        | none =>
          rw [OperateObjectFields_target_ok k a op v rest r hop] at h ⊢
          rcases List.mem_cons.mp h with h | h
          · simp only [Prod.mk.injEq] at h
            obtain ⟨rfl, rfl⟩ := h
            rw [Value.get_map_head, Value.get_nil, hop]
          · exact hrest h r
    · have hhead : ∀ tail : Object, (q, c) ∈ (operateValue v f a op).under (.key k) →
          (Value.map ((k, (operateValue v f a op).obj) :: tail)).get q = some (op a c).1 := by
        intro tail hq
        obtain ⟨q', rfl, hq'⟩ := (mem_under _ _ _ _).mp hq
        rw [Value.get_map_head]
        exact ihv hwv q' c hq' hs
      cases he : (operateValue v f a op).err with
      | some e =>
        rw [OperateObjectFields_other_err f a op k v rest hkf e he] at h ⊢
        exact hhead rest h
      | none =>
        rw [OperateObjectFields_other_ok f a op k v rest hkf he] at h ⊢
        rcases List.mem_append.mp h with h | h
        · exact hhead _ h
        · exact hrest h _
  · intro _ i q c h
    rw [operateItems_nil] at h
    simp at h
  · intro e rest ihv ihr hw i q c h hs
    rw [wfItems] at hw
    simp only [Bool.and_eq_true] at hw
    have hrest : (q, c) ∈ (operateItems rest (i + 1) f a op).calls → ∀ x : Value,
        ∃ j q', q = .idx (i + j) :: q' ∧
          (Value.seq (x :: (operateItems rest (i + 1) f a op).obj)).get (.idx j :: q') =
            some (op a c).1 := by
      intro hq x
      obtain ⟨j, q', rfl, hg⟩ := ihr hw.2 (i + 1) q c hq hs
      refine ⟨j + 1, q', by rw [Nat.add_assoc, Nat.add_comm 1 j], ?_⟩
      rw [Value.get_seq_skip]
      exact hg
    by_cases hmap : ∃ n, e = .map n
    · obtain ⟨n, rfl⟩ := hmap
      have hhead : ∀ tail : List Value,
          (q, c) ∈ (OperateObjectFields n f a op).under (.idx i) →
          ∃ j q', q = .idx (i + j) :: q' ∧
            (Value.seq (.map (OperateObjectFields n f a op).obj :: tail)).get (.idx j :: q') =
              some (op a c).1 := by
        intro tail hq
        obtain ⟨q', rfl, hq'⟩ := (mem_under _ _ _ _).mp hq
        refine ⟨0, q', rfl, ?_⟩
        rw [Value.get_seq_head]
        have := ihv hw.1 q' c (by rw [operateValue_map]; exact hq') hs
        rw [operateValue_map] at this
        exact this
      cases he : (OperateObjectFields n f a op).err with
      | some e =>
        rw [operateItems_map_err f a op n rest i e he] at h ⊢
        exact hhead rest h
      | none =>
        rw [operateItems_map_ok f a op n rest i he] at h ⊢
        rcases List.mem_append.mp h with h | h
        · exact hhead _ h
        · exact hrest h _
    · rw [operateItems_skip f a op e rest i (fun n hn => hmap ⟨n, hn⟩)] at h ⊢
      exact hrest h e

/-! ### The first error ends the walk -/

theorem StopsAtError.nil : StopsAtError a op [] none :=
  ⟨fun _ x hx => by simp at hx, fun e he => by simp at he⟩

theorem StopsAtError.under {τ : Type} (s : Step) (w : Walk τ) (e : Option String)
    (h : StopsAtError a op w.calls e) : StopsAtError a op (w.under s) e := by
  constructor
  · intro he x hx
    obtain ⟨y, hy, rfl⟩ := List.mem_map.mp hx
    exact h.1 he y hy
  · intro e' he
    obtain ⟨pre, x, hc, hpre, hx⟩ := h.2 e' he
    refine ⟨pre.map (fun c => (s :: c.1, c.2)), (s :: x.1, x.2), ?_, ?_, hx⟩
    · unfold Walk.under
      rw [hc, List.map_append, List.map_singleton]
    · intro y hy
      obtain ⟨z, hz, rfl⟩ := List.mem_map.mp hy
      exact hpre z hz

theorem StopsAtError.append (cs1 cs2 : List (Path × Value)) (e : Option String)
    (h1 : StopsAtError a op cs1 none) (h2 : StopsAtError a op cs2 e) :
    StopsAtError a op (cs1 ++ cs2) e := by
  constructor
  · intro he x hx
    rcases List.mem_append.mp hx with hx | hx
    · exact h1.1 rfl x hx
    · exact h2.1 he x hx
  · intro e' he
    obtain ⟨pre, x, hc, hpre, hx⟩ := h2.2 e' he
    refine ⟨cs1 ++ pre, x, by rw [hc, List.append_assoc], ?_, hx⟩
    intro y hy
    rcases List.mem_append.mp hy with hy | hy
    · exact h1.1 rfl y hy
    · exact hpre y hy

theorem StopsAtError.cons (x : Path × Value) (cs : List (Path × Value)) (e : Option String)
    (hx : (op a x.2).2 = none) (h : StopsAtError a op cs e) :
    StopsAtError a op (x :: cs) e :=
  StopsAtError.append a op [x] cs e
    ⟨fun _ y hy => by rw [List.mem_singleton.mp hy]; exact hx, fun e he => by simp at he⟩ h

theorem StopsAtError.single (x : Path × Value) (e : String) (hx : (op a x.2).2 = some e) :
    StopsAtError a op [x] (some e) :=
  ⟨fun he => by simp at he, fun e' he =>
    ⟨[], x, rfl, fun y hy => by simp at hy, by rw [hx]; exact he⟩⟩

/-- Every walk stops at the first call that fails and returns the error of that call. -/
theorem calls_stop :
    (∀ v : Value, StopsAtError a op (operateValue v f a op).calls (operateValue v f a op).err) ∧
    (∀ m : Object, StopsAtError a op (OperateObjectFields m f a op).calls
      (OperateObjectFields m f a op).err) ∧
    (∀ l : List Value, ∀ i, StopsAtError a op (operateItems l i f a op).calls
      (operateItems l i f a op).err) := by
  apply tree_induction
  · intro v h1 h2
    rw [operateValue_scalar f a op v h1 h2]
    exact StopsAtError.nil a op
  · intro m ih
    rw [operateValue_map]
    exact ih
  · intro l ih
    rw [operateValue_seq]
    exact ih 0
  · rw [OperateObjectFields_nil]
    exact StopsAtError.nil a op
  · intro k v rest ihv ihr
    by_cases hk : k = f
    · subst hk
      cases hop : op a v with
      | mk r e =>
        cases e with
        | some e =>
          rw [OperateObjectFields_target_err k a op v rest r e hop]
          exact StopsAtError.single a op _ e (by rw [hop])
        | none =>
          rw [OperateObjectFields_target_ok k a op v rest r hop]
          exact StopsAtError.cons a op _ _ _ (by rw [hop]) ihr
    · cases he : (operateValue v f a op).err with
      | some e =>
        rw [OperateObjectFields_other_err f a op k v rest hk e he]
        rw [he] at ihv
        exact StopsAtError.under a op _ _ _ ihv
      | none =>
        rw [OperateObjectFields_other_ok f a op k v rest hk he]
        rw [he] at ihv
        exact StopsAtError.append a op _ _ _ (StopsAtError.under a op _ _ _ ihv) ihr
  · intro i
    rw [operateItems_nil]
    exact StopsAtError.nil a op
  · intro e rest ihv ihr i
    by_cases hmap : ∃ n, e = .map n
    · obtain ⟨n, rfl⟩ := hmap
      rw [operateValue_map] at ihv
      cases he : (OperateObjectFields n f a op).err with
      | some e =>
        rw [operateItems_map_err f a op n rest i e he]
        rw [he] at ihv
        exact StopsAtError.under a op _ _ _ ihv
      | none =>
        rw [operateItems_map_ok f a op n rest i he]
        rw [he] at ihv
        exact StopsAtError.append a op _ _ _ (StopsAtError.under a op _ _ _ ihv) (ihr (i + 1))
    · rw [operateItems_skip f a op e rest i (fun n hn => hmap ⟨n, hn⟩)]
      exact ihr (i + 1)

/-! ### The order of the calls -/

/-- With an operation that never fails no walk fails. -/
theorem never_fails (hnf : ∀ v, (op a v).2 = none) :
    (∀ v : Value, (operateValue v f a op).err = none) ∧
    (∀ m : Object, (OperateObjectFields m f a op).err = none) ∧
    (∀ l : List Value, ∀ i, (operateItems l i f a op).err = none) := by
  apply tree_induction
  · intro v h1 h2
    rw [operateValue_scalar f a op v h1 h2]
  · intro m ih
    rw [operateValue_map]
    exact ih
  · intro l ih
    rw [operateValue_seq]
    exact ih 0
  · rw [OperateObjectFields_nil]
  · intro k v rest ihv ihr
    by_cases hk : k = f
    · subst hk
      cases hop : op a v with
      | mk r e =>
        have he : e = none := by
          have := hnf v
          rw [hop] at this
          exact this
        subst he
        rw [OperateObjectFields_target_ok k a op v rest r hop]
        exact ihr
    · rw [OperateObjectFields_other_ok f a op k v rest hk ihv]
      exact ihr
  · intro i
    rw [operateItems_nil]
  · intro e rest ihv ihr i
    by_cases hmap : ∃ n, e = .map n
    · obtain ⟨n, rfl⟩ := hmap
      rw [operateValue_map] at ihv
      rw [operateItems_map_ok f a op n rest i ihv]
      exact ihr (i + 1)
    · rw [operateItems_skip f a op e rest i (fun n hn => hmap ⟨n, hn⟩)]
      exact ihr (i + 1)

theorem under_initial {τ : Type} (s : Step) (w w' : Walk τ) (h : w.calls <+: w'.calls) :
    w.under s <+: w'.under s := by
  unfold Walk.under
  exact h.map _

theorem under_congr {τ : Type} (s : Step) (w w' : Walk τ) (h : w.calls = w'.calls) :
    w.under s = w'.under s := by
  unfold Walk.under
  rw [h]

/-- The calls of a walk are the first calls of the walk with an operation that never fails,
and all of them when the walk returns no error. -/
theorem calls_initial (op' : α → Value → Value × Option String)
    (hnf : ∀ v, (op' a v).2 = none) :
    (∀ v : Value, (operateValue v f a op).calls <+: (operateValue v f a op').calls ∧
      ((operateValue v f a op).err = none →
        (operateValue v f a op).calls = (operateValue v f a op').calls)) ∧
    (∀ m : Object,
      (OperateObjectFields m f a op).calls <+: (OperateObjectFields m f a op').calls ∧
      ((OperateObjectFields m f a op).err = none →
        (OperateObjectFields m f a op).calls = (OperateObjectFields m f a op').calls)) ∧
    (∀ l : List Value, ∀ i,
      (operateItems l i f a op).calls <+: (operateItems l i f a op').calls ∧
      ((operateItems l i f a op).err = none →
        (operateItems l i f a op).calls = (operateItems l i f a op').calls)) := by
  apply tree_induction
  · intro v h1 h2
    rw [operateValue_scalar f a op v h1 h2, operateValue_scalar f a op' v h1 h2]
    exact ⟨List.prefix_refl _, fun _ => rfl⟩
  · intro m ih
    rw [operateValue_map, operateValue_map]
    exact ih
  · intro l ih
    rw [operateValue_seq, operateValue_seq]
    exact ih 0
  · rw [OperateObjectFields_nil, OperateObjectFields_nil]
    exact ⟨List.prefix_refl _, fun _ => rfl⟩
  · intro k v rest ihv ihr
    by_cases hk : k = f
    · subst hk
      cases hop' : op' a v with
      | mk r' e' =>
        have he' : e' = none := by
          have := hnf v
          rw [hop'] at this
          exact this
        subst he'
        rw [OperateObjectFields_target_ok k a op' v rest r' hop']
        cases hop : op a v with
        | mk r e =>
          cases e with
          | some e =>
            rw [OperateObjectFields_target_err k a op v rest r e hop]
            exact ⟨(List.prefix_cons_inj _).mpr List.nil_prefix, fun h => by simp at h⟩
          | none =>
            rw [OperateObjectFields_target_ok k a op v rest r hop]
            exact ⟨(List.prefix_cons_inj _).mpr ihr.1, fun h => by
              simp only at h ⊢
              rw [ihr.2 h]⟩
    · rw [OperateObjectFields_other_ok f a op' k v rest hk ((never_fails f a op' hnf).1 v)]
      cases he : (operateValue v f a op).err with
      | some e =>
        rw [OperateObjectFields_other_err f a op k v rest hk e he]
        exact ⟨(under_initial _ _ _ ihv.1).trans (List.prefix_append _ _),
          fun h => by simp at h⟩
      | none =>
        rw [OperateObjectFields_other_ok f a op k v rest hk he]
        have hu := under_congr (.key k) _ _ (ihv.2 he)
        simp only [hu]
        exact ⟨(List.prefix_append_right_inj _).mpr ihr.1, fun h => by rw [ihr.2 h]⟩
  · intro i
    rw [operateItems_nil, operateItems_nil]
    exact ⟨List.prefix_refl _, fun _ => rfl⟩
  · intro e rest ihv ihr i
    by_cases hmap : ∃ n, e = .map n
    · obtain ⟨n, rfl⟩ := hmap
      rw [operateValue_map, operateValue_map] at ihv
      have ihv1 : (OperateObjectFields n f a op).calls <+:
          (OperateObjectFields n f a op').calls := ihv.1
      have ihv2 : (OperateObjectFields n f a op).err = none →
          (OperateObjectFields n f a op).calls = (OperateObjectFields n f a op').calls := ihv.2
      have hn' : (OperateObjectFields n f a op').err = none := (never_fails f a op' hnf).2.1 n
      rw [operateItems_map_ok f a op' n rest i hn']
      cases he : (OperateObjectFields n f a op).err with
      | some e =>
        rw [operateItems_map_err f a op n rest i e he]
        exact ⟨(under_initial _ _ _ ihv1).trans (List.prefix_append _ _),
          fun h => by simp at h⟩
      | none =>
        rw [operateItems_map_ok f a op n rest i he]
        have hu := under_congr (.idx i) _ _ (ihv2 he)
        simp only [hu]
        exact ⟨(List.prefix_append_right_inj _).mpr (ihr (i + 1)).1,
          fun h => by rw [(ihr (i + 1)).2 h]⟩
    · rw [operateItems_skip f a op e rest i (fun n hn => hmap ⟨n, hn⟩),
        operateItems_skip f a op' e rest i (fun n hn => hmap ⟨n, hn⟩)]
      exact ihr (i + 1)

/-! ### The calls of the walker: claim C1 -/

/-- C1, as amended: for every tree in which no mapping has a key twice, every field name and
every operation, `OperateObjectFields` calls the operation only on fields whose key is the
field name and that are reachable from the root through nested mappings or mapping-valued
sequence elements, each with the value it holds, and on no field twice.  The first call that
fails ends the walk: when the walk returns an error, that error is the error of the last
call and no call before it failed; when it returns none, no call failed.  The calls are the
first calls, in the same order, of the walk with any operation that never fails.  When the
walk returns no error, every such field that does not lie inside the value of another field
of that name has been called exactly once.  Whether a field inside the value of a field of
that name is called is left open. -/
theorem OperateObjectFields_calls {α : Type} (obj : Object) (field_name : String) (op_arg : α)
    (operation : α → Value → Value × Option String) (hwf : wfObject obj = true) :
    (∀ q c, (q, c) ∈ (OperateObjectFields obj field_name op_arg operation).calls →
      SpecField field_name (.map obj) q c) ∧
    (∀ q, (OperateObjectFields obj field_name op_arg operation).callsAt q ≤ 1) ∧
    ((OperateObjectFields obj field_name op_arg operation).err = none →
      ∀ x ∈ (OperateObjectFields obj field_name op_arg operation).calls,
        (operation op_arg x.2).2 = none) ∧
    (∀ e, (OperateObjectFields obj field_name op_arg operation).err = some e →
      ∃ pre x, (OperateObjectFields obj field_name op_arg operation).calls = pre ++ [x] ∧
        (∀ y ∈ pre, (operation op_arg y.2).2 = none) ∧ (operation op_arg x.2).2 = some e) ∧
    (∀ unfailing : α → Value → Value × Option String, (∀ v, (unfailing op_arg v).2 = none) →
      (OperateObjectFields obj field_name op_arg operation).calls <+:
        (OperateObjectFields obj field_name op_arg unfailing).calls) ∧
    ((OperateObjectFields obj field_name op_arg operation).err = none →
      ∀ q c, Visited field_name (.map obj) q c →
        (q, c) ∈ (OperateObjectFields obj field_name op_arg operation).calls ∧
        (OperateObjectFields obj field_name op_arg operation).callsAt q = 1) := by
  have hnd := (calls_nodup field_name op_arg operation).2.1 obj hwf
  have hstop := (calls_stop field_name op_arg operation).2.1 obj
  refine ⟨?_, ?_, hstop.1, hstop.2, ?_, ?_⟩
  · intro q c hq
    exact ((calls_sound field_name op_arg operation).2.1 obj q c hq).spec
  · intro q
    exact callsAt_le_one _ q hnd
  · intro unfailing hnf
    exact ((calls_initial field_name op_arg operation unfailing hnf).2.1 obj).1
  · intro he q c hv
    have hm := (calls_complete field_name op_arg operation).2.1 obj he q c hv
    exact ⟨hm, Nat.le_antisymm (callsAt_le_one _ q hnd) (callsAt_pos _ q c hm)⟩

/-- C1 at two walks with `ImageTransform` as the operation.  In the sequence of two mappings
the walk fails: its last call is the one that failed, with the error the walk returns.  At
the tree of scenario E2 the walk does not fail and every image is called exactly once. -/
theorem OperateObjectFields_calls_witness :
    wfObject fixtureTwoItems = true ∧
    (∃ pre x, (OperateObjectFields fixtureTwoItems "image" (OpArg.sourceMap [("tes", "1")])
        ImageTransform).calls = pre ++ [x] ∧
      (∀ y ∈ pre, (ImageTransform (OpArg.sourceMap [("tes", "1")]) y.2).2 = none) ∧
      (ImageTransform (OpArg.sourceMap [("tes", "1")]) x.2).2 =
        some "cannot change the image as it\x27s not a string") ∧
    wfObject fixtureE2 = true ∧
    (∀ q c, Visited "image" (.map fixtureE2) q c →
      (q, c) ∈ (OperateObjectFields fixtureE2 "image"
        (OpArg.sourceMap [("tes", "1")]) ImageTransform).calls ∧
      (OperateObjectFields fixtureE2 "image"
        (OpArg.sourceMap [("tes", "1")]) ImageTransform).callsAt q = 1) :=
  ⟨by decide,
   (OperateObjectFields_calls fixtureTwoItems "image" (OpArg.sourceMap [("tes", "1")])
     ImageTransform (by decide)).2.2.2.1 _ rfl,
   by decide,
   (OperateObjectFields_calls fixtureE2 "image" (OpArg.sourceMap [("tes", "1")]) ImageTransform
     (by decide)).2.2.2.2.2 rfl⟩

/-- A mapping in a sequence that is itself an element of a sequence is not walked: the
operation is not called and the image stays as it was. -/
theorem OperateObjectFields_skips_inner_sequence :
    (OperateObjectFields fixtureSequenceOfSequences "image" (OpArg.sourceMap [("tes", "1")])
      ImageTransform).calls = [] ∧
    (OperateObjectFields fixtureSequenceOfSequences "image" (OpArg.sourceMap [("tes", "1")])
      ImageTransform).err = none ∧
    (OperateObjectFields fixtureSequenceOfSequences "image" (OpArg.sourceMap [("tes", "1")])
      ImageTransform).obj = fixtureSequenceOfSequences :=
  ⟨rfl, rfl, rfl⟩

/-! ### The walker leaves the rest of the tree: claim C7 -/

/-- C7, as amended: for every tree, field name and operation, after `OperateObjectFields`
returns, with or without error, every value that is neither on the way to a field on which
the operation succeeded (nor such a field) nor inside the value of such a field is what it was
before the call; so is, in particular, every value whose key is not the field name and that
does not lie on a path to a field of that name, unless it lies inside the value of a field on
which the operation succeeded; an element of a sequence that is not a mapping and does not
lie inside such a value is what it was; in a tree where no mapping has a key twice, a field on
which the operation succeeded holds what the operation returned; and an empty tree stays
empty. -/
theorem OperateObjectFields_preserves {α : Type} (obj : Object) (field_name : String)
    (op_arg : α) (operation : α → Value → Value × Option String) :
    (∀ p v, (Value.map obj).get p = some v →
      (∀ q c, (q, c) ∈ (OperateObjectFields obj field_name op_arg operation).calls →
        (operation op_arg c).2 = none → ¬ p <+: q ∧ ¬ q <+: p) →
      (Value.map (OperateObjectFields obj field_name op_arg operation).obj).get p = some v) ∧
    (∀ p v, (Value.map obj).get p = some v → p.getLast? ≠ some (.key field_name) →
      (∀ q c, SpecField field_name (.map obj) q c → ¬ p <+: q) →
      (∀ q c, (q, c) ∈ (OperateObjectFields obj field_name op_arg operation).calls →
        (operation op_arg c).2 = none → ¬ q <+: p) →
      (Value.map (OperateObjectFields obj field_name op_arg operation).obj).get p = some v) ∧
    (∀ p l i e, (Value.map obj).get p = some (.seq l) → l[i]? = some e → (∀ n, e ≠ .map n) →
      (∀ q c, (q, c) ∈ (OperateObjectFields obj field_name op_arg operation).calls →
        (operation op_arg c).2 = none → ¬ q <+: p ++ [.idx i]) →
      (Value.map (OperateObjectFields obj field_name op_arg operation).obj).get
        (p ++ [.idx i]) = some e) ∧
    (wfObject obj = true →
      ∀ q c, (q, c) ∈ (OperateObjectFields obj field_name op_arg operation).calls →
        (operation op_arg c).2 = none →
        (Value.map (OperateObjectFields obj field_name op_arg operation).obj).get q =
          some (operation op_arg c).1) ∧
    (OperateObjectFields ([] : Object) field_name op_arg operation).obj = [] := by
  have hframe : ∀ p v, (Value.map obj).get p = some v →
      (∀ q c, (q, c) ∈ (OperateObjectFields obj field_name op_arg operation).calls →
        (operation op_arg c).2 = none → ¬ p <+: q ∧ ¬ q <+: p) →
      (Value.map (OperateObjectFields obj field_name op_arg operation).obj).get p =
        some v := by
    intro p v hg hv
    have := get_frame field_name op_arg operation p (.map obj) v hg
      (by rw [operateValue_map]; exact hv)
    rw [operateValue_map] at this
    exact this
  refine ⟨hframe, ?_, ?_, ?_, ?_⟩
  · intro p v hg _ hpath hinside
    refine hframe p v hg (fun q c hq hs => ⟨?_, hinside q c hq hs⟩)
    exact hpath q c ((calls_sound field_name op_arg operation).2.1 obj q c hq).spec
  · intro p l i e hg hl hmap hv
    have := get_frame_item field_name op_arg operation i e hmap p (.map obj) l hg hl
      (by rw [operateValue_map]; exact hv)
    rw [operateValue_map] at this
    exact this
  · intro hwf q c hq hs
    exact (call_result field_name op_arg operation).2.1 obj hwf q c hq hs
  · rw [OperateObjectFields_nil]

/-- C7 at three walks.  At the tree of scenario E2 the kind and the string in the sequence
are what they were and the image below `spec` holds what `ImageTransform` returned.  At a
walk that fails on its first field the mapping beside it, image and all, is what it was.  At
a sequence of sequences the walk calls nothing and the value inside the image field is what
it was. -/
theorem OperateObjectFields_preserves_witness :
    ((Value.map (OperateObjectFields fixtureE2 "image" (OpArg.sourceMap [("tes", "1")])
        ImageTransform).obj).get [.key "kind"] = some (.str "Deployment") ∧
      (Value.map (OperateObjectFields fixtureE2 "image" (OpArg.sourceMap [("tes", "1")])
        ImageTransform).obj).get ([.key "list"] ++ [.idx 1]) = some (.str "ignored") ∧
      (Value.map (OperateObjectFields fixtureE2 "image" (OpArg.sourceMap [("tes", "1")])
        ImageTransform).obj).get [.key "spec", .key "image"] = some (.str "1t")) ∧
    ((OperateObjectFields fixtureBadImageFirst "image" (OpArg.sourceMap [("tes", "1")])
        ImageTransform).err ≠ none ∧
      (Value.map (OperateObjectFields fixtureBadImageFirst "image"
        (OpArg.sourceMap [("tes", "1")]) ImageTransform).obj).get [.key "spec"] =
        some (.map [("image", .str "test")])) ∧
    (Value.map (OperateObjectFields fixtureNestedSequence "image" () redactOperation).obj).get
      [.key "list", .idx 0, .idx 0, .key "image", .key "x"] = some (.num 1) := by
  have h2 := OperateObjectFields_preserves fixtureE2 "image" (OpArg.sourceMap [("tes", "1")])
    ImageTransform
  have hc2 : (OperateObjectFields fixtureE2 "image" (OpArg.sourceMap [("tes", "1")])
      ImageTransform).calls =
      [([.key "spec", .key "image"], .str "test"),
       ([.key "spec", .key "nested", .key "image"], .str "test"),
       ([.key "list", .idx 0, .key "image"], .str "test")] := rfl
  have hb := OperateObjectFields_preserves fixtureBadImageFirst "image"
    (OpArg.sourceMap [("tes", "1")]) ImageTransform
  have hcb : (OperateObjectFields fixtureBadImageFirst "image" (OpArg.sourceMap [("tes", "1")])
      ImageTransform).calls = [([.key "image"], .num 1)] := rfl
  have hn := OperateObjectFields_preserves fixtureNestedSequence "image" () redactOperation
  have hcn : (OperateObjectFields fixtureNestedSequence "image" () redactOperation).calls =
      [] := rfl
  refine ⟨⟨h2.1 [.key "kind"] (.str "Deployment") rfl ?_,
      h2.2.2.1 [.key "list"] [.map [("image", .str "test")], .str "ignored"] 1 (.str "ignored")
        rfl rfl (fun n hn => by cases hn) ?_,
      h2.2.2.2.1 (by decide) [.key "spec", .key "image"] (.str "test") ?_ rfl⟩,
    ⟨by decide, hb.1 [.key "spec"] (.map [("image", .str "test")]) rfl ?_⟩,
    hn.1 [.key "list", .idx 0, .idx 0, .key "image", .key "x"] (.num 1) rfl ?_⟩
  · intro q c hq _
    rw [hc2] at hq
    simp only [List.mem_cons, Prod.mk.injEq, List.mem_singleton, List.not_mem_nil,
      or_false] at hq
    rcases hq with ⟨rfl, _⟩ | ⟨rfl, _⟩ | ⟨rfl, _⟩ <;> exact ⟨by decide, by decide⟩
  · intro q c hq _
    rw [hc2] at hq
    simp only [List.mem_cons, Prod.mk.injEq, List.mem_singleton, List.not_mem_nil,
      or_false] at hq
    rcases hq with ⟨rfl, _⟩ | ⟨rfl, _⟩ | ⟨rfl, _⟩ <;> decide
  · rw [hc2]
    exact List.mem_cons_self _ _
  · intro q c hq hs
    rw [hcb] at hq
    simp only [List.mem_singleton, Prod.mk.injEq] at hq
    rw [hq.2] at hs
    exact absurd hs (by decide)
  · intro q c hq _
    rw [hcn] at hq
    simp at hq

/-! ### The volume rewriter: claims C5, C8 and C9 -/

theorem nonZeroMembers_flexOnly (flex : FlexPersistentVolumeSource) :
    (flexOnly flex).nonZeroMembers = ["FlexVolume"] := by
  simp [flexOnly, PersistentVolumeSource.nonZeroMembers, PersistentVolumeSource.zero]

theorem assignFlexVolume_remove (pv : PersistentVolume)
    (assign : FlexPersistentVolumeSource → FlexPersistentVolumeSource) :
    assignFlexVolume (removePersistentVolumeSource (some pv)) assign =
      .ret (some (cleared pv (assign ⟨"", "", none, false, []⟩))) none := by
  simp [removePersistentVolumeSource, assignFlexVolume, cleared, flexOnly]

theorem assignFlexVolume_members (pv : Option PersistentVolume)
    (assign : FlexPersistentVolumeSource → FlexPersistentVolumeSource)
    (pv' : PersistentVolume) (err : Option String)
    (h : assignFlexVolume (removePersistentVolumeSource pv) assign = .ret (some pv') err) :
    pv'.Spec.PersistentVolumeSource.nonZeroMembers = ["FlexVolume"] := by
  cases pv with
  | none => simp [removePersistentVolumeSource, assignFlexVolume] at h
  | some pv =>
    rw [assignFlexVolume_remove] at h
    simp only [Run.ret.injEq, Option.some.injEq] at h
    rw [← h.1]
    exact nonZeroMembers_flexOnly _

theorem createOSSVolume_members (pv : Option PersistentVolume) (a b c d e : String)
    (pv' : PersistentVolume)
    (h : createOSSVolume pv a b c d e = .ret (some pv') none) :
    pv'.Spec.PersistentVolumeSource.nonZeroMembers = ["FlexVolume"] := by
  unfold createOSSVolume at h
  split at h
  · simp at h
  · exact assignFlexVolume_members _ _ _ _ h

theorem createNASVolume_members (pv : Option PersistentVolume) (a b c : String)
    (pv' : PersistentVolume)
    (h : createNASVolume pv a b c = .ret (some pv') none) :
    pv'.Spec.PersistentVolumeSource.nonZeroMembers = ["FlexVolume"] := by
  unfold createNASVolume at h
  split at h
  · simp at h
  · split at h
    · simp at h
    · exact assignFlexVolume_members _ _ _ _ h

theorem SetLabels_remove (pv : PersistentVolume) (labels : List (String × String)) :
    SetLabels (removePersistentVolumeSource (some pv)) labels =
      .ret (removePersistentVolumeSource
        (some { pv with ObjectMeta := { pv.ObjectMeta with Labels := labels } })) none := by
  simp [removePersistentVolumeSource, SetLabels]

theorem createDiskVolume_members (pv : Option PersistentVolume) (a b c d : String)
    (pv' : PersistentVolume)
    (h : createDiskVolume pv a b c d = .ret (some pv') none) :
    pv'.Spec.PersistentVolumeSource.nonZeroMembers = ["FlexVolume"] := by
  unfold createDiskVolume at h
  split at h
  · simp at h
  · split at h
    · cases pv with
      | none => simp [removePersistentVolumeSource, SetLabels] at h
      | some pv =>
        rw [SetLabels_remove] at h
        exact assignFlexVolume_members _ _ _ _ h
    · simp at h

theorem volumeResult_some (r : Run (Option PersistentVolume)) (pv' : PersistentVolume)
    (err : Option String) (h : volumeResult r = .ret (some pv') err) :
    r = .ret (some pv') none := by
  unfold volumeResult at h
  split at h
  · simp at h
  · simp at h
  · simp only [Run.ret.injEq] at h
    rw [← h.1]

/-- C5: for every PersistentVolume tree, whatever volume source it decodes to, and every
configuration, when `TransformPersistentVolume` returns a rewritten PV, the members of its
volume-source union that are not nil are exactly the one member `FlexVolume`. -/
theorem TransformPersistentVolume_source_unique (cv : Converter) (p : ObjectRestoreTransformer)
    (content : Object) (pv' : PersistentVolume) (err : Option String)
    (h : TransformPersistentVolume cv p content = .ret (some pv') err) :
    pv'.Spec.PersistentVolumeSource.nonZeroMembers = ["FlexVolume"] ∧
      pv'.Spec.PersistentVolumeSource.FlexVolume.isSome = true := by
  have key : pv'.Spec.PersistentVolumeSource.nonZeroMembers = ["FlexVolume"] := by
    unfold TransformPersistentVolume at h
    split at h
    · simp at h
    · split at h
      · simp at h
      · split at h
        · simp at h
        · split at h
          · exact createOSSVolume_members _ _ _ _ _ _ _ (volumeResult_some _ _ _ h)
          · split at h
            · exact createDiskVolume_members _ _ _ _ _ _ (volumeResult_some _ _ _ h)
            · split at h
              · exact createNASVolume_members _ _ _ _ _ (volumeResult_some _ _ _ h)
              · simp at h
  refine ⟨key, ?_⟩
  cases hf : pv'.Spec.PersistentVolumeSource.FlexVolume with
  | some _ => rfl
  | none =>
    have : "FlexVolume" ∈ pv'.Spec.PersistentVolumeSource.nonZeroMembers := by
      rw [key]; simp
    simp [PersistentVolumeSource.nonZeroMembers, hf] at this

/-- C5 at scenario E3: the NFS volume becomes a volume whose only member is `FlexVolume`. -/
theorem TransformPersistentVolume_source_unique_witness :
    fixturePV.Spec.PersistentVolumeSource.nonZeroMembers = ["NFS"] ∧
    TransformPersistentVolume fixtureConverter fixtureConfigOSS fixtureTreePV =
      .ret (some fixtureOSSRewritten) none ∧
    fixtureOSSRewritten.Spec.PersistentVolumeSource.nonZeroMembers = ["FlexVolume"] ∧
    fixtureOSSRewritten.Spec.PersistentVolumeSource.FlexVolume.isSome = true :=
  ⟨by decide, by decide,
   TransformPersistentVolume_source_unique fixtureConverter fixtureConfigOSS fixtureTreePV
     fixtureOSSRewritten none (by decide)⟩

/-- C8: for every PV, `createDiskVolume` returns an error if and only if one of region, zone,
fsType, volumeId is empty or fsType is not one of ext4, ext3, xfs, vfat; when all four are
non-empty and fsType is unsupported the error is "unsupported alibabacloud Disk volume
fsType: " followed by fsType; whenever it returns an error the PV is unchanged; and otherwise
it returns a PV and no error. -/
theorem createDiskVolume_rejection (pv : PersistentVolume)
    (region zone fsType volumeId : String) :
    ((∃ pv' err, createDiskVolume (some pv) region zone fsType volumeId = .ret pv' (some err)) ↔
      (region = "" ∨ zone = "" ∨ fsType = "" ∨ volumeId = "" ∨
        ¬ (fsType = "ext4" ∨ fsType = "ext3" ∨ fsType = "xfs" ∨ fsType = "vfat"))) ∧
    (region ≠ "" → zone ≠ "" → fsType ≠ "" → volumeId ≠ "" →
      ¬ (fsType = "ext4" ∨ fsType = "ext3" ∨ fsType = "xfs" ∨ fsType = "vfat") →
      createDiskVolume (some pv) region zone fsType volumeId =
        .ret (some pv) (some ("unsupported alibabacloud Disk volume fsType: " ++ fsType))) ∧
    (∀ pv' err, createDiskVolume (some pv) region zone fsType volumeId = .ret pv' (some err) →
      pv' = some pv) ∧
    (¬ (region = "" ∨ zone = "" ∨ fsType = "" ∨ volumeId = "" ∨
        ¬ (fsType = "ext4" ∨ fsType = "ext3" ∨ fsType = "xfs" ∨ fsType = "vfat")) →
      ∃ pv', createDiskVolume (some pv) region zone fsType volumeId = .ret (some pv') none) := by
  unfold createDiskVolume
  by_cases h1 : region = "" ∨ zone = "" ∨ fsType = "" ∨ volumeId = ""
  · rw [if_pos h1]
    refine ⟨?_, ?_, ?_, ?_⟩
    · constructor
      · intro _; tauto
      · intro _; exact ⟨_, _, rfl⟩
    · intro a b c d; tauto
    · intro pv' err h; injection h with h _; exact h.symm
    · intro h; tauto
  · rw [if_neg h1]
    by_cases h2 : fsType = "ext4" ∨ fsType = "ext3" ∨ fsType = "xfs" ∨ fsType = "vfat"
    · rw [if_pos h2]
      simp only [removePersistentVolumeSource, SetLabels, assignFlexVolume]
      refine ⟨?_, ?_, ?_, ?_⟩
      · constructor
        · rintro ⟨pv', err, h⟩; simp at h
        · intro h; tauto
      · intro a b c d e; exact absurd h2 e
      · intro pv' err h; simp at h
      · intro _; exact ⟨_, rfl⟩
    · rw [if_neg h2]
      refine ⟨?_, ?_, ?_, ?_⟩
      · constructor
        · intro _; tauto
        · intro _; exact ⟨_, _, rfl⟩
      · intro a b c d e; rfl
      · intro pv' err h; injection h with h _; exact h.symm
      · intro h; tauto

/-- C8 at scenario E4: the file system `ntfs` is rejected and the PV is left as it was. -/
theorem createDiskVolume_rejection_witness :
    createDiskVolume (some fixturePV) "cn-hangzhou" "cn-hangzhou-b" "ntfs" "d-1" =
      .ret (some fixturePV) (some "unsupported alibabacloud Disk volume fsType: ntfs") :=
  (createDiskVolume_rejection fixturePV "cn-hangzhou" "cn-hangzhou-b" "ntfs" "d-1").2.1
    (by decide) (by decide) (by decide) (by decide) (by decide)

/-- C9: for every PV, when bucket, url, akId and akSecret are all non-empty `createOSSVolume`
returns no error and leaves the PV with every member of the volume source nil but
`FlexVolume`, whose driver is `alicloud/oss` and whose options are exactly the five keys
bucket, url, akId, akSecret, otherOpts with the values given; when one of the four is empty
it returns an error and the PV is unchanged. -/
theorem createOSSVolume_rewrite (pv : PersistentVolume)
    (bucket url akId akSecret otherOpts : String) :
    ((bucket ≠ "" ∧ url ≠ "" ∧ akId ≠ "" ∧ akSecret ≠ "") →
      createOSSVolume (some pv) bucket url akId akSecret otherOpts =
        .ret (some (cleared pv
          { Driver := "alicloud/oss", FSType := "", SecretRef := none, ReadOnly := false,
            Options := [("bucket", bucket), ("url", url), ("akId", akId),
              ("akSecret", akSecret), ("otherOpts", otherOpts)] })) none) ∧
    (¬ (bucket ≠ "" ∧ url ≠ "" ∧ akId ≠ "" ∧ akSecret ≠ "") →
      ∃ err, createOSSVolume (some pv) bucket url akId akSecret otherOpts =
        .ret (some pv) (some err)) := by
  unfold createOSSVolume
  constructor
  · rintro ⟨h1, h2, h3, h4⟩
    rw [if_neg (by tauto), assignFlexVolume_remove]
    simp [mapSet]
  · intro h
    rw [if_pos (by tauto)]
    exact ⟨_, rfl⟩

/-- C9 at scenario E3. -/
theorem createOSSVolume_rewrite_witness :
    fixturePV.Spec.PersistentVolumeSource.nonZeroMembers = ["NFS"] ∧
    createOSSVolume (some fixturePV) "b" "u" "i" "s" "-o" =
      .ret (some fixtureOSSRewritten) none ∧
    fixtureOSSRewritten.Spec.PersistentVolumeSource.nonZeroMembers = ["FlexVolume"] :=
  ⟨by decide, (createOSSVolume_rewrite fixturePV "b" "u" "i" "s" "-o").1 (by decide),
   by decide⟩

/-! ### The storage-class rewriter: claims C3, C6 and C10 -/

/-- With the reclaim policy set and a supported type, `createDiskStorageClass` returns no
error and leaves the provisioner `alicloud/disk`, no mount options, the parameters of
`diskParameters` and the policy of `diskPolicy`; every other field is as it was. -/
theorem createDiskStorageClass_of_policy (sc : StorageClass) (policy : String)
    (sctype region zone fstype readonly encrypted : String)
    (hp : sc.ReclaimPolicy = some policy)
    (ht : sctype = "cloud_ssd" ∨ sctype = "cloud" ∨ sctype = "cloud_efficiency" ∨
      sctype = "available") :
    createDiskStorageClass (some sc) sctype region zone fstype readonly encrypted =
      .ret (some { sc with
        Provisioner := "alicloud/disk"
        MountOptions := []
        Parameters := diskParameters sctype region zone fstype readonly encrypted
        ReclaimPolicy := some (diskPolicy policy) }) none := by
  have hne : sctype ≠ "" := by
    rcases ht with h | h | h | h <;> subst h <;> decide
  unfold createDiskStorageClass
  rw [if_neg hne, if_pos ht]
  by_cases h1 : region ≠ "" ∧ zone ≠ "" <;> by_cases h2 : fstype ≠ "" <;>
    by_cases h3 : readonly ≠ "" <;> by_cases h4 : encrypted ≠ "" <;>
    by_cases h5 : policy = "Recycle" <;>
    simp [h1, h2, h3, h4, h5, hp, mapSet, diskParameters, diskPolicy,
      PersistentVolumeReclaimRecycle, PersistentVolumeReclaimRetain]

/-- With a type that is not supported `createDiskStorageClass` returns an error and leaves
the StorageClass as it was. -/
theorem createDiskStorageClass_rejects (sc : Option StorageClass)
    (sctype region zone fstype readonly encrypted : String)
    (ht : ¬ (sctype = "cloud_ssd" ∨ sctype = "cloud" ∨ sctype = "cloud_efficiency" ∨
      sctype = "available")) :
    ∃ err, createDiskStorageClass sc sctype region zone fstype readonly encrypted =
      .ret sc (some err) := by
  unfold createDiskStorageClass
  by_cases h : sctype = ""
  · rw [if_pos h]; exact ⟨_, rfl⟩
  · rw [if_neg h, if_neg ht]; exact ⟨_, rfl⟩

/-- With no reclaim policy and a supported type `createDiskStorageClass` panics. -/
theorem createDiskStorageClass_no_policy (sc : StorageClass)
    (sctype region zone fstype readonly encrypted : String)
    (hp : sc.ReclaimPolicy = none)
    (ht : sctype = "cloud_ssd" ∨ sctype = "cloud" ∨ sctype = "cloud_efficiency" ∨
      sctype = "available") :
    createDiskStorageClass (some sc) sctype region zone fstype readonly encrypted = .panic := by
  have hne : sctype ≠ "" := by
    rcases ht with h | h | h | h <;> subst h <;> decide
  unfold createDiskStorageClass
  rw [if_neg hne, if_pos ht]
  by_cases h1 : region ≠ "" ∧ zone ≠ "" <;> by_cases h2 : fstype ≠ "" <;>
    by_cases h3 : readonly ≠ "" <;> by_cases h4 : encrypted ≠ "" <;>
    simp [h1, h2, h3, h4, hp]

theorem classResult_some (r : Run (Option StorageClass)) (sc' : StorageClass)
    (err : Option String) (h : classResult r = .ret (some sc') err) :
    r = .ret (some sc') none := by
  unfold classResult at h
  split at h
  · simp at h
  · simp at h
  · simp only [Run.ret.injEq] at h
    rw [← h.1]

/-- C6: for every StorageClass and every DISK configuration entry, when
`TransformStorageClass` returns a rewritten StorageClass its reclaim policy is not `Recycle`:
a policy of `Recycle` has become `Retain` and any other policy is as it was. -/
theorem TransformStorageClass_disk_policy (cv : Converter) (p : ObjectRestoreTransformer)
    (content : Object) (sc : StorageClass) (scConf : List (String × String))
    (sc' : StorageClass) (err : Option String)
    (hd : cv.FromUnstructuredSC content = .ok sc)
    (hc : p.conf.StorageClass.lookup sc.ObjectMeta.Name = some scConf)
    (hp : scConf.lookup "alibaba_ACK_provisioner" = some "DISK")
    (h : TransformStorageClass cv p content = .ret (some sc') err) :
    sc'.ReclaimPolicy ≠ some "Recycle" ∧
    (sc.ReclaimPolicy = some "Recycle" → sc'.ReclaimPolicy = some "Retain") ∧
    (sc.ReclaimPolicy ≠ some "Recycle" → sc'.ReclaimPolicy = sc.ReclaimPolicy) := by
  unfold TransformStorageClass at h
  simp only [hd, hc, hp, if_true] at h
  have h := classResult_some _ _ _ h
  by_cases ht : mapGet scConf "type" = "cloud_ssd" ∨ mapGet scConf "type" = "cloud" ∨
      mapGet scConf "type" = "cloud_efficiency" ∨ mapGet scConf "type" = "available"
  · cases hpol : sc.ReclaimPolicy with
    | none =>
      rw [createDiskStorageClass_no_policy sc _ _ _ _ _ _ hpol ht] at h
      simp at h
    | some policy =>
      rw [createDiskStorageClass_of_policy sc policy _ _ _ _ _ _ hpol ht] at h
      simp only [Run.ret.injEq, Option.some.injEq] at h
      rw [← h.1]
      by_cases hr : policy = "Recycle"
      · simp [diskPolicy, hr]
      · simp [diskPolicy, hr]
  · obtain ⟨e, he⟩ := createDiskStorageClass_rejects (some sc) (mapGet scConf "type")
      (mapGet scConf "region") (mapGet scConf "zone") (mapGet scConf "fstype")
      (mapGet scConf "readonly") (mapGet scConf "encrypted") ht
    rw [he] at h
    simp at h

/-- C6 at scenario E5: the policy `Recycle` becomes `Retain`. -/
theorem TransformStorageClass_disk_policy_witness :
    TransformStorageClass fixtureConverter fixtureConfigDisk (fixtureTreeSC (some "Recycle")) =
      .ret (some fixtureDiskRewritten) none ∧
    fixtureDiskRewritten.ReclaimPolicy ≠ some "Recycle" ∧
    ((fixtureSC (some "Recycle")).ReclaimPolicy = some "Recycle" →
      fixtureDiskRewritten.ReclaimPolicy = some "Retain") ∧
    ((fixtureSC (some "Recycle")).ReclaimPolicy ≠ some "Recycle" →
      fixtureDiskRewritten.ReclaimPolicy = (fixtureSC (some "Recycle")).ReclaimPolicy) :=
  ⟨by decide,
   TransformStorageClass_disk_policy fixtureConverter fixtureConfigDisk
     (fixtureTreeSC (some "Recycle")) (fixtureSC (some "Recycle")) fixtureDiskEntry
     fixtureDiskRewritten none (by rfl) (by decide) (by decide) (by decide)⟩

/-- C10: the code at the failing input.  A StorageClass whose reclaim policy is not set makes
`createDiskStorageClass` panic on `*sc.ReclaimPolicy` although the type `cloud_ssd` is
supported; with the policy set the same call returns the rewrite the claim describes. -/
theorem createDiskStorageClass_panics_without_policy :
    createDiskStorageClass (some (fixtureSC none)) "cloud_ssd" "r" "z" "" "" "" = .panic ∧
    createDiskStorageClass (some (fixtureSC (some "Recycle"))) "cloud_ssd" "r" "z" "" "" "" =
      .ret (some fixtureDiskRewritten) none := by
  decide

theorem splitAt_ne_nil (sep : Char) : ∀ s : List Char, splitAt sep s ≠ []
  | [] => by simp [splitAt]
  | c :: cs => by
    rw [splitAt]
    split
    · simp
    · split <;> simp

/-- The mount options `TransformStorageClass` passes on are never the empty sequence: the
check of `createNASStorageClass` for an empty sequence cannot fire. -/
theorem strings_Split_length (s : String) (sep : Char) :
    ((strings_Split s sep).map strings_TrimSpace).length ≠ 0 := by
  unfold strings_Split
  simp only [List.length_map, ne_eq, List.length_eq_zero]
  exact splitAt_ne_nil sep s.data

/-- C3: the code at the failing input.  For a NAS/nfs entry whose mount options are the empty
string, or absent, `TransformStorageClass` returns no error but a rewritten StorageClass with
the one mount option `""`. -/
theorem TransformStorageClass_nfs_empty_mountOptions :
    TransformStorageClass fixtureConverter fixtureConfigNfsEmpty
        (fixtureTreeSC (some "Delete")) = .ret (some fixtureNfsRewritten) none ∧
    TransformStorageClass fixtureConverter fixtureConfigNfsAbsent
        (fixtureTreeSC (some "Delete")) = .ret (some fixtureNfsRewritten) none := by
  decide

/-! ### The image rewriter: claim C2 -/

theorem replaceFirst_absent (old new : List Char) :
    ∀ s : List Char, containsSub old s = false → replaceFirst old new s = s
  | [], h => by
    have : old ≠ [] := by
      intro h0; subst h0; simp [containsSub] at h
    simp [replaceFirst, this]
  | c :: cs, h => by
    simp only [containsSub, Bool.or_eq_false_iff] at h
    simp only [replaceFirst, h.1, Bool.false_eq_true, if_false]
    rw [replaceFirst_absent old new cs h.2]

theorem strings_Replace1_absent (s old new : String) (h : strings_Contains s old = false) :
    strings_Replace1 s old new = s := by
  unfold strings_Replace1
  rw [replaceFirst_absent _ _ _ h]

theorem replaceAllSources_absent (m : List (String × String)) (s : String)
    (h : ∀ kv ∈ m, strings_Contains s kv.1 = false) : replaceAllSources m s = s := by
  unfold replaceAllSources
  induction m with
  | nil => rfl
  | cons kv rest ih =>
    rw [List.foldl_cons, strings_Replace1_absent s kv.1 kv.2 (h kv (List.mem_cons_self _ _))]
    exact ih (fun kv' hkv => h kv' (List.mem_cons_of_mem _ hkv))

/-- C2, as stated, fails: with the mapping a -> b, whose new value does not contain its old
key, the image `aa` becomes `ba` on the first application and `bb` on the second, because
only the first occurrence of an old key is replaced. -/
theorem ImageTransform_twice_differs :
    strings_Contains "b" "a" = false ∧
    ImageTransform (.sourceMap [("a", "b")]) (.str "aa") = (.str "ba", none) ∧
    ImageTransform (.sourceMap [("a", "b")])
      (ImageTransform (.sourceMap [("a", "b")]) (.str "aa")).1 = (.str "bb", none) ∧
    ImageTransform (.sourceMap [("a", "b")])
      (ImageTransform (.sourceMap [("a", "b")]) (.str "aa")).1 ≠
      ImageTransform (.sourceMap [("a", "b")]) (.str "aa") := by
  refine ⟨by decide, rfl, rfl, ?_⟩
  intro h
  have h2 : (Value.str "bb", (none : Option String)) = (Value.str "ba", none) := h
  simp only [Prod.mk.injEq, Value.str.injEq] at h2
  exact absurd h2.1 (by decide)

/-! ### The configuration: claim C4 -/

/-- C4, as stated, fails: the transformer was made with the image source tes -> 1 on disk;
after the file is replaced by one with tes -> 2, `Execute` still rewrites `test` to `1t`,
where a transformer that had loaded the new file rewrites it to `2t`. -/
theorem Execute_does_not_reload :
    fixtureWorldAfterChange.file = fixtureFile "2" ∧
    (fixtureWorldAfterChange.Execute fixtureConverter (fixtureDeployment "test")).2 =
      .ret (fixtureDeployment "1t") none ∧
    ((World.start (fixtureFile "2")).Execute fixtureConverter (fixtureDeployment "test")).2 =
      .ret (fixtureDeployment "2t") none ∧
    (fixtureWorldAfterChange.Execute fixtureConverter (fixtureDeployment "test")).2 ≠
      ((World.start (fixtureFile "2")).Execute fixtureConverter (fixtureDeployment "test")).2 := by
  refine ⟨rfl, rfl, rfl, ?_⟩
  intro h
  have h2 : Run.ret (fixtureDeployment "1t") none = Run.ret (fixtureDeployment "2t") none := h
  simp only [fixtureDeployment, Run.ret.injEq, List.cons.injEq, Prod.mk.injEq,
    Value.str.injEq] at h2
  exact absurd h2.1.2.1.2 (by decide)

/-- C4, as amended: `Execute` neither reloads the configuration nor changes the transformer:
after the configuration file is changed, an `Execute` call returns what the configuration
loaded before determines; once `AppliesTo` has run on a file that parses (or the transformer
is made anew), `Execute` returns what the contents of that file determine. -/
theorem Execute_uses_loaded_config (cv : Converter) (w : World) (file : ConfigFile)
    (item : Object) :
    (w.Execute cv item).1 = w ∧
    ((w.writeConfig file).Execute cv item).2 = Execute cv w.p item ∧
    (∀ config, file = .data (.ok config) →
      ((w.writeConfig file).AppliesTo.Execute cv item).2 = Execute cv ⟨config⟩ item) ∧
    (∀ config, file = .data (.ok config) →
      ((World.start file).Execute cv item).2 = Execute cv ⟨config⟩ item) := by
  refine ⟨rfl, rfl, ?_, ?_⟩
  · intro config h
    subst h
    rfl
  · intro config h
    subst h
    rfl

/-- C4 at the example: after `AppliesTo` has reloaded the changed file, `Execute` rewrites
`test` to `2t`. -/
theorem Execute_uses_loaded_config_witness :
    (((World.start (fixtureFile "1")).writeConfig (fixtureFile "2")).AppliesTo.Execute
      fixtureConverter (fixtureDeployment "test")).2 = .ret (fixtureDeployment "2t") none :=
  (Execute_uses_loaded_config fixtureConverter (World.start (fixtureFile "1")) (fixtureFile "2")
    (fixtureDeployment "test")).2.2.1
    { ImageSource := [("tes", "2")], PersistentVolume := [], StorageClass := [] } rfl

/-! ### Occurrences in a string made of pieces -/

theorem isPrefixOf_sep (d : Char) (s : List Char) :
    ∀ (o t : List Char), d ∉ o → o.isPrefixOf (t ++ d :: s) = o.isPrefixOf t
  | [], t, _ => by simp
  | x :: o, [], h => by
    have hx : (x == d) = false := by
      simp only [List.mem_cons, not_or] at h
      simpa using fun hxd => h.1 hxd.symm
    simp [List.isPrefixOf, hx]
  | x :: o, c :: t, h => by
    simp only [List.mem_cons, not_or] at h
    simp only [List.cons_append, List.isPrefixOf_cons₂]
    rw [isPrefixOf_sep d s o t h.2]

theorem isPrefixOf_length : ∀ (o t : List Char), o.isPrefixOf t = true → o.length ≤ t.length
  | [], t, _ => by simp
  | x :: o, [], h => by simp at h
  | x :: o, c :: t, h => by
    simp only [List.isPrefixOf_cons₂, Bool.and_eq_true] at h
    have := isPrefixOf_length o t h.2
    simp only [List.length_cons]
    omega

theorem isPrefixOf_self : ∀ o : List Char, o.isPrefixOf o = true
  | [] => by simp
  | x :: o => by
    simp only [List.isPrefixOf_cons₂, beq_self_eq_true, Bool.true_and]
    exact isPrefixOf_self o

theorem containsSub_self (o : List Char) : containsSub o o = true := by
  cases o with
  | nil => rfl
  | cons x o => simp [containsSub, isPrefixOf_self (x :: o)]

theorem containsSub_nil (o : List Char) (ho : o ≠ []) : containsSub o [] = false := by
  cases o with
  | nil => exact absurd rfl ho
  | cons x o => rfl

theorem containsSub_empty (s : List Char) : containsSub [] s = true := by
  cases s <;> simp [containsSub]

theorem containsSub_sep (d : Char) (o : List Char) (ho : o ≠ []) (hd : d ∉ o) (s : List Char) :
    ∀ t : List Char, containsSub o (t ++ d :: s) = (containsSub o t || containsSub o s)
  | [] => by
    have h := isPrefixOf_sep d s o [] hd
    rw [List.nil_append] at h
    cases o with
    | nil => exact absurd rfl ho
    | cons x o =>
      rw [List.isPrefixOf_cons_nil] at h
      simp [containsSub, h]
  | c :: t => by
    have h := isPrefixOf_sep d s o (c :: t) hd
    rw [List.cons_append] at h ⊢
    rw [containsSub, h, containsSub_sep d o ho hd s t, containsSub, Bool.or_assoc]

theorem replaceFirst_sep (d : Char) (o n : List Char) (ho : o ≠ []) (hd : d ∉ o)
    (s : List Char) :
    ∀ t : List Char, replaceFirst o n (t ++ d :: s) =
      if containsSub o t = true then replaceFirst o n t ++ d :: s
      else t ++ d :: replaceFirst o n s
  | [] => by
    have h := isPrefixOf_sep d s o [] hd
    rw [List.nil_append] at h
    cases o with
    | nil => exact absurd rfl ho
    | cons x o =>
      rw [List.isPrefixOf_cons_nil] at h
      simp [replaceFirst, containsSub, h]
  | c :: t => by
    have h := isPrefixOf_sep d s o (c :: t) hd
    rw [List.cons_append] at h
    rw [List.cons_append, replaceFirst, h]
    cases hp : o.isPrefixOf (c :: t) with
    | true =>
      have hlen := isPrefixOf_length o (c :: t) hp
      simp only [if_true, containsSub, hp, Bool.true_or, replaceFirst]
      rw [← List.cons_append, List.drop_append_of_le_length hlen, List.append_assoc]
    | false =>
      simp only [Bool.false_eq_true, if_false, containsSub, hp, Bool.false_or, replaceFirst]
      rw [replaceFirst_sep d o n ho hd s t]
      split <;> rfl

theorem replaceFirst_self (o n : List Char) (ho : o ≠ []) : replaceFirst o n o = n := by
  cases o with
  | nil => exact absurd rfl ho
  | cons x o =>
    rw [replaceFirst, isPrefixOf_self, if_pos rfl, List.drop_length, List.append_nil]

theorem joinChars_cons (d : Char) (t : List Char) (l : List (List Char)) (hl : l ≠ []) :
    joinChars d (t :: l) = t ++ d :: joinChars d l := by
  cases l with
  | nil => exact absurd rfl hl
  | cons t' ts => rfl

theorem containsSub_join (d : Char) (o : List Char) (ho : o ≠ []) (hd : d ∉ o) :
    ∀ ts : List (List Char), containsSub o (joinChars d ts) = ts.any (containsSub o)
  | [] => by simp [joinChars, containsSub_nil o ho]
  | [t] => by simp [joinChars]
  | t :: t' :: ts => by
    rw [joinChars, containsSub_sep d o ho hd, containsSub_join d o ho hd (t' :: ts)]
    simp only [List.any_cons]

/-! ### Replacing a piece -/

theorem mem_replace (a b : String) :
    ∀ (l : List String) (t : String), t ∈ l.replace a b → t ∈ l ∨ t = b
  | [], t, h => by simp at h
  | x :: l, t, h => by
    rw [List.replace_cons] at h
    by_cases hx : a = x
    · subst hx
      simp only [beq_self_eq_true] at h
      rcases List.mem_cons.mp h with h | h
      · exact .inr h
      · exact .inl (List.mem_cons_of_mem _ h)
    · have hne : (a == x) = false := by simpa using hx
      simp only [hne] at h
      rcases List.mem_cons.mp h with h | h
      · exact .inl (h ▸ List.mem_cons_self _ _)
      · rcases mem_replace a b l t h with h | h
        · exact .inl (List.mem_cons_of_mem _ h)
        · exact .inr h

theorem count_replace_le (a b x : String) (hb : b ≠ x) :
    ∀ l : List String, (l.replace a b).count x ≤ l.count x
  | [] => by simp
  | y :: l => by
    rw [List.replace_cons]
    by_cases hy : a = y
    · subst hy
      simp only [beq_self_eq_true, List.count_cons]
      have : (b == x) = false := by simpa using hb
      simp only [this, Bool.false_eq_true, if_false]
      omega
    · have hne : (a == y) = false := by simpa using hy
      simp only [hne, List.count_cons]
      have := count_replace_le a b x hb l
      omega

theorem replace_eq_map (a b : String) :
    ∀ l : List String, l.count a ≤ 1 → l.replace a b = l.map (fun t => if t = a then b else t)
  | [], _ => rfl
  | y :: l, h => by
    rw [List.replace_cons, List.map_cons]
    by_cases hy : a = y
    · subst hy
      simp only [beq_self_eq_true, if_true, List.cons.injEq, true_and]
      have hc : l.count a = 0 := by
        simp only [List.count_cons, beq_self_eq_true, if_true] at h
        omega
      have hnot : a ∉ l := List.count_eq_zero.mp hc
      symm
      calc l.map (fun t => if t = a then b else t) = l.map id := by
            apply List.map_congr_left
            intro t ht
            have : t ≠ a := fun hta => hnot (hta ▸ ht)
            simp [this]
        _ = l := List.map_id _
    · have hne : (a == y) = false := by simpa using hy
      have hya : ¬ y = a := fun h' => hy h'.symm
      simp only [hne, hya, if_false, List.cons.injEq, true_and]
      apply replace_eq_map a b l
      have hyb : (y == a) = false := by simpa using hya
      simp only [List.count_cons, hyb, Bool.false_eq_true, if_false, Nat.add_zero] at h
      exact h

/-! ### The rewrite of an image made of pieces -/

theorem replaceFirst_join (d : Char) (o n : String) (ho : o.data ≠ []) (hd : d ∉ o.data) :
    ∀ pieces : List String, (∀ t ∈ pieces, strings_Contains t o = true → t = o) →
      replaceFirst o.data n.data (joinChars d (pieces.map String.data)) =
        joinChars d ((pieces.replace o n).map String.data)
  | [], _ => by simp [joinChars, replaceFirst, ho]
  | t :: rest, h => by
    have ih := replaceFirst_join d o n ho hd rest
      (fun t' ht' => h t' (List.mem_cons_of_mem _ ht'))
    by_cases ht : t = o
    · subst ht
      rw [List.replace_cons_self]
      cases rest with
      | nil => simp [joinChars, replaceFirst_self t.data n.data ho]
      | cons t' ts =>
        simp only [List.map_cons, joinChars]
        rw [replaceFirst_sep d t.data n.data ho hd, containsSub_self, if_pos rfl,
          replaceFirst_self t.data n.data ho]
    · have hne : (o == t) = false := by simpa using fun h' : o = t => ht h'.symm
      have hno : containsSub o.data t.data = false := by
        cases hc : containsSub o.data t.data with
        | false => rfl
        | true => exact absurd (h t (List.mem_cons_self _ _) hc) ht
      rw [List.replace_cons]
      simp only [hne]
      cases rest with
      | nil => simp [joinChars, replaceFirst_absent o.data n.data t.data hno]
      | cons t' ts =>
        have hlen : ((t' :: ts).replace o n).map String.data ≠ [] := by
          intro hnil
          have := congrArg List.length hnil
          simp at this
        simp only [List.map_cons] at ih ⊢
        rw [joinChars_cons d t.data _ hlen, ← ih]
        show replaceFirst o.data n.data (t.data ++ d :: joinChars d (t'.data :: ts.map String.data)) = _
        rw [replaceFirst_sep d o.data n.data ho hd, hno]
        simp

theorem strings_Replace1_join (d : Char) (o n : String) (ho : o.data ≠ []) (hd : d ∉ o.data)
    (pieces : List String) (h : ∀ t ∈ pieces, strings_Contains t o = true → t = o) :
    strings_Replace1 (joinPieces d pieces) o n = joinPieces d (pieces.replace o n) := by
  unfold strings_Replace1 joinPieces
  rw [replaceFirst_join d o n ho hd pieces h]

theorem strings_Contains_join (d : Char) (o : String) (ho : o.data ≠ []) (hd : d ∉ o.data)
    (pieces : List String) :
    strings_Contains (joinPieces d pieces) o = pieces.any (fun t => strings_Contains t o) := by
  unfold strings_Contains joinPieces
  rw [containsSub_join d o.data ho hd]
  induction pieces with
  | nil => rfl
  | cons t ts ih => simp only [List.map_cons, List.any_cons, ih]

theorem key_nonempty (m : List (String × String))
    (hnew : ∀ kv ∈ m, ∀ kv' ∈ m, strings_Contains kv'.2 kv.1 = false) :
    ∀ kv ∈ m, kv.1.data ≠ [] := by
  intro kv hkv h0
  have := hnew kv hkv kv hkv
  unfold strings_Contains at this
  rw [h0, containsSub_empty] at this
  exact absurd this (by decide)

theorem new_not_key (m : List (String × String))
    (hnew : ∀ kv ∈ m, ∀ kv' ∈ m, strings_Contains kv'.2 kv.1 = false) :
    ∀ kv ∈ m, ∀ kv' ∈ m, kv'.2 ≠ kv.1 := by
  intro kv hkv kv' hkv' h
  have := hnew kv hkv kv' hkv'
  rw [h] at this
  unfold strings_Contains at this
  rw [containsSub_self] at this
  exact absurd this (by decide)

/-- The loop of `ImageTransform` over an image made of pieces replaces pieces. -/
theorem replaceAllSources_join (d : Char) (m : List (String × String))
    (hnew : ∀ kv ∈ m, ∀ kv' ∈ m, strings_Contains kv'.2 kv.1 = false)
    (hsep : ∀ kv ∈ m, d ∉ kv.1.data) :
    ∀ (m0 : List (String × String)), (∀ kv ∈ m0, kv ∈ m) → ∀ pieces : List String,
      (∀ t ∈ pieces, ∀ kv ∈ m, strings_Contains t kv.1 = true → t = kv.1) →
      replaceAllSources m0 (joinPieces d pieces) =
        joinPieces d (m0.foldl (fun ps kv => ps.replace kv.1 kv.2) pieces)
  | [], _, _, _ => rfl
  | kv :: rest, hsub, pieces, hgood => by
    have hkv : kv ∈ m := hsub kv (List.mem_cons_self _ _)
    unfold replaceAllSources
    rw [List.foldl_cons, List.foldl_cons,
      strings_Replace1_join d kv.1 kv.2 (key_nonempty m hnew kv hkv) (hsep kv hkv) pieces
        (fun t ht => hgood t ht kv hkv)]
    refine replaceAllSources_join d m hnew hsep rest
      (fun kv' h' => hsub kv' (List.mem_cons_of_mem _ h')) _ ?_
    intro t ht kv' hkv' hc
    rcases mem_replace kv.1 kv.2 pieces t ht with h1 | h1
    · exact hgood t h1 kv' hkv' hc
    · rw [h1, hnew kv' hkv' kv hkv] at hc
      exact absurd hc (by decide)

theorem lookup_isSome {β : Type} (k : String) (v : β) :
    ∀ m : List (String × β), (k, v) ∈ m → ∃ v', m.lookup k = some v'
  | [], h => by simp at h
  | (k0, v0) :: rest, h => by
    by_cases hk : k = k0
    · subst hk
      exact ⟨v0, by simp [List.lookup_cons]⟩
    · have hne : (k == k0) = false := by simpa using hk
      rw [List.lookup_cons, hne]
      rcases List.mem_cons.mp h with h | h
      · simp only [Prod.mk.injEq] at h
        exact absurd h.1 hk
      · exact lookup_isSome k v rest h

/-- Replacing piece after piece is replacing every piece that is an old key by its new
value, when no old key is a piece twice and no new value is an old key. -/
theorem foldl_replace_eq_map (m : List (String × String))
    (hne : ∀ kv ∈ m, ∀ kv' ∈ m, kv'.2 ≠ kv.1) :
    ∀ (m0 : List (String × String)), (∀ kv ∈ m0, kv ∈ m) → ∀ pieces : List String,
      (∀ kv ∈ m0, pieces.count kv.1 ≤ 1) →
      m0.foldl (fun ps kv => ps.replace kv.1 kv.2) pieces =
        pieces.map (fun t => (m0.lookup t).getD t)
  | [], _, pieces, _ => by simp
  | (o, n) :: rest, hsub, pieces, honce => by
    have hkv : (o, n) ∈ m := hsub (o, n) (List.mem_cons_self _ _)
    rw [List.foldl_cons, foldl_replace_eq_map m hne rest
      (fun kv' h' => hsub kv' (List.mem_cons_of_mem _ h')) _ (fun kv' h' =>
        Nat.le_trans (count_replace_le o n kv'.1
          (hne kv' (hsub kv' (List.mem_cons_of_mem _ h')) (o, n) hkv) pieces)
          (honce kv' (List.mem_cons_of_mem _ h'))),
      replace_eq_map o n pieces (honce (o, n) (List.mem_cons_self _ _)), List.map_map]
    apply List.map_congr_left
    intro t _
    simp only [Function.comp]
    by_cases ht : t = o
    · have hnone : rest.lookup n = none := by
        cases hl : rest.lookup n with
        | none => rfl
        | some x =>
          have hmem := mem_of_lookup n rest x hl
          exact absurd rfl (hne (n, x) (hsub _ (List.mem_cons_of_mem _ hmem)) (o, n) hkv)
      simp [ht, hnone, List.lookup_cons]
    · have hb : (t == o) = false := by simpa using ht
      simp [ht, List.lookup_cons, hb]

/-! ### Rewriting an image twice: claim C2 -/

/-- C2, as amended: for every old->new mapping in which no new value contains any old key,
and every image string made of pieces separated by a character that occurs in no old key,
such that an old key occurs in a piece only when the piece is that old key and no old key is
a piece more than once: `ImageTransform` returns the image made of the same pieces with each
piece that is an old key replaced by its new value, no old key occurs in that result, and
applying `ImageTransform` to the result, with the pairs of the mapping in any order, yields
the same string as applying it once. -/
theorem ImageTransform_fixed (m m' : List (String × String)) (image : String) (d : Char)
    (pieces : List String)
    (hperm : m'.Perm m)
    (hnew : ∀ kv ∈ m, ∀ kv' ∈ m, strings_Contains kv'.2 kv.1 = false)
    (himage : image = joinPieces d pieces)
    (hsep : ∀ kv ∈ m, d ∉ kv.1.data)
    (hkey : ∀ t ∈ pieces, ∀ kv ∈ m, strings_Contains t kv.1 = true → t = kv.1)
    (honce : ∀ kv ∈ m, pieces.count kv.1 ≤ 1) :
    ImageTransform (.sourceMap m) (.str image) =
      (.str (joinPieces d (pieces.map (fun t => (m.lookup t).getD t))), none) ∧
    (∀ kv ∈ m, strings_Contains
      (joinPieces d (pieces.map (fun t => (m.lookup t).getD t))) kv.1 = false) ∧
    ImageTransform (.sourceMap m') (ImageTransform (.sourceMap m) (.str image)).1 =
      ImageTransform (.sourceMap m) (.str image) := by
  have hone : replaceAllSources m image =
      joinPieces d (pieces.map (fun t => (m.lookup t).getD t)) := by
    rw [himage, replaceAllSources_join d m hnew hsep m (fun _ h => h) pieces hkey,
      foldl_replace_eq_map m (new_not_key m hnew) m (fun _ h => h) pieces honce]
  have habsent : ∀ kv ∈ m, strings_Contains
      (joinPieces d (pieces.map (fun t => (m.lookup t).getD t))) kv.1 = false := by
    intro kv hkv
    rw [strings_Contains_join d kv.1 (key_nonempty m hnew kv hkv) (hsep kv hkv)]
    cases hany : (pieces.map (fun t => (m.lookup t).getD t)).any
        (fun t => strings_Contains t kv.1) with
    | false => rfl
    | true =>
      obtain ⟨t', ht', hc⟩ := List.any_eq_true.mp hany
      obtain ⟨t, ht, rfl⟩ := List.mem_map.mp ht'
      cases hl : m.lookup t with
      | none =>
        simp only [hl, Option.getD_none] at hc
        have htk := hkey t ht kv hkv hc
        obtain ⟨v', hv'⟩ := lookup_isSome kv.1 kv.2 m hkv
        rw [htk, hv'] at hl
        cases hl
      | some n =>
        simp only [hl, Option.getD_some] at hc
        rw [hnew kv hkv (t, n) (mem_of_lookup t m n hl)] at hc
        exact absurd hc (by decide)
  refine ⟨?_, habsent, ?_⟩
  · simp only [ImageTransform, hone]
  · simp only [ImageTransform]
    rw [hone, replaceAllSources_absent m' _ (fun kv hkv => habsent kv (hperm.mem_iff.mp hkv))]

/-- C2 at the image `gcr.io/pause:3.1`, made of two pieces with `/` between them, and a map
of two registries: the piece `gcr.io` becomes `registry.cn/acs`, and a second pass in the
other order leaves the image. -/
theorem ImageTransform_fixed_witness :
    ImageTransform (.sourceMap fixtureRegistries) (.str "gcr.io/pause:3.1") =
      (.str "registry.cn/acs/pause:3.1", none) ∧
    ImageTransform (.sourceMap fixtureRegistriesSwapped)
        (ImageTransform (.sourceMap fixtureRegistries) (.str "gcr.io/pause:3.1")).1 =
      ImageTransform (.sourceMap fixtureRegistries) (.str "gcr.io/pause:3.1") :=
  have h := ImageTransform_fixed fixtureRegistries fixtureRegistriesSwapped "gcr.io/pause:3.1"
    '/' ["gcr.io", "pause:3.1"] (List.Perm.swap _ _ _) (by decide) (by decide)
    (by decide) (by decide) (by decide)
  ⟨h.1.trans rfl, h.2.2⟩

/-- Why the image is asked to be made of pieces: that each old key occurs at most once in the
image is not enough.  With the mapping ab -> b the image `aab`, in which `ab` occurs once,
becomes `ab` on the first application and `b` on the second: the new value joins what stood
before the old key. -/
theorem ImageTransform_joins_neighbours :
    strings_Contains "b" "ab" = false ∧
    ImageTransform (.sourceMap [("ab", "b")]) (.str "aab") = (.str "ab", none) ∧
    ImageTransform (.sourceMap [("ab", "b")]) (.str "ab") = (.str "b", none) :=
  ⟨by decide, rfl, rfl⟩

/-! ### The NAS and DISK rewrites: claims C11, C12 and C13 -/

/-- C11: for every PV, when server and path are non-empty and vers is one of "3", "4.0", ""
`createNASVolume` returns no error and leaves the PV with every member of the volume source
nil but `FlexVolume`, whose driver is `alicloud/nas` and whose options are exactly server and
path, and vers if and only if vers is non-empty; otherwise it returns an error and the PV is
unchanged. -/
theorem createNASVolume_rewrite (pv : PersistentVolume) (server path vers : String) :
    ((server ≠ "" ∧ path ≠ "" ∧ (vers = "3" ∨ vers = "4.0" ∨ vers = "")) →
      createNASVolume (some pv) server path vers =
        .ret (some (cleared pv
          { Driver := "alicloud/nas", FSType := "", SecretRef := none, ReadOnly := false,
            Options := nasOptions server path vers })) none) ∧
    (¬ (server ≠ "" ∧ path ≠ "" ∧ (vers = "3" ∨ vers = "4.0" ∨ vers = "")) →
      ∃ err, createNASVolume (some pv) server path vers = .ret (some pv) (some err)) := by
  unfold createNASVolume
  constructor
  · rintro ⟨h1, h2, h3⟩
    rw [if_neg (by tauto), if_neg (by tauto), assignFlexVolume_remove]
    by_cases hv : vers = ""
    · simp [mapSet, nasOptions, hv]
    · simp [mapSet, nasOptions, hv]
  · intro h
    by_cases h1 : server = "" ∨ path = ""
    · rw [if_pos h1]
      exact ⟨_, rfl⟩
    · rw [if_neg h1, if_pos (by tauto)]
      exact ⟨_, rfl⟩

/-- C11 at a NAS entry with version 4.0, at one with no version, and at one with a version
that is not supported. -/
theorem createNASVolume_rewrite_witness :
    createNASVolume (some fixturePV) "nas.example" "/share" "4.0" =
      .ret (some (cleared fixturePV
        { Driver := "alicloud/nas", FSType := "", SecretRef := none, ReadOnly := false,
          Options := [("server", "nas.example"), ("path", "/share"), ("vers", "4.0")] })) none ∧
    createNASVolume (some fixturePV) "nas.example" "/share" "" =
      .ret (some (cleared fixturePV
        { Driver := "alicloud/nas", FSType := "", SecretRef := none, ReadOnly := false,
          Options := [("server", "nas.example"), ("path", "/share")] })) none ∧
    (∃ err, createNASVolume (some fixturePV) "nas.example" "/share" "4.1" =
      .ret (some fixturePV) (some err)) :=
  ⟨(createNASVolume_rewrite fixturePV "nas.example" "/share" "4.0").1 (by decide),
   (createNASVolume_rewrite fixturePV "nas.example" "/share" "").1 (by decide),
   (createNASVolume_rewrite fixturePV "nas.example" "/share" "4.1").2 (by decide)⟩

/-- C12: for every PV, all non-empty region, zone and volumeId and every fsType among ext4,
ext3, xfs, vfat, `createDiskVolume` returns no error and leaves the PV with every member of
the volume source nil but `FlexVolume`, with exactly the two labels
`failure-domain.beta.kubernetes.io/zone` and `failure-domain.beta.kubernetes.io/region`
(whatever labels it had), and with the `FlexVolume` driver `alicloud/disk`, its `FSType` the
fsType and its options exactly `volumeId`. -/
theorem createDiskVolume_rewrite (pv : PersistentVolume) (region zone fsType volumeId : String)
    (hr : region ≠ "") (hz : zone ≠ "") (hv : volumeId ≠ "")
    (hf : fsType = "ext4" ∨ fsType = "ext3" ∨ fsType = "xfs" ∨ fsType = "vfat") :
    createDiskVolume (some pv) region zone fsType volumeId =
      .ret (some (cleared
        { pv with
          ObjectMeta :=
            { pv.ObjectMeta with
              Labels := [("failure-domain.beta.kubernetes.io/zone", zone),
                ("failure-domain.beta.kubernetes.io/region", region)] } }
        { Driver := "alicloud/disk", FSType := fsType, SecretRef := none, ReadOnly := false,
          Options := [("volumeId", volumeId)] })) none := by
  have hne : fsType ≠ "" := by
    rcases hf with h | h | h | h <;> subst h <;> decide
  unfold createDiskVolume
  rw [if_neg (by tauto), if_pos hf, SetLabels_remove]
  simp only []
  rw [assignFlexVolume_remove]
  simp [mapSet]

/-- C12 at the volume of the examples, which has the label `app` and an NFS source. -/
theorem createDiskVolume_rewrite_witness :
    fixturePV.ObjectMeta.Labels = [("app", "db")] ∧
    createDiskVolume (some fixturePV) "cn-hangzhou" "cn-hangzhou-b" "ext4" "d-1" =
      .ret (some fixtureDiskVolumeRewritten) none ∧
    fixtureDiskVolumeRewritten.Spec.PersistentVolumeSource.nonZeroMembers = ["FlexVolume"] :=
  ⟨by decide,
   createDiskVolume_rewrite fixturePV "cn-hangzhou" "cn-hangzhou-b" "ext4" "d-1"
     (by decide) (by decide) (by decide) (by decide),
   by decide⟩

/-- C13: for every StorageClass, with drivertype `flexvolume` `createNASStorageClass` returns
no error if and only if nfsversion is one of "3", "4.0", ""; it then leaves the provisioner
`alicloud/nas`, no mount options whatever mount options were passed, and exactly the
parameters drivertype = flexvolume and options, and nfsversion if and only if it is non-empty;
with an nfsversion that is not supported, and with any drivertype other than `nfs` and
`flexvolume`, it returns an error and the StorageClass is unchanged. -/
theorem createNASStorageClass_flexvolume (sc : StorageClass)
    (drivertype nfsversion options : String) (mountOptions : List String) :
    ((nfsversion = "3" ∨ nfsversion = "4.0" ∨ nfsversion = "") →
      createNASStorageClass (some sc) "flexvolume" nfsversion options mountOptions =
        .ret (some { sc with
          Provisioner := "alicloud/nas"
          MountOptions := []
          Parameters := nasParameters nfsversion options }) none) ∧
    (¬ (nfsversion = "3" ∨ nfsversion = "4.0" ∨ nfsversion = "") →
      ∃ err, createNASStorageClass (some sc) "flexvolume" nfsversion options mountOptions =
        .ret (some sc) (some err)) ∧
    (drivertype ≠ "nfs" → drivertype ≠ "flexvolume" →
      createNASStorageClass (some sc) drivertype nfsversion options mountOptions =
        .ret (some sc) (some ("drivertype " ++ drivertype ++
          " is illegal for alibabacloud ACK NAS StorageClass"))) := by
  unfold createNASStorageClass
  refine ⟨?_, ?_, ?_⟩
  · intro h
    rw [if_neg (by decide), if_pos rfl, if_neg (by tauto)]
    by_cases hv : nfsversion = ""
    · simp [mapSet, nasParameters, hv]
    · simp [mapSet, nasParameters, hv]
  · intro h
    rw [if_neg (by decide), if_pos rfl, if_pos (by tauto)]
    exact ⟨_, rfl⟩
  · intro h1 h2
    rw [if_neg h1, if_neg h2]

/-- C13 at scenario E6, and at a drivertype that is not supported. -/
theorem createNASStorageClass_flexvolume_witness :
    createNASStorageClass (some (fixtureSC (some "Delete"))) "flexvolume" "4.0" "noresvport"
        [""] = .ret (some fixtureFlexRewritten) none ∧
    createNASStorageClass (some (fixtureSC (some "Delete"))) "csi" "4.0" "noresvport" [""] =
      .ret (some (fixtureSC (some "Delete")))
        (some "drivertype csi is illegal for alibabacloud ACK NAS StorageClass") :=
  ⟨(createNASStorageClass_flexvolume (fixtureSC (some "Delete")) "csi" "4.0" "noresvport"
      [""]).1 (by decide),
   (createNASStorageClass_flexvolume (fixtureSC (some "Delete")) "csi" "4.0" "noresvport"
      [""]).2.2 (by decide) (by decide)⟩

/-! ### The image operation: claim C14 -/

theorem isPrefixOf_iff (old s : List Char) : old.isPrefixOf s = true ↔ ∃ post, s = old ++ post := by
  rw [List.isPrefixOf_iff_prefix]
  constructor
  · rintro ⟨t, ht⟩
    exact ⟨t, ht.symm⟩
  · rintro ⟨t, ht⟩
    exact ⟨t, ht.symm⟩

/-- The `replaceFirst` replaces the first occurrence: when `s` is `pre ++ old ++ post` and no
occurrence of `old` starts earlier, the result is `pre ++ new ++ post`. -/
theorem replaceFirst_first (old new : List Char) :
    ∀ (s pre post : List Char), s = pre ++ old ++ post →
      (∀ pre' post', s = pre' ++ old ++ post' → pre.length ≤ pre'.length) →
      replaceFirst old new s = pre ++ new ++ post
  | [], pre, post, hs, _ => by
    have h1 := congrArg List.length hs
    simp only [List.length_nil, List.length_append] at h1
    have hpre : pre = [] := List.length_eq_zero.mp (by omega)
    have hold : old = [] := List.length_eq_zero.mp (by omega)
    have hpost : post = [] := List.length_eq_zero.mp (by omega)
    subst hpre hold hpost
    simp [replaceFirst]
  | c :: cs, pre, post, hs, hmin => by
    rw [replaceFirst]
    by_cases hp : old.isPrefixOf (c :: cs) = true
    · rw [if_pos hp]
      obtain ⟨post0, h0⟩ := (isPrefixOf_iff old (c :: cs)).mp hp
      have hlen := hmin [] post0 (by simpa using h0)
      have hpre : pre = [] := List.length_eq_zero.mp (by simpa using hlen)
      subst hpre
      simp only [List.nil_append] at hs ⊢
      rw [hs, List.drop_left]
    · rw [if_neg hp]
      cases pre with
      | nil =>
        exact absurd ((isPrefixOf_iff old (c :: cs)).mpr ⟨post, by simpa using hs⟩) hp
      | cons d pre2 =>
        simp only [List.cons_append, List.cons.injEq] at hs
        obtain ⟨rfl, hcs⟩ := hs
        simp only [List.cons_append, List.cons.injEq, true_and]
        refine replaceFirst_first old new cs pre2 post (by simpa using hcs) ?_
        intro pre' post' h'
        have := hmin (c :: pre') post' (by simp [h'])
        simpa using this

theorem containsSub_iff (old : List Char) :
    ∀ s : List Char, containsSub old s = true ↔ ∃ pre post, s = pre ++ old ++ post
  | [] => by
    simp only [containsSub, List.isEmpty_iff]
    constructor
    · intro h; subst h; exact ⟨[], [], rfl⟩
    · rintro ⟨pre, post, h⟩
      have h1 := congrArg List.length h
      simp only [List.length_nil, List.length_append] at h1
      exact List.length_eq_zero.mp (by omega)
  | c :: cs => by
    simp only [containsSub, Bool.or_eq_true]
    rw [isPrefixOf_iff, containsSub_iff old cs]
    constructor
    · rintro (⟨post, h⟩ | ⟨pre, post, h⟩)
      · exact ⟨[], post, by simpa using h⟩
      · exact ⟨c :: pre, post, by simp [h]⟩
    · rintro ⟨pre, post, h⟩
      cases pre with
      | nil => exact .inl ⟨post, by simpa using h⟩
      | cons d pre2 =>
        simp only [List.cons_append, List.cons.injEq] at h
        exact .inr ⟨pre2, post, by simpa using h.2⟩

/-- C14: for every value that is not a string `ImageTransform` returns that value together
with the error "cannot change the image as it's not a string"; for every string image and
every mapping of one pair old -> new it returns, with no error, the image with the first
occurrence of old replaced by new, and the image itself when old does not occur; and with an
empty mapping it returns the image as it is. -/
theorem ImageTransform_semantics (sourceMap : OpArg) (v : Value) (image old new : String) :
    ((∀ s, v ≠ .str s) →
      ImageTransform sourceMap v =
        (v, some "cannot change the image as it\x27s not a string")) ∧
    (∃ r, ImageTransform (.sourceMap [(old, new)]) (.str image) = (.str r, none) ∧
      (∀ pre post, image.data = pre ++ old.data ++ post →
        (∀ pre' post', image.data = pre' ++ old.data ++ post' → pre.length ≤ pre'.length) →
        r.data = pre ++ new.data ++ post) ∧
      ((¬ ∃ pre post, image.data = pre ++ old.data ++ post) → r = image)) ∧
    ImageTransform (.sourceMap []) (.str image) = (.str image, none) := by
  refine ⟨?_, ?_, rfl⟩
  · intro h
    cases v with
    | str s => exact absurd rfl (h s)
    | _ => rfl
  · refine ⟨strings_Replace1 image old new, rfl, ?_, ?_⟩
    · intro pre post hs hmin
      exact replaceFirst_first old.data new.data image.data pre post hs hmin
    · intro hno
      apply strings_Replace1_absent
      unfold strings_Contains
      cases hc : containsSub old.data image.data with
      | false => rfl
      | true => exact absurd ((containsSub_iff old.data image.data).mp hc) hno

/-- C14 at the example of the test: `test` with tes -> 1 gives `1t`; a number is handed back
with the error. -/
theorem ImageTransform_semantics_witness :
    ImageTransform (.sourceMap [("tes", "1")]) (.str "test") = (.str "1t", none) ∧
    ImageTransform (.sourceMap [("tes", "1")]) (.num 7) =
      (.num 7, some "cannot change the image as it\x27s not a string") ∧
    ImageTransform (.sourceMap []) (.str "test") = (.str "test", none) :=
  ⟨rfl,
   (ImageTransform_semantics (.sourceMap [("tes", "1")]) (.num 7) "test" "tes" "1").1
     (fun s h => by cases h),
   (ImageTransform_semantics (.sourceMap [("tes", "1")]) (.num 7) "test" "tes" "1").2.2⟩

/-! ### The dispatcher: claims C15, C16 and C17 -/

/-- C15: for every tree whose `kind` is absent or not a string, whatever the configuration,
`Execute` returns the item as it was, with the error "resource kind field error". -/
theorem Execute_kind_missing (cv : Converter) (p : ObjectRestoreTransformer) (item : Object)
    (h : ∀ kind, item.lookup "kind" ≠ some (.str kind)) :
    Execute cv p item = .ret item (some "resource kind field error") := by
  cases hk : item.lookup "kind" with
  | none => simp [Execute, hk]
  | some v =>
    cases v with
    | str kind => exact absurd hk (h kind)
    | _ => simp [Execute, hk]

/-- C15 at scenario E1, and at a tree whose kind is a number. -/
theorem Execute_kind_missing_witness :
    Execute fixtureConverter fixtureConfigImages fixtureE1 =
      .ret fixtureE1 (some "resource kind field error") ∧
    Execute fixtureConverter fixtureConfigImages (("kind", .num 1) :: fixtureE1) =
      .ret (("kind", .num 1) :: fixtureE1) (some "resource kind field error") :=
  ⟨Execute_kind_missing fixtureConverter fixtureConfigImages fixtureE1
     (fun kind h => by
       rw [show List.lookup "kind" fixtureE1 = none from rfl] at h
       cases h),
   Execute_kind_missing fixtureConverter fixtureConfigImages (("kind", .num 1) :: fixtureE1)
     (fun kind h => by
       rw [show List.lookup "kind" (("kind", Value.num 1) :: fixtureE1) = some (.num 1)
         from rfl] at h
       cases h)⟩

/-- C16: for every tree of kind PersistentVolume that decodes to a PV whose name has no entry
in the configuration, `TransformPersistentVolume` returns no rewrite and no error and
`Execute` returns the input tree and no error; and likewise for a tree of kind StorageClass
and `TransformStorageClass`. -/
theorem Execute_missing_config (cv : Converter) (p : ObjectRestoreTransformer) (item : Object) :
    (∀ pv, item.lookup "kind" = some (.str "PersistentVolume") →
      cv.FromUnstructuredPV item = .ok pv →
      p.conf.PersistentVolume.lookup pv.ObjectMeta.Name = none →
      TransformPersistentVolume cv p item = .ret none none ∧
      Execute cv p item = .ret item none) ∧
    (∀ sc, item.lookup "kind" = some (.str "StorageClass") →
      cv.FromUnstructuredSC item = .ok sc →
      p.conf.StorageClass.lookup sc.ObjectMeta.Name = none →
      TransformStorageClass cv p item = .ret none none ∧
      Execute cv p item = .ret item none) := by
  constructor
  · intro pv hk hd hc
    have ht : TransformPersistentVolume cv p item = .ret none none := by
      simp [TransformPersistentVolume, hd, hc]
    refine ⟨ht, ?_⟩
    simp [Execute, hk, ht]
  · intro sc hk hd hc
    have ht : TransformStorageClass cv p item = .ret none none := by
      simp [TransformStorageClass, hd, hc]
    refine ⟨ht, ?_⟩
    simp [Execute, hk, ht]

/-- C16 at the trees of the examples and a transformer with no entry for any volume or
class. -/
theorem Execute_missing_config_witness :
    (TransformPersistentVolume fixtureConverter fixtureConfigImages fixtureTreePV =
        .ret none none ∧
      Execute fixtureConverter fixtureConfigImages fixtureTreePV = .ret fixtureTreePV none) ∧
    (TransformStorageClass fixtureConverter fixtureConfigImages (fixtureTreeSC none) =
        .ret none none ∧
      Execute fixtureConverter fixtureConfigImages (fixtureTreeSC none) =
        .ret (fixtureTreeSC none) none) :=
  ⟨(Execute_missing_config fixtureConverter fixtureConfigImages fixtureTreePV).1 fixturePV
     rfl rfl rfl,
   (Execute_missing_config fixtureConverter fixtureConfigImages (fixtureTreeSC none)).2
     (fixtureSC none) rfl rfl rfl⟩

/-- C17: for every tree of kind PersistentVolume that decodes to a PV whose configuration
entry lacks `transform_to`, or has a `transform_to` that is not OSS, DISK or NAS,
`TransformPersistentVolume` returns an error and no PV, and `Execute` returns the item as it
was with that error; and likewise for a tree of kind StorageClass whose entry lacks
`alibaba_ACK_provisioner` or has one that is not DISK or NAS. -/
theorem Execute_malformed_tag (cv : Converter) (p : ObjectRestoreTransformer) (item : Object) :
    (∀ pv pvConf, item.lookup "kind" = some (.str "PersistentVolume") →
      cv.FromUnstructuredPV item = .ok pv →
      p.conf.PersistentVolume.lookup pv.ObjectMeta.Name = some pvConf →
      (pvConf.lookup "transform_to" = none ∨
        ∃ vtype, pvConf.lookup "transform_to" = some vtype ∧
          vtype ≠ "OSS" ∧ vtype ≠ "DISK" ∧ vtype ≠ "NAS") →
      ∃ err, TransformPersistentVolume cv p item = .ret none (some err) ∧
        Execute cv p item = .ret item (some err)) ∧
    (∀ sc scConf, item.lookup "kind" = some (.str "StorageClass") →
      cv.FromUnstructuredSC item = .ok sc →
      p.conf.StorageClass.lookup sc.ObjectMeta.Name = some scConf →
      (scConf.lookup "alibaba_ACK_provisioner" = none ∨
        ∃ provisioner, scConf.lookup "alibaba_ACK_provisioner" = some provisioner ∧
          provisioner ≠ "DISK" ∧ provisioner ≠ "NAS") →
      ∃ err, TransformStorageClass cv p item = .ret none (some err) ∧
        Execute cv p item = .ret item (some err)) := by
  constructor
  · intro pv pvConf hk hd hc htag
    have ht : ∃ err, TransformPersistentVolume cv p item = .ret none (some err) := by
      rcases htag with h | ⟨vtype, h, h1, h2, h3⟩
      · exact ⟨"transform_to field of volume config need to be set",
          by simp [TransformPersistentVolume, hd, hc, h]⟩
      · exact ⟨"unsupported type of volume config: " ++ vtype,
          by simp [TransformPersistentVolume, hd, hc, h, h1, h2, h3]⟩
    obtain ⟨err, ht⟩ := ht
    exact ⟨err, ht, by simp [Execute, hk, ht]⟩
  · intro sc scConf hk hd hc htag
    have ht : ∃ err, TransformStorageClass cv p item = .ret none (some err) := by
      rcases htag with h | ⟨provisioner, h, h1, h2⟩
      · exact ⟨"alibaba_ACK_provisioner field of volume config need to be set",
          by simp [TransformStorageClass, hd, hc, h]⟩
      · exact ⟨"unsupported provisioner of storageclass config: " ++ provisioner,
          by simp [TransformStorageClass, hd, hc, h, h1, h2]⟩
    obtain ⟨err, ht⟩ := ht
    exact ⟨err, ht, by simp [Execute, hk, ht]⟩

/-- C17 at entries with no tag and at entries with a tag that is not supported. -/
theorem Execute_malformed_tag_witness :
    (∃ err, TransformPersistentVolume fixtureConverter fixtureConfigNoTag fixtureTreePV =
        .ret none (some err) ∧
      Execute fixtureConverter fixtureConfigNoTag fixtureTreePV =
        .ret fixtureTreePV (some err)) ∧
    (∃ err, TransformPersistentVolume fixtureConverter fixtureConfigBadTag fixtureTreePV =
        .ret none (some err) ∧
      Execute fixtureConverter fixtureConfigBadTag fixtureTreePV =
        .ret fixtureTreePV (some err)) ∧
    (∃ err, TransformStorageClass fixtureConverter fixtureConfigNoTag (fixtureTreeSC none) =
        .ret none (some err) ∧
      Execute fixtureConverter fixtureConfigNoTag (fixtureTreeSC none) =
        .ret (fixtureTreeSC none) (some err)) ∧
    (∃ err, TransformStorageClass fixtureConverter fixtureConfigBadTag (fixtureTreeSC none) =
        .ret none (some err) ∧
      Execute fixtureConverter fixtureConfigBadTag (fixtureTreeSC none) =
        .ret (fixtureTreeSC none) (some err)) :=
  ⟨(Execute_malformed_tag fixtureConverter fixtureConfigNoTag fixtureTreePV).1 fixturePV
     [("bucket", "b")] rfl rfl rfl (.inl rfl),
   (Execute_malformed_tag fixtureConverter fixtureConfigBadTag fixtureTreePV).1 fixturePV
     [("transform_to", "CEPH")] rfl rfl rfl
     (.inr ⟨"CEPH", rfl, by decide, by decide, by decide⟩),
   (Execute_malformed_tag fixtureConverter fixtureConfigNoTag (fixtureTreeSC none)).2
     (fixtureSC none) [("type", "cloud_ssd")] rfl rfl rfl (.inl rfl),
   (Execute_malformed_tag fixtureConverter fixtureConfigBadTag (fixtureTreeSC none)).2
     (fixtureSC none) [("alibaba_ACK_provisioner", "OSS")] rfl rfl rfl
     (.inr ⟨"OSS", rfl, by decide, by decide⟩)⟩

/-! ### The configuration loader: claim C18 -/

/-- C18: when the configuration file is absent `LoadConfig` returns no error and leaves the
configuration as it was; when the file cannot be opened, cannot be read or does not parse it
returns an error and leaves the configuration as it was; when the file is read and parsed it
returns no error and the configuration is what the file parsed to; so the configuration
changes only when the file is read and parsed. -/
theorem LoadConfig_atomic (file : ConfigFile) (p : ObjectRestoreTransformer) :
    (file = .absent → LoadConfig file p = (p, none)) ∧
    (∀ err, file = .openError err ∨ file = .readError err ∨ file = .data (.error err) →
      ∃ msg, LoadConfig file p = (p, some msg)) ∧
    (∀ config, file = .data (.ok config) → LoadConfig file p = (⟨config⟩, none)) ∧
    ((LoadConfig file p).1 = p ∨
      ∃ config, file = .data (.ok config) ∧ (LoadConfig file p).1.conf = config) := by
  refine ⟨?_, ?_, ?_, ?_⟩
  · intro h; subst h; rfl
  · intro err h
    rcases h with h | h | h <;> subst h <;> exact ⟨_, rfl⟩
  · intro config h; subst h; rfl
  · cases file with
    | absent => exact .inl rfl
    | openError err => exact .inl rfl
    | readError err => exact .inl rfl
    | data unmarshal =>
      cases unmarshal with
      | error err => exact .inl rfl
      | ok config => exact .inr ⟨config, rfl, rfl⟩

/-- C18 at a transformer that has loaded the image source tes -> 1: an absent file and a file
that does not parse leave it, a file with tes -> 2 replaces it. -/
theorem LoadConfig_atomic_witness :
    LoadConfig .absent (NewObjectRestoreTransformer (fixtureFile "1")) =
      (NewObjectRestoreTransformer (fixtureFile "1"), none) ∧
    (∃ msg, LoadConfig (.data (.error "unexpected end of JSON input"))
        (NewObjectRestoreTransformer (fixtureFile "1")) =
      (NewObjectRestoreTransformer (fixtureFile "1"), some msg)) ∧
    LoadConfig (fixtureFile "2") (NewObjectRestoreTransformer (fixtureFile "1")) =
      (NewObjectRestoreTransformer (fixtureFile "2"), none) :=
  ⟨(LoadConfig_atomic .absent (NewObjectRestoreTransformer (fixtureFile "1"))).1 rfl,
   (LoadConfig_atomic (.data (.error "unexpected end of JSON input"))
     (NewObjectRestoreTransformer (fixtureFile "1"))).2.1 _ (.inr (.inr rfl)),
   (LoadConfig_atomic (fixtureFile "2") (NewObjectRestoreTransformer (fixtureFile "1"))).2.2.1
     _ rfl⟩

/-! ### The missing nil check: claim C20 -/

/-- C20: the code at the failing input.  For a StorageClass tree without `reclaimPolicy` and
the DISK entry of scenario E5, whose type `cloud_ssd` is supported,
`createDiskStorageClass` is reached with a nil `sc.ReclaimPolicy` and panics, and so do
`TransformStorageClass` and `Execute`; with `reclaimPolicy: Delete` in the tree the same
calls return. -/
theorem TransformStorageClass_panics_without_policy :
    fixtureConverter.FromUnstructuredSC (fixtureTreeSC none) = .ok (fixtureSC none) ∧
    (fixtureSC none).ReclaimPolicy = none ∧
    TransformStorageClass fixtureConverter fixtureConfigDisk (fixtureTreeSC none) = .panic ∧
    Execute fixtureConverter fixtureConfigDisk (fixtureTreeSC none) = .panic ∧
    (∃ sc, TransformStorageClass fixtureConverter fixtureConfigDisk
      (fixtureTreeSC (some "Delete")) = .ret (some sc) none) :=
  ⟨rfl, rfl, by decide, rfl, ⟨_, rfl⟩⟩

/-! ### The iteration order: claim C19 -/

theorem OperateObjectFields_cons (k : String) (v : Value) (rest : Object) :
    ((OperateObjectFields ((k, v) :: rest) f a op).err = none ↔
      (fieldWalk k v f a op).2 = none ∧ (OperateObjectFields rest f a op).err = none) ∧
    ((OperateObjectFields ((k, v) :: rest) f a op).err = none →
      (OperateObjectFields ((k, v) :: rest) f a op).obj =
        (k, (fieldWalk k v f a op).1) :: (OperateObjectFields rest f a op).obj) := by
  by_cases hk : k = f
  · subst hk
    rw [OperateObjectFields_target]
    unfold fieldWalk
    rw [if_pos rfl]
    split <;> rename_i hop <;> simp [hop]
  · rw [OperateObjectFields_other f a op k v rest hk]
    unfold fieldWalk
    rw [if_neg hk]
    split <;> rename_i he <;> simp [he]

theorem operateItems_cons (e : Value) (rest : List Value) (i : Nat) :
    ((operateItems (e :: rest) i f a op).err = none ↔
      (itemWalk e f a op).2 = none ∧ (operateItems rest (i + 1) f a op).err = none) ∧
    ((operateItems (e :: rest) i f a op).err = none →
      (operateItems (e :: rest) i f a op).obj =
        (itemWalk e f a op).1 :: (operateItems rest (i + 1) f a op).obj) := by
  by_cases hmap : ∃ n, e = .map n
  · obtain ⟨n, rfl⟩ := hmap
    rw [operateItems_map]
    unfold itemWalk
    split <;> rename_i he <;> simp [he]
  · rw [operateItems_skip f a op e rest i (fun n hn => hmap ⟨n, hn⟩)]
    have : itemWalk e f a op = (e, none) := by
      cases e with
      | map n => exact absurd ⟨n, rfl⟩ hmap
      | _ => rfl
    simp [this]

/-- The index at which the inner loop starts matters to the record of the calls only. -/
theorem operateItems_index : ∀ (l : List Value) (i j : Nat),
    (operateItems l i f a op).obj = (operateItems l j f a op).obj ∧
    (operateItems l i f a op).err = (operateItems l j f a op).err
  | [], i, j => by simp [operateItems_nil]
  | e :: rest, i, j => by
    have ih := operateItems_index rest (i + 1) (j + 1)
    by_cases hmap : ∃ n, e = .map n
    · obtain ⟨n, rfl⟩ := hmap
      rw [operateItems_map, operateItems_map]
      split <;> simp [ih.1, ih.2]
    · rw [operateItems_skip f a op e rest i (fun n hn => hmap ⟨n, hn⟩),
        operateItems_skip f a op e rest j (fun n hn => hmap ⟨n, hn⟩)]
      simp [ih.1, ih.2]

theorem itemWalk_map (n : Object) :
    itemWalk (.map n) f a op =
      ((operateValue (.map n) f a op).obj, (operateValue (.map n) f a op).err) := by
  rw [operateValue_map]
  rfl

theorem itemWalk_seq (l : List Value) : itemWalk (.seq l) f a op = (.seq l, none) := rfl

/-- The walk of a value, as the value of a field and as an element of a sequence, on the same
value in another iteration order. -/
theorem walk_reorder (hop : OrderInsensitive a op) :
    ∀ v w, Reorder v w →
      ((operateValue v f a op).err = none ↔ (operateValue w f a op).err = none) ∧
      ((operateValue v f a op).err = none →
        Reorder (operateValue v f a op).obj (operateValue w f a op).obj) ∧
      ((itemWalk v f a op).2 = none ↔ (itemWalk w f a op).2 = none) ∧
      ((itemWalk v f a op).2 = none → Reorder (itemWalk v f a op).1 (itemWalk w f a op).1) := by
  intro v w h
  induction h with
  | refl v => exact ⟨Iff.rfl, fun _ => .refl _, Iff.rfl, fun _ => .refl _⟩
  | @mapCons k v w m n hv hm ihv ihm =>
    have hfield : ((fieldWalk k v f a op).2 = none ↔ (fieldWalk k w f a op).2 = none) ∧
        ((fieldWalk k v f a op).2 = none →
          Reorder (fieldWalk k v f a op).1 (fieldWalk k w f a op).1) := by
      unfold fieldWalk
      by_cases hk : k = f
      · rw [if_pos hk, if_pos hk]
        have h1 := hop v w hv
        cases hov : op a v with
        | mk r1 e1 =>
          cases how : op a w with
          | mk r2 e2 =>
            rw [hov, how] at h1
            cases e1 with
            | none =>
              have : e2 = none := h1.1.mp rfl
              subst this
              exact ⟨Iff.rfl, fun _ => h1.2 rfl⟩
            | some err1 =>
              cases e2 with
              | none => exact absurd (h1.1.mpr rfl) (by simp)
              | some err2 => simp
      · rw [if_neg hk, if_neg hk]
        exact ⟨ihv.1, ihv.2.1⟩
    have hc1 := OperateObjectFields_cons f a op k v m
    have hc2 := OperateObjectFields_cons f a op k w n
    have hrest := ihm.1
    have hrobj := ihm.2.1
    simp only [operateValue_map] at hrest hrobj
    have herr : (operateValue (.map ((k, v) :: m)) f a op).err = none ↔
        (operateValue (.map ((k, w) :: n)) f a op).err = none := by
      simp only [operateValue_map]
      constructor
      · intro he
        have h1 := hc1.1.mp he
        exact hc2.1.mpr ⟨hfield.1.mp h1.1, hrest.mp h1.2⟩
      · intro he
        have h1 := hc2.1.mp he
        exact hc1.1.mpr ⟨hfield.1.mpr h1.1, hrest.mpr h1.2⟩
    have hobj : (operateValue (.map ((k, v) :: m)) f a op).err = none →
        Reorder (operateValue (.map ((k, v) :: m)) f a op).obj
          (operateValue (.map ((k, w) :: n)) f a op).obj := by
      intro he
      have he2 := herr.mp he
      simp only [operateValue_map] at he he2 ⊢
      rw [hc1.2 he, hc2.2 he2]
      have h1 := hc1.1.mp he
      exact .mapCons (hfield.2 h1.1) (hrobj h1.2)
    refine ⟨herr, hobj, ?_, ?_⟩
    · rw [itemWalk_map, itemWalk_map]
      exact herr
    · rw [itemWalk_map, itemWalk_map]
      exact hobj
  | mapSwap e1 e2 m =>
    obtain ⟨k1, v1⟩ := e1
    obtain ⟨k2, v2⟩ := e2
    have ha1 := OperateObjectFields_cons f a op k1 v1 ((k2, v2) :: m)
    have ha2 := OperateObjectFields_cons f a op k2 v2 m
    have hb1 := OperateObjectFields_cons f a op k2 v2 ((k1, v1) :: m)
    have hb2 := OperateObjectFields_cons f a op k1 v1 m
    have herr : (operateValue (.map ((k1, v1) :: (k2, v2) :: m)) f a op).err = none ↔
        (operateValue (.map ((k2, v2) :: (k1, v1) :: m)) f a op).err = none := by
      simp only [operateValue_map]
      constructor
      · intro he
        have h1 := ha1.1.mp he
        have h2 := ha2.1.mp h1.2
        exact hb1.1.mpr ⟨h2.1, hb2.1.mpr ⟨h1.1, h2.2⟩⟩
      · intro he
        have h1 := hb1.1.mp he
        have h2 := hb2.1.mp h1.2
        exact ha1.1.mpr ⟨h2.1, ha2.1.mpr ⟨h1.1, h2.2⟩⟩
    have hobj : (operateValue (.map ((k1, v1) :: (k2, v2) :: m)) f a op).err = none →
        Reorder (operateValue (.map ((k1, v1) :: (k2, v2) :: m)) f a op).obj
          (operateValue (.map ((k2, v2) :: (k1, v1) :: m)) f a op).obj := by
      intro he
      have he2 := herr.mp he
      simp only [operateValue_map] at he he2 ⊢
      rw [ha1.2 he, hb1.2 he2, ha2.2 (ha1.1.mp he).2, hb2.2 (hb1.1.mp he2).2]
      exact .mapSwap _ _ _
    refine ⟨herr, hobj, ?_, ?_⟩
    · rw [itemWalk_map, itemWalk_map]
      exact herr
    · rw [itemWalk_map, itemWalk_map]
      exact hobj
  | @seqCons v w l r hv hl ihv ihl =>
    have hc1 := operateItems_cons f a op v l 0
    have hc2 := operateItems_cons f a op w r 0
    have hi1 := operateItems_index f a op l 1 0
    have hi2 := operateItems_index f a op r 1 0
    have hrest := ihl.1
    have hrobj := ihl.2.1
    simp only [operateValue_seq] at hrest hrobj
    have herr : (operateValue (.seq (v :: l)) f a op).err = none ↔
        (operateValue (.seq (w :: r)) f a op).err = none := by
      simp only [operateValue_seq]
      constructor
      · intro he
        have h1 := hc1.1.mp he
        exact hc2.1.mpr ⟨ihv.2.2.1.mp h1.1, hi2.2 ▸ hrest.mp (hi1.2 ▸ h1.2)⟩
      · intro he
        have h1 := hc2.1.mp he
        exact hc1.1.mpr ⟨ihv.2.2.1.mpr h1.1, hi1.2 ▸ hrest.mpr (hi2.2 ▸ h1.2)⟩
    refine ⟨herr, ?_, ?_, ?_⟩
    · intro he
      have he2 := herr.mp he
      simp only [operateValue_seq] at he he2 ⊢
      rw [hc1.2 he, hc2.2 he2, hi1.1, hi2.1]
      have h1 := hc1.1.mp he
      rw [hi1.2] at h1
      exact .seqCons (ihv.2.2.2 h1.1) (hrobj h1.2)
    · rw [itemWalk_seq, itemWalk_seq]
    · intro _
      rw [itemWalk_seq, itemWalk_seq]
      exact .seqCons hv hl
  | @trans u v w huv hvw ih1 ih2 =>
    refine ⟨ih1.1.trans ih2.1, ?_, ih1.2.2.1.trans ih2.2.2.1, ?_⟩
    · intro he
      exact .trans (ih1.2.1 he) (ih2.2.1 (ih1.1.mp he))
    · intro he
      exact .trans (ih1.2.2.2 he) (ih2.2.2.2 (ih1.2.2.1.mp he))

theorem Reorder.str_iff {v w : Value} (h : Reorder v w) (s : String) :
    v = .str s ↔ w = .str s := by
  induction h with
  | refl v => exact Iff.rfl
  | mapCons _ _ _ _ => constructor <;> intro h <;> cases h
  | mapSwap _ _ _ => constructor <;> intro h <;> cases h
  | seqCons _ _ _ _ => constructor <;> intro h <;> cases h
  | trans _ _ ih1 ih2 => exact ih1.trans ih2

/-- The `ImageTransform` does not read the iteration order of the image it is given. -/
theorem ImageTransform_orderInsensitive (sourceMap : OpArg) :
    OrderInsensitive sourceMap ImageTransform := by
  intro v w h
  by_cases hs : ∃ s, v = .str s
  · obtain ⟨s, rfl⟩ := hs
    have hw : w = .str s := (h.str_iff s).mp rfl
    subst hw
    exact ⟨Iff.rfl, fun _ => .refl _⟩
  · have hv : (ImageTransform sourceMap v).2 ≠ none := by
      cases v with
      | str s => exact absurd ⟨s, rfl⟩ hs
      | _ => simp [ImageTransform]
    have hw : (ImageTransform sourceMap w).2 ≠ none := by
      cases w with
      | str s => exact absurd ⟨s, (h.str_iff s).mpr rfl⟩ hs
      | _ => simp [ImageTransform]
    exact ⟨⟨fun h1 => absurd h1 hv, fun h1 => absurd h1 hw⟩, fun h1 => absurd h1 hv⟩

/-- C19: for every tree, field name and operation that is a function of its arguments as Go
values, and for the same tree with the keys of its mappings iterated in any other order,
`OperateObjectFields` returns an error on the one if and only if it does on the other, and
when it returns no error the trees it leaves are the same up to the iteration order. -/
theorem OperateObjectFields_order_independent {α : Type} (obj obj' : Object)
    (field_name : String) (op_arg : α) (operation : α → Value → Value × Option String)
    (hop : OrderInsensitive op_arg operation) (h : Reorder (.map obj) (.map obj')) :
    ((OperateObjectFields obj field_name op_arg operation).err = none ↔
      (OperateObjectFields obj' field_name op_arg operation).err = none) ∧
    ((OperateObjectFields obj field_name op_arg operation).err = none →
      Reorder (.map (OperateObjectFields obj field_name op_arg operation).obj)
        (.map (OperateObjectFields obj' field_name op_arg operation).obj)) := by
  have hw := walk_reorder field_name op_arg operation hop (.map obj) (.map obj') h
  simp only [operateValue_map] at hw
  exact ⟨hw.1, hw.2.1⟩

theorem fixtureE2_reorder : Reorder (.map fixtureE2) (.map fixtureE2Reordered) :=
  .trans (.mapSwap _ _ _) (.mapCons (.mapSwap _ _ _) (.refl _))

/-- C19 at the tree of scenario E2 and the same tree with its keys in another order: neither
walk fails and each leaves its tree with the three images rewritten. -/
theorem OperateObjectFields_order_independent_witness :
    (OperateObjectFields fixtureE2 "image" (OpArg.sourceMap [("tes", "1")])
      ImageTransform).obj = fixtureE2Rewritten ∧
    (OperateObjectFields fixtureE2Reordered "image" (OpArg.sourceMap [("tes", "1")])
      ImageTransform).obj = fixtureE2ReorderedRewritten ∧
    (((OperateObjectFields fixtureE2 "image" (OpArg.sourceMap [("tes", "1")])
        ImageTransform).err = none ↔
      (OperateObjectFields fixtureE2Reordered "image" (OpArg.sourceMap [("tes", "1")])
        ImageTransform).err = none) ∧
    ((OperateObjectFields fixtureE2 "image" (OpArg.sourceMap [("tes", "1")])
        ImageTransform).err = none →
      Reorder (.map (OperateObjectFields fixtureE2 "image" (OpArg.sourceMap [("tes", "1")])
          ImageTransform).obj)
        (.map (OperateObjectFields fixtureE2Reordered "image"
          (OpArg.sourceMap [("tes", "1")]) ImageTransform).obj))) :=
  ⟨rfl, rfl,
   OperateObjectFields_order_independent fixtureE2 fixtureE2Reordered "image"
     (OpArg.sourceMap [("tes", "1")]) ImageTransform
     (ImageTransform_orderInsensitive _) fixtureE2_reorder⟩

/-- A walk that fails leaves what it had done: with the image that is not a string iterated
first the other image is left, with it iterated last the other image is rewritten; both
walks fail. -/
theorem OperateObjectFields_failed_walk :
    (OperateObjectFields fixtureBadImageFirst "image" (OpArg.sourceMap [("tes", "1")])
      ImageTransform).obj = [("image", .num 1), ("spec", .map [("image", .str "test")])] ∧
    (OperateObjectFields fixtureBadImageLast "image" (OpArg.sourceMap [("tes", "1")])
      ImageTransform).obj = [("spec", .map [("image", .str "1t")]), ("image", .num 1)] ∧
    (OperateObjectFields fixtureBadImageFirst "image" (OpArg.sourceMap [("tes", "1")])
      ImageTransform).err = some "cannot change the image as it\x27s not a string" ∧
    (OperateObjectFields fixtureBadImageLast "image" (OpArg.sourceMap [("tes", "1")])
      ImageTransform).err = some "cannot change the image as it\x27s not a string" :=
  ⟨rfl, rfl, rfl, rfl⟩

end Velero
